import Mathlib

/-!
# rrfile: a round-robin record file

A shallow embedding of `rrfile.c` / `rrfile.h` and the properties of its
buffering, flushing, rotation and error-reporting paths.

Modelling conventions

* Bytes and machine words are natural numbers. The two 32-bit counters that can
  really wrap (`write_index`, `current_file_bytes`) and the error count that the
  drain subtracts from are reduced modulo `2^32` where the C code updates them.
* What the C source leaves to the compiler is a parameter (`Platform`): the size of
  a pointer, which `rrf_write_async` adds to `count` after storing a length word
  (`sizeof(header)` with `unsigned *header`), and the byte order of an `unsigned`.
* The pool of write blocks is a block memory `blocks : Nat → rrf_write_block_t`
  indexed by the position of the block in `rrf_block_cache_buffer`. The `next`
  links of the free list and of a pending chain are represented by the list of
  block indices they thread, head first. `h->current` is a block index, so it
  keeps designating the same block after that block has moved between chains.
* `FILE *` values are the partition index the stream was opened on; a partition
  file is the list of bytes it contains. Every stream of the library is opened
  with `"wb+"` and only ever repositioned to offset 0 directly afterwards, so
  `fwrite` always appends.
* The C library is an environment (`Host`): the outcome of the `n`-th library
  call is read from per-call oracles, which lets `fwrite` be short or `fopen`,
  `fseek` and `malloc` fail. `Host.reliable` says that no call ever fails.
* Loops that may not terminate take a fuel argument and return `none` when it
  runs out; `none` is also the result of a call that crashes the process.
* A completion callback is caller code; it is taken not to call back into the
  library, so invoking it leaves the library state as it is.
-/

namespace RRFile

/-! ## Platform and constants -/

/-- Properties of the C implementation that the source leaves to the compiler:
the size of a data pointer and the byte order of an `unsigned`. -/
structure Platform where
  pointer_64 : Bool
  big_endian : Bool

/-- The value of `sizeof(unsigned *)`. -/
def Platform.ptr_bytes (P : Platform) : Nat := if P.pointer_64 then 8 else 4

/-- A 64-bit little-endian target (`sizeof(unsigned *) = 8`). -/
def LP64 : Platform := ⟨true, false⟩

/-- A 32-bit little-endian target (`sizeof(unsigned *) = 4`). -/
def ILP32 : Platform := ⟨false, false⟩

def RRF_SIG_V1 : Nat := (114 <<< 24) ||| (114 <<< 16) ||| (102 <<< 8) ||| 1
def RRF_WRITE_BLOCK_SIZE : Nat := 4096
def RRF_ERRORS_MAX : Nat := 16
def RRF_WRITE_BLOCK_CACHE : Nat := 8
def RRF_MIN (a b : Nat) : Nat := if a < b then a else b
def RRF_MAX (a b : Nat) : Nat := if a > b then a else b

/-- The modulus of `unsigned` arithmetic. -/
def UINT_MOD : Nat := 4294967296

/-- The value of `sizeof(unsigned)`. -/
def SIZEOF_UNSIGNED : Nat := 4

def RRF_ERR_CLASS_INT : Nat := 1
def RRF_OPEN_FAILED : Nat := 2
def RRF_MALLOC_FAILED : Nat := 3
def RRF_ERR_CLASS_IO : Nat := 10
def RRF_WRITE_BUFFER_FULL : Nat := 11
def RRF_WRITE_FAILED : Nat := 12
def RRF_SEEK_FAILED : Nat := 13
def RRF_ERR_CLASS_API : Nat := 20
def RRF_INVALID_ARGUMENT : Nat := 21

/-! ## Data model -/

/-- An error record. `message` is `none` for a NULL message; `line` is the line
of `rrfile.c` that raised it. -/
structure rrf_error_t where
  message : Option String
  code : Nat
  file : Option String
  line : Nat
deriving DecidableEq, Repr

/-- The error record left by `memset(&rrf_sys_error, 0, ...)`. -/
def rrf_error_zero : rrf_error_t := ⟨none, 0, none, 0⟩

/-- A write block: the cursors and the byte cells of `buffer`. -/
structure rrf_write_block_t where
  count : Nat
  written : Nat
  buffer : Nat → Nat

/-- The caller's completion context. Pointers are `none` when NULL; `rvalue` is
the block and offset the last flushed bytes came from. -/
structure rrf_context_t where
  handle : Option Nat
  callback : Option Nat
  userdata : Nat
  rvalue : Option (Nat × Nat)
  size : Nat
deriving DecidableEq, Repr

structure rrf_handle_t where
  current_file : Option Nat
  write_index : Nat
  file_index : Nat
  current_file_bytes : Nat
  last_record_start : Nat
  filepath : String
  partitions : Nat
  size : Nat
  pending : List Nat
  current : Option Nat
  context : Option rrf_context_t
  errors : Nat
  errorbuf : Nat → rrf_error_t

/-- The C library and the file system beneath it. `closed` lists the streams that
have been through `fclose`, oldest first. -/
structure Host where
  files : Nat → List Nat
  calls : Nat
  malloc_fails : Nat → Bool
  fopen_fails : Nat → Bool
  fseek_fails : Nat → Bool
  fwrite_limit : Nat → Option Nat
  closed : List Nat

/-- The static data of `rrfile.c` together with the block memory and the host.
`flushed` is a history variable that no function reads: the stream and the bytes of
every block write that `rrf_service` has got through `fwrite`, oldest first. -/
structure Process where
  rrf_block_cache_head : List Nat
  rrf_block_cache_buffer : Bool
  blocks : Nat → rrf_write_block_t
  rrf_handles_active : Nat
  rrf_sys_error : rrf_error_t
  host : Host
  flushed : List (Nat × List Nat)

/-! ## Memory and host primitives -/

/-- Pointwise update of a table. -/
def upd {α : Type} (f : Nat → α) (i : Nat) (v : α) : Nat → α :=
  fun j => if j = i then v else f j

/-- The four bytes of an `unsigned` in memory order. -/
def u32_bytes (P : Platform) (x : Nat) : List Nat :=
  if P.big_endian then
    [x / 16777216 % 256, x / 65536 % 256, x / 256 % 256, x % 256]
  else
    [x % 256, x / 256 % 256, x / 65536 % 256, x / 16777216 % 256]

/-- Store the bytes `bs` into `buf` from offset `off` on. -/
def store (buf : Nat → Nat) (off : Nat) (bs : List Nat) : Nat → Nat :=
  fun i => if off ≤ i ∧ i < off + bs.length then bs.getD (i - off) 0 else buf i

/-- The `n` bytes of `buf` from offset `off` on. -/
def load (buf : Nat → Nat) (off n : Nat) : List Nat :=
  (List.range n).map (fun i => buf (off + i))

/-- No library call ever fails or falls short. -/
def Host.reliable (d : Host) : Prop :=
  (∀ n, d.malloc_fails n = false) ∧ (∀ n, d.fopen_fails n = false) ∧
  (∀ n, d.fseek_fails n = false) ∧ (∀ n, d.fwrite_limit n = none)

/-- The call `fwrite(bs, 1, |bs|, stream)`: the number of bytes written and the host afterwards. -/
def Host.fwrite (d : Host) (stream : Nat) (bs : List Nat) : Nat × Host :=
  let n := match d.fwrite_limit d.calls with
    | none => bs.length
    | some k => RRF_MIN k bs.length
  (n, { d with files := upd d.files stream (d.files stream ++ bs.take n), calls := d.calls + 1 })

/-- The call `fopen("<filepath>.<index>", "wb+")`: the file is created or truncated. -/
def Host.fopen (d : Host) (index : Nat) : Option Nat × Host :=
  if d.fopen_fails d.calls then (none, { d with calls := d.calls + 1 })
  else (some index, { d with files := upd d.files index [], calls := d.calls + 1 })

/-- The call `fseek(file, 0, SEEK_SET)` on a freshly opened stream; `true` on success. -/
def Host.fseek (d : Host) : Bool × Host :=
  (!d.fseek_fails d.calls, { d with calls := d.calls + 1 })

/-- The call `fclose(stream)`: the contents of the file stay, the stream is closed. -/
def Host.fclose (d : Host) (stream : Nat) : Host :=
  { d with closed := d.closed ++ [stream] }

/-- The call `malloc`; `true` when memory was obtained. -/
def Host.malloc (d : Host) : Bool × Host :=
  (!d.malloc_fails d.calls, { d with calls := d.calls + 1 })

/-! ## Internal api -/

/-- Source: `rrf_add_error`. -/
def rrf_add_error (g : Process) (h : Option rrf_handle_t) (code : Nat)
    (message : Option String) (line : Nat) : Process × Option rrf_handle_t :=
  let e : rrf_error_t := ⟨message, code, some "rrfile.c", line⟩
  match h with
  | some hh =>
    if hh.errors < RRF_ERRORS_MAX then
      (g, some { hh with errorbuf := upd hh.errorbuf hh.errors e, errors := hh.errors + 1 })
    else
      ({ g with rrf_sys_error := e }, some hh)
  | none => ({ g with rrf_sys_error := e }, none)

/-- The helper `RRF_ERROR(h, code, msg)` at a call site whose handle is not NULL. -/
def RRF_ERROR (g : Process) (h : rrf_handle_t) (code : Nat) (message : Option String)
    (line : Nat) : Process × rrf_handle_t :=
  ((rrf_add_error g (some h) code message line).1,
   ((rrf_add_error g (some h) code message line).2).getD h)

/-- Source: `rrf_safe_seek` (to position 0 of a freshly opened stream). -/
def rrf_safe_seek (g : Process) (h : rrf_handle_t) : Nat × Process × rrf_handle_t :=
  let r := g.host.fseek
  let g1 := { g with host := r.2 }
  if r.1 then (1, g1, h)
  else
    let e := RRF_ERROR g1 h RRF_SEEK_FAILED (some "strerror(errno)") 90
    (0, e.1, e.2)

/-- The 16 bytes that `rrf_stamp` assembles in `header`. -/
def stamp_bytes (P : Platform) (h : rrf_handle_t) : List Nat :=
  u32_bytes P RRF_SIG_V1 ++ u32_bytes P h.partitions ++ u32_bytes P h.size
    ++ u32_bytes P h.write_index

/-- Source: `rrf_stamp`. -/
def rrf_stamp (P : Platform) (g : Process) (h : rrf_handle_t) (stream : Nat) :
    Nat × Process × rrf_handle_t :=
  let w := g.host.fwrite stream (stamp_bytes P h)
  let g1 := { g with host := w.2 }
  if 16 ≠ w.1 then
    let e := RRF_ERROR g1 h RRF_WRITE_FAILED (some "strerror(errno)") 105
    (0, e.1, e.2)
  else
    (1, g1, { h with current_file_bytes := (h.current_file_bytes + 16) % UINT_MOD,
                     last_record_start := 16 })

/-- Source: `rrf_check_or_open`. -/
def rrf_check_or_open (P : Platform) (g : Process) (h : rrf_handle_t) (file : Option Nat)
    (file_index : Nat) : Option Nat × Process × rrf_handle_t :=
  match file with
  | some f => (some f, g, h)
  | none =>
    let o := g.host.fopen file_index
    let g1 := { g with host := o.2 }
    match o.1 with
    | none => (none, g1, h)
    | some f =>
      let s := rrf_safe_seek g1 h
      if s.1 = 0 then (none, s.2.1, s.2.2)
      else
        let t := rrf_stamp P s.2.1 s.2.2 f
        if t.1 = 0 then (none, t.2.1, t.2.2)
        else (some f, t.2.1, t.2.2)

/-- Source: `rrf_ensure_file_handles`. -/
def rrf_ensure_file_handles (P : Platform) (g : Process) (h : rrf_handle_t) :
    Nat × Process × rrf_handle_t :=
  match h.current_file with
  | some _ => (1, g, h)
  | none =>
    let r := rrf_check_or_open P g h h.current_file h.file_index
    let h1 := { r.2.2 with current_file := r.1 }
    match r.1 with
    | none =>
      let e := RRF_ERROR r.2.1 h1 RRF_OPEN_FAILED (some h1.filepath) 142
      (0, e.1, e.2)
    | some _ => (1, r.2.1, h1)

/-- Source: `rrf_roll_file_handles`. The result is `none` when the process dies
on the division by a zero partition count. -/
def rrf_roll_file_handles (P : Platform) (g : Process) (h : rrf_handle_t) :
    Option (Nat × Process × rrf_handle_t) :=
  match h.current_file with
  | none => some (1, g, h)
  | some f =>
    if h.current_file_bytes ≥ h.size then
      let t := rrf_stamp P g h f
      let g1 := { t.2.1 with host := t.2.1.host.fclose f }
      if t.2.2.partitions = 0 then none
      else
        let h1 := { t.2.2 with current_file := none, current_file_bytes := 0,
                               file_index := (t.2.2.file_index + 1) % t.2.2.partitions }
        some (rrf_ensure_file_handles P g1 h1)
    else some (1, g, h)

/-- Source: `rrf_get_write_block`; `fit` is `true` for `RRF_FIT` and `false` for `RRF_ANY`. -/
def rrf_get_write_block (g : Process) (h : rrf_handle_t) (size : Nat) (fit : Bool) :
    Option Nat × Process × rrf_handle_t :=
  let use_current : Option Nat :=
    match h.current with
    | none => none
    | some c =>
      if (g.blocks c).count < RRF_WRITE_BLOCK_SIZE ∧ fit = true
          ∧ size < RRF_WRITE_BLOCK_SIZE - (g.blocks c).count then some c else none
  match use_current with
  | some c => (some c, g, h)
  | none =>
    match g.rrf_block_cache_head with
    | [] => (none, g, { h with current := none })
    | b :: rest =>
      (some b,
       { g with rrf_block_cache_head := rest,
                blocks := upd g.blocks b { g.blocks b with count := 0, written := 0 } },
       { h with pending := b :: h.pending, current := some b })

/-- Source: `rrf_check_api_handle` when the handle is NULL: the fallback slot is overwritten. -/
def rrf_check_api_handle_failed (g : Process) : Process :=
  { g with rrf_sys_error := ⟨some "handle", RRF_INVALID_ARGUMENT, some "rrfile.c", 197⟩ }

/-- Source: `rrf_arg_not_null`; `ptr` tells whether the pointer is non-NULL. -/
def rrf_arg_not_null (g : Process) (h : Option rrf_handle_t) (ptr : Bool) (name : String) :
    Nat × Process × Option rrf_handle_t :=
  if ptr then (1, g, h)
  else
    let e := rrf_add_error g h RRF_INVALID_ARGUMENT (some name) 207
    (0, e.1, e.2)

/-! ## Public api -/

/-- The all-zero handle produced by `malloc` and `memset` in `rrf_create`, with the
path, partition count and size cap filled in. -/
def rrf_handle_new (filepath : String) (partitions size : Nat) : rrf_handle_t :=
  { current_file := none, write_index := 0, file_index := 0, current_file_bytes := 0,
    last_record_start := 0, filepath := filepath, partitions := partitions, size := size,
    pending := [], current := none, context := none, errors := 0,
    errorbuf := fun _ => rrf_error_zero }

/-- The record stored in the fallback slot when `malloc` fails at the given line. -/
def rrf_malloc_error (line : Nat) : rrf_error_t :=
  ⟨some "malloc()", RRF_MALLOC_FAILED, some "rrfile.c", line⟩

/-- Source: `rrf_create`. `handle` tells whether the out-pointer is non-NULL; the
third component is the handle stored through it. -/
def rrf_create (P : Platform) (g : Process) (handle : Bool) (filepath : String)
    (partitions size : Nat) : Nat × Process × Option rrf_handle_t :=
  if handle = false then (0, g, none)
  else
    let m1 := if g.rrf_block_cache_buffer then (true, g.host) else g.host.malloc
    if m1.1 = false then
      (0, { g with host := m1.2, rrf_sys_error := rrf_malloc_error 229 }, none)
    else
      let g1 : Process :=
        if g.rrf_block_cache_buffer then g
        else { g with host := m1.2, rrf_block_cache_buffer := true,
                      rrf_block_cache_head :=
                        (List.range RRF_WRITE_BLOCK_CACHE).foldl (fun hd b => b :: hd)
                          g.rrf_block_cache_head }
      let m2 := g1.host.malloc
      let g2 := { g1 with host := m2.2 }
      if m2.1 = false then
        (0, { g2 with rrf_sys_error := rrf_malloc_error 246 }, none)
      else
        let r := rrf_ensure_file_handles P g2 (rrf_handle_new filepath partitions size)
        if r.1 = 0 then (0, r.2.1, none)
        else (1, { r.2.1 with rrf_handles_active := (r.2.1.rrf_handles_active + 1) % UINT_MOD },
              some r.2.2)

/-- The copy loop of `rrf_write_async` (`while(total_left > 0)`). Every iteration
lowers `total_left`, so an initial fuel of `total_left` is never exhausted before the
loop ends. The first component is 1 when the whole record was copied. -/
def rrf_write_loop : Nat → Process → rrf_handle_t → List Nat → Nat → Nat →
    Nat × Process × rrf_handle_t
  | 0, g, h, _, _, _ => (1, g, h)
  | fuel + 1, g, h, record, readpos, total_left =>
    if total_left = 0 then (1, g, h)
    else
      let r := rrf_get_write_block g h total_left false
      match r.1 with
      | none =>
        let e := RRF_ERROR r.2.1 r.2.2 RRF_WRITE_BUFFER_FULL none 330
        (0, e.1, e.2)
      | some b =>
        let blk := r.2.1.blocks b
        let n := RRF_MIN (RRF_WRITE_BLOCK_SIZE - blk.count) total_left
        let blk1 : rrf_write_block_t :=
          { blk with buffer := store blk.buffer blk.count ((record.drop readpos).take n),
                     count := blk.count + n }
        rrf_write_loop fuel { r.2.1 with blocks := upd r.2.1.blocks b blk1 } r.2.2
          record (readpos + n) (total_left - n)

/-- The buffering part of `rrf_write_async`, from `// write the header` to the end:
the length word goes to a block that has room for it, the payload to the blocks the
copy loop takes, and on success the context is registered. -/
def buffer_record (P : Platform) (g : Process) (h : rrf_handle_t) (record : List Nat)
    (size : Nat) (ctx : Option rrf_context_t) : Nat × Process × Option rrf_handle_t :=
  let r := rrf_get_write_block g h SIZEOF_UNSIGNED true
  match r.1 with
  | none =>
    let e := RRF_ERROR r.2.1 r.2.2 RRF_WRITE_BUFFER_FULL none 317
    (0, e.1, some e.2)
  | some b =>
    let blk := r.2.1.blocks b
    let blk1 : rrf_write_block_t :=
      { blk with buffer := store blk.buffer blk.count (u32_bytes P size),
                 count := blk.count + P.ptr_bytes }
    let l := rrf_write_loop size { r.2.1 with blocks := upd r.2.1.blocks b blk1 }
              r.2.2 record 0 size
    if l.1 = 0 then (0, l.2.1, some l.2.2)
    else (1, l.2.1, some { l.2.2 with context := ctx })

/-- Source: `rrf_write_async`. `record` is `none` for a NULL pointer and otherwise the
bytes at the pointer. -/
def rrf_write_async (P : Platform) (g : Process) (h : Option rrf_handle_t)
    (record : Option (List Nat)) (size : Nat) (ctx : Option rrf_context_t) :
    Nat × Process × Option rrf_handle_t :=
  match h with
  | none => (0, rrf_check_api_handle_failed g, none)
  | some h0 =>
    let a := rrf_arg_not_null g (some h0) record.isSome "record"
    if a.1 = 0 then (0, a.2.1, a.2.2)
    else if size = 0 then (1, g, some h0)
    else
      let c1 := match ctx with
        | none => (1, g, some h0)
        | some c => rrf_arg_not_null g (some h0) c.handle.isSome "ctx.handle"
      if c1.1 = 0 then (0, c1.2.1, c1.2.2)
      else
        let c2 := match ctx with
          | none => (1, g, some h0)
          | some c => rrf_arg_not_null g (some h0) c.callback.isSome "ctx.callback"
        if c2.1 = 0 then (0, c2.2.1, c2.2.2)
        else
          let f := rrf_ensure_file_handles P g h0
          if f.1 = 0 then (0, f.2.1, some f.2.2)
          else buffer_record P f.2.1 f.2.2 (record.getD []) size ctx

/-- The test `written < 0` on `int written = fwrite(...)`. -/
def int_negative (n : Nat) : Bool := 2147483648 ≤ n % UINT_MOD

/-- The bytes of a block that `rrf_service` has still to write, `count - written` of
them from offset `written`. A block on a pending chain has `written ≤ count ≤ 4099`
(`PoolInv`), so the `unsigned` subtraction does not wrap and the count that `fwrite`
reports fits an `int`. -/
def block_bytes (g : Process) (b : Nat) : List Nat :=
  load (g.blocks b).buffer (g.blocks b).written ((g.blocks b).count - (g.blocks b).written)

/-- The part of the body of the loop of `rrf_service` between the test of `written`
and the rotation check, for the head block `b` of the chain `b :: rest`, after
`fwrite` to the stream `f` reported `w.1` bytes and left the host `w.2`: the
`written` cursor advances, the context is notified, a finished block goes back to
the free list, and the two counters advance. -/
def rrf_service_account (g : Process) (h : rrf_handle_t) (b : Nat) (rest : List Nat)
    (f : Nat) (w : Nat × Host) : Process × rrf_handle_t :=
  let blk := g.blocks b
  let blk1 : rrf_write_block_t := { blk with written := blk.written + w.1 }
  ({ g with host := w.2,
            flushed := g.flushed ++ [(f, (block_bytes g b).take w.1)],
            blocks := upd g.blocks b blk1,
            rrf_block_cache_head :=
              if blk1.written = blk1.count then b :: g.rrf_block_cache_head
              else g.rrf_block_cache_head },
   { h with context := h.context.map (fun (c : rrf_context_t) =>
              { c with rvalue := some (b, blk.written), size := w.1 }),
            pending := if blk1.written = blk1.count then rest else b :: rest,
            write_index := (h.write_index + 1) % UINT_MOD,
            current_file_bytes := (h.current_file_bytes + w.1) % UINT_MOD })

/-- One pass through `while(h->pending)` in `rrf_service`: the loop test and, when it
holds, the loop body. The result is `none` when the process crashes (`fwrite` on a
NULL stream, division by a zero partition count); otherwise its first component is
`some ret` when `rrf_service` returns `ret` at this point and `none` when the loop
goes round again. -/
def rrf_service_iter (P : Platform) (g : Process) (h : rrf_handle_t) :
    Option (Option Nat × Process × rrf_handle_t) :=
  match h.pending with
  | [] => some (some 0, g, h)
  | b :: rest =>
    match h.current_file with
    | none => none
    | some f =>
      let w := g.host.fwrite f (block_bytes g b)
      if int_negative w.1 then
        let e := RRF_ERROR
          { g with host := w.2, flushed := g.flushed ++ [(f, (block_bytes g b).take w.1)] } h
          RRF_WRITE_FAILED (some "strerror(errno)") 363
        some (some 0, e.1, e.2)
      else
        let a := rrf_service_account g h b rest f w
        match rrf_roll_file_handles P a.1 a.2 with
        | none => none
        | some r =>
          if r.1 = 0 then some (some (if r.2.2.pending = [] then 0 else 1), r.2.1, r.2.2)
          else some (none, r.2.1, r.2.2)

/-- The loop of `rrf_service`, run for at most `fuel` passes. -/
def rrf_service_loop (P : Platform) : Nat → Process → rrf_handle_t →
    Option (Nat × Process × rrf_handle_t)
  | 0, _, _ => none
  | fuel + 1, g, h =>
    match rrf_service_iter P g h with
    | none => none
    | some (some ret, g1, h1) => some (ret, g1, h1)
    | some (none, g1, h1) => rrf_service_loop P fuel g1 h1

/-- Source: `rrf_service`. -/
def rrf_service (P : Platform) (fuel : Nat) (g : Process) (h : Option rrf_handle_t) :
    Option (Nat × Process × Option rrf_handle_t) :=
  match h with
  | none => some (0, rrf_check_api_handle_failed g, none)
  | some h0 => (rrf_service_loop P fuel g h0).map (fun r => (r.1, r.2.1, some r.2.2))

/-- Source: `rrf_write`. -/
def rrf_write (P : Platform) (fuel : Nat) (g : Process) (h : Option rrf_handle_t)
    (record : Option (List Nat)) (size : Nat) : Option (Nat × Process × Option rrf_handle_t) :=
  let a := rrf_write_async P g h record size none
  if a.1 = 0 then some (0, a.2.1, a.2.2)
  else rrf_service P fuel a.2.1 a.2.2

/-- Source: `rrf_error`. The second component lists the records copied to the
caller's array. -/
def rrf_error (g : Process) (h : Option rrf_handle_t) (count : Nat) :
    Nat × List rrf_error_t × Process × Option rrf_handle_t :=
  if count = 0 then (0, [], g, h)
  else
    match h with
    | none => (1, [g.rrf_sys_error], { g with rrf_sys_error := rrf_error_zero }, none)
    | some hh =>
      if hh.errors = 0 then (0, [], g, some hh)
      else
        let count1 := RRF_MAX count hh.errors
        (count1, (List.range count1).map hh.errorbuf, g,
         some { hh with errors := (hh.errors + UINT_MOD - count1) % UINT_MOD })

/-- The loop `while(rrf_service(h))` of `rrf_close`, run for at most `rounds` calls of
`rrf_service`, each with the given fuel. -/
def rrf_close_loop (P : Platform) (fuel : Nat) : Nat → Process → rrf_handle_t →
    Option (Process × rrf_handle_t)
  | 0, _, _ => none
  | rounds + 1, g, h =>
    match rrf_service_loop P fuel g h with
    | none => none
    | some r => if r.1 = 0 then some (r.2.1, r.2.2) else rrf_close_loop P fuel rounds r.2.1 r.2.2

/-- Source: `rrf_close`. The handle is `none` when `handle` or `*handle` is NULL. The
result is `none` when the call does not return: `fclose` on a NULL stream crashes. -/
def rrf_close (P : Platform) (fuel rounds : Nat) (g : Process) (h : Option rrf_handle_t) :
    Option (Nat × Process × Option rrf_handle_t) :=
  match h with
  | none => some (2, rrf_check_api_handle_failed g, none)
  | some h0 =>
    match rrf_close_loop P fuel rounds g h0 with
    | none => none
    | some r =>
      match r.2.current_file with
      | none => none
      | some f =>
        let active := (r.1.rrf_handles_active + UINT_MOD - 1) % UINT_MOD
        let g1 := { r.1 with host := r.1.host.fclose f, rrf_handles_active := active }
        let g2 := if active = 0 then
            { g1 with rrf_block_cache_buffer := false, rrf_block_cache_head := [] } else g1
        some (0, g2, some r.2)

/-! ## Program states -/

/-- A host on which no call fails, holding the given files. -/
def Host.ideal (files : Nat → List Nat) : Host :=
  ⟨files, 0, fun _ => false, fun _ => false, fun _ => false, fun _ => none, []⟩

/-- The process at program start: the statics of `rrfile.c` are zero, and the memory
that `malloc` will hand out holds `mem`. -/
def Process.start (mem : Nat → rrf_write_block_t) (d : Host) : Process :=
  ⟨[], false, mem, 0, rrf_error_zero, d, []⟩

/-- Block memory filled with zero bytes. -/
def zero_memory : Nat → rrf_write_block_t := fun _ => ⟨0, 0, fun _ => 0⟩

/-- Process states in which no handle is open yet: program start, and what calls
of `rrf_create` that fail leave behind. -/
inductive Startup (P : Platform) (d : Host) : Process → Prop
  | start (mem : Nat → rrf_write_block_t) : Startup P d (Process.start mem d)
  | failed (g : Process) (handle : Bool) (filepath : String) (partitions size : Nat) :
      Startup P d g → (rrf_create P g handle filepath partitions size).1 = 0 →
      Startup P d (rrf_create P g handle filepath partitions size).2.1

/-- The states of a process and its one open handle that the api can reach from a
program start on the host `d`: after `rrf_create`, after each `rrf_write_async`,
`rrf_service` and `rrf_error` that returns, and also at the end of each pass of the
loop inside `rrf_service`. The arguments are well-formed C values: sizes and counts
are `unsigned`, and a record pointer designates `size` bytes. -/
inductive Reachable (P : Platform) (d : Host) : Process → rrf_handle_t → Prop
  | create (g0 g : Process) (h : rrf_handle_t) (filepath : String) (partitions size : Nat) :
      Startup P d g0 → partitions < UINT_MOD → size < UINT_MOD →
      rrf_create P g0 true filepath partitions size = (1, g, some h) → Reachable P d g h
  | write_async (g g1 : Process) (h h1 : rrf_handle_t) (record : Option (List Nat))
      (size : Nat) (ctx : Option rrf_context_t) (ret : Nat) :
      Reachable P d g h → size < UINT_MOD → (∀ r, record = some r → r.length = size) →
      rrf_write_async P g (some h) record size ctx = (ret, g1, some h1) → Reachable P d g1 h1
  | service_iter (g g1 : Process) (h h1 : rrf_handle_t) (x : Option Nat) :
      Reachable P d g h → rrf_service_iter P g h = some (x, g1, h1) → Reachable P d g1 h1
  | service (g g1 : Process) (h h1 : rrf_handle_t) (fuel ret : Nat) :
      Reachable P d g h → rrf_service P fuel g (some h) = some (ret, g1, some h1) →
      Reachable P d g1 h1
  | error (g g1 : Process) (h h1 : rrf_handle_t) (count ret : Nat) (out : List rrf_error_t) :
      Reachable P d g h → count < UINT_MOD →
      rrf_error g (some h) count = (ret, out, g1, some h1) → Reachable P d g1 h1

/-! ## Frames -/

/-- The oracles of two hosts agree. -/
def same_oracles (d d1 : Host) : Prop :=
  d1.malloc_fails = d.malloc_fails ∧ d1.fopen_fails = d.fopen_fails ∧
  d1.fseek_fails = d.fseek_fails ∧ d1.fwrite_limit = d.fwrite_limit

/-- What the file-level functions leave alone: the pool, the chains, the
configuration and the counters of the flush loop. -/
structure PoolFrame (g : Process) (h : rrf_handle_t) (g1 : Process) (h1 : rrf_handle_t) :
    Prop where
  head : g1.rrf_block_cache_head = g.rrf_block_cache_head
  buffer : g1.rrf_block_cache_buffer = g.rrf_block_cache_buffer
  blocks : g1.blocks = g.blocks
  active : g1.rrf_handles_active = g.rrf_handles_active
  flushed : g1.flushed = g.flushed
  oracles : same_oracles g.host g1.host
  pending : h1.pending = h.pending
  current : h1.current = h.current
  context : h1.context = h.context
  partitions : h1.partitions = h.partitions
  size : h1.size = h.size
  filepath : h1.filepath = h.filepath
  write_index : h1.write_index = h.write_index


/-- Bookkeeping of the pool and of the cursors of the blocks awaiting a flush: the
free list followed by the pending chain is an arrangement of the 8 blocks of the
pool, each occurring once, and a pending block has written no more than it holds
and holds at most 4099 bytes (a length word may start at offset 4091 and advances
`count` by up to 8). -/
structure PoolInv (g : Process) (h : rrf_handle_t) : Prop where
  arranged : List.Perm (g.rrf_block_cache_head ++ h.pending) (List.range RRF_WRITE_BLOCK_CACHE)
  cursors : ∀ b ∈ h.pending,
    (g.blocks b).written ≤ (g.blocks b).count ∧ (g.blocks b).count ≤ 4099

/-- The context argument passes the checks of `rrf_write_async`: it is NULL, or
both its handle and its callback are set. -/
def ctx_ok (ctx : Option rrf_context_t) : Prop :=
  ∀ c, ctx = some c → c.handle.isSome = true ∧ c.callback.isSome = true

/-- The process after both calls of `malloc` in `rrf_create` have succeeded: the
block cache is built on first use and kept afterwards. -/
def cache_built (g : Process) : Process :=
  if g.rrf_block_cache_buffer then { g with host := g.host.malloc.2 }
  else { g with host := g.host.malloc.2.malloc.2, rrf_block_cache_buffer := true,
                rrf_block_cache_head :=
                  (List.range RRF_WRITE_BLOCK_CACHE).reverse ++ g.rrf_block_cache_head }

/-- The state of the block cache while no handle is open: not yet built, or built
and holding the 8 blocks of the pool. -/
def StartupInv (g : Process) : Prop :=
  (g.rrf_block_cache_buffer = false ∧ g.rrf_block_cache_head = []) ∨
  (g.rrf_block_cache_buffer = true ∧
    List.Perm g.rrf_block_cache_head (List.range RRF_WRITE_BLOCK_CACHE))

/-! ## A worked scenario

A handle created on a reliable 64-bit host with 2 partitions of 4096 bytes, as in
the scenario of the specification, and the 12-byte record of `rrf_test.c`. -/

/-- The bytes of `"blahblahblah"`. -/
def demo_record : List Nat := [98, 108, 97, 104, 98, 108, 97, 104, 98, 108, 97, 104]

/-- A reliable host with no files. -/
def demo_host : Host := Host.ideal (fun _ => [])

/-- The result of `rrf_create(&h, "demo", 2, 4096)` at program start. -/
def demo_created (P : Platform) : Nat × Process × Option rrf_handle_t :=
  rrf_create P (Process.start zero_memory demo_host) true "demo" 2 4096

/-- The process after that call. -/
def demo_process (P : Platform) : Process := (demo_created P).2.1

/-- The handle that call stored. -/
def demo_handle (P : Platform) : rrf_handle_t :=
  (demo_created P).2.2.getD (rrf_handle_new "demo" 2 4096)

/-- The result of writing the demo record once on the fresh handle. -/
def demo_written (P : Platform) : Nat × Process × Option rrf_handle_t :=
  rrf_write_async P (demo_process P) (some (demo_handle P)) (some demo_record) 12 none

/-- The framing of a record that the specification describes: its length as a 4-byte
unsigned word, then its payload. -/
def frame (P : Platform) (record : List Nat) : List Nat :=
  u32_bytes P record.length ++ record

/-- The result of writing the records `a` and then `b` on the fresh demo handle. -/
def demo_written_two (P : Platform) (a b : List Nat) : Nat × Process × Option rrf_handle_t :=
  let w := rrf_write_async P (demo_process P) (some (demo_handle P)) (some a) a.length none
  rrf_write_async P w.2.1 w.2.2 (some b) b.length none

/-- What taking blocks and copying into them leaves alone: the host, the history, the
fallback slot, and every field of the handle but `pending` and `current`. -/
structure ChainFrame (g : Process) (h : rrf_handle_t) (g1 : Process) (h1 : rrf_handle_t) :
    Prop where
  host : g1.host = g.host
  flushed : g1.flushed = g.flushed
  active : g1.rrf_handles_active = g.rrf_handles_active
  buffer : g1.rrf_block_cache_buffer = g.rrf_block_cache_buffer
  sys_error : g1.rrf_sys_error = g.rrf_sys_error
  current_file : h1.current_file = h.current_file
  write_index : h1.write_index = h.write_index
  file_index : h1.file_index = h.file_index
  current_file_bytes : h1.current_file_bytes = h.current_file_bytes
  last_record_start : h1.last_record_start = h.last_record_start
  filepath : h1.filepath = h.filepath
  partitions : h1.partitions = h.partitions
  size : h1.size = h.size
  context : h1.context = h.context
  errors : h1.errors = h.errors
  errorbuf : h1.errorbuf = h.errorbuf

/-- One error with the given code has been reported against the handle `h`: appended
to its queue when the queue had room, and otherwise put in the fallback slot. -/
def reported (code : Nat) (g : Process) (h : rrf_handle_t) (g1 : Process)
    (h1 : rrf_handle_t) : Prop :=
  if h.errors < RRF_ERRORS_MAX then
    h1.errors = h.errors + 1 ∧ (h1.errorbuf h.errors).code = code ∧
    (∀ i, i ≠ h.errors → h1.errorbuf i = h.errorbuf i) ∧ g1.rrf_sys_error = g.rrf_sys_error
  else
    h1.errors = h.errors ∧ h1.errorbuf = h.errorbuf ∧ g1.rrf_sys_error.code = code

/-- Bookkeeping of the active partition: the oracles of the host are those of the
host `d` the program started on; the open stream, when there is one, is the stream
of partition `file_index`, and the tracked byte count is below a size cap above 16
(no stream open means a count of 0); on a reliable host a stream is open. -/
structure FileInv (d : Host) (g : Process) (h : rrf_handle_t) : Prop where
  oracles : same_oracles d g.host
  stream : (h.current_file = none ∧ h.current_file_bytes = 0) ∨
    (h.current_file = some h.file_index ∧ (16 < h.size → h.current_file_bytes < h.size))
  opened : d.reliable → h.current_file ≠ none


/-- The result of writing one record of 32769 bytes, one more than the 8 blocks of
4096 bytes of the pool hold, on the fresh demo handle. -/
def demo_oversized (P : Platform) : Nat × Process × Option rrf_handle_t :=
  rrf_write_async P (demo_process P) (some (demo_handle P)) (some (List.replicate 32769 7))
    32769 none

/-- The result of `n` successive writes of the demo record on the fresh demo handle.
The first takes two blocks and each later one takes one, so after 7 writes the free
list is empty. -/
def demo_writes (P : Platform) : Nat → Nat × Process × Option rrf_handle_t
  | 0 => (1, demo_process P, some (demo_handle P))
  | n + 1 =>
    rrf_write_async P (demo_writes P n).2.1 (demo_writes P n).2.2 (some demo_record) 12 none

/-- Source: `show_errors` of `rrf_test.c`, the loop `while(rrf_error(h, &err, 1))`
run for at most `fuel` calls of `rrf_error`. The result is the number of records
printed, or `none` when the loop is still running after `fuel` calls. -/
def show_errors : Nat → Process → Option rrf_handle_t → Option Nat
  | 0, _, _ => none
  | fuel + 1, g, h =>
    if (rrf_error g h 1).1 = 0 then some 0
    else (show_errors fuel (rrf_error g h 1).2.2.1 (rrf_error g h 1).2.2.2).map (fun n => n + 1)

/-- Errors reported one after the other against a handle, each given by its code,
message and line. -/
def report_all : Process → rrf_handle_t → List (Nat × Option String × Nat) →
    Process × rrf_handle_t
  | g, h, [] => (g, h)
  | g, h, e :: es =>
    report_all (RRF_ERROR g h e.1 e.2.1 e.2.2).1 (RRF_ERROR g h e.1 e.2.1 e.2.2).2 es

/-- The record that `rrf_add_error` stores for a code, message and line. -/
def error_record (e : Nat × Option String × Nat) : rrf_error_t :=
  ⟨e.2.1, e.1, some "rrfile.c", e.2.2⟩

/-- The errors `(21, none, 1)`, ..., `(21, none, n)`, told apart by their line. -/
def numbered_errors (n : Nat) : List (Nat × Option String × Nat) :=
  (List.range n).map (fun i => (RRF_INVALID_ARGUMENT, none, i + 1))

/-- The demo record written once on a fresh handle created with 2 partitions and a
size cap of 16 bytes, the size of the stamp. -/
def demo_small (P : Platform) : Nat × Process × Option rrf_handle_t :=
  let c := rrf_create P (Process.start zero_memory demo_host) true "demo" 2 16
  rrf_write_async P c.2.1 c.2.2 (some demo_record) 12 none

/-- The `unsigned` that four bytes in memory order stand for. -/
def u32_of_bytes (P : Platform) (bs : List Nat) : Nat :=
  match (if P.big_endian then bs.reverse else bs) with
  | [a, b, c, e] => a + 256 * b + 65536 * c + 16777216 * e
  | _ => 0

/-- The process after the write of `demo_small`. -/
def demo_small_process (P : Platform) : Process := (demo_small P).2.1

/-- The handle after the write of `demo_small`: partition 0 is open and its tracked
byte count, 16, has reached the size cap. -/
def demo_small_handle (P : Platform) : rrf_handle_t :=
  (demo_small P).2.2.getD (rrf_handle_new "demo" 2 16)

/-- The counters of the flush loop, from a state `(g0, h0)` on: `passes` calls of
`fwrite` have been made, `done` blocks have gone back to the free list, and the write
counter has advanced by `passes`. -/
def FlushCount (d : Host) (g0 : Process) (h0 : rrf_handle_t) (g : Process)
    (h : rrf_handle_t) : Prop :=
  PoolInv g h ∧ FileInv d g h ∧
  ∃ passes done, g.flushed.length = g0.flushed.length + passes ∧
    g.rrf_block_cache_head.length = g0.rrf_block_cache_head.length + done ∧
    h.pending.length + done = h0.pending.length ∧
    done ≤ passes ∧
    h.write_index % UINT_MOD = (h0.write_index + passes) % UINT_MOD ∧
    (d.reliable → done = passes)

/-- A host on which the sixth library call, the first `fwrite` of the first
`rrf_service`, writes 5 bytes only; every other call succeeds in full. -/
def short_host : Host :=
  ⟨fun _ => [], 0, fun _ => false, fun _ => false, fun _ => false,
    fun n => if n = 5 then some 5 else none, []⟩

/-- The result of `rrf_create(&h, "demo", 2, 4096)` at program start on `short_host`. -/
def short_created (P : Platform) : Nat × Process × Option rrf_handle_t :=
  rrf_create P (Process.start zero_memory short_host) true "demo" 2 4096

/-- The result of then writing the demo record: two blocks are pending. -/
def short_written (P : Platform) : Nat × Process × Option rrf_handle_t :=
  rrf_write_async P (short_created P).2.1 (short_created P).2.2 (some demo_record) 12 none

/-- The result of then calling `rrf_service`. -/
def short_serviced (P : Platform) : Option (Nat × Process × Option rrf_handle_t) :=
  rrf_service P 4 (short_written P).2.1 (short_written P).2.2

/-- A host on which every call of `fwrite` from the sixth library call on, that is
every `fwrite` of `rrf_service`, writes nothing and returns 0. -/
def stuck_host : Host :=
  ⟨fun _ => [], 0, fun _ => false, fun _ => false, fun _ => false,
    fun n => if n < 5 then none else some 0, []⟩

/-- The result of `rrf_create(&h, "demo", 2, 4096)` at program start on `stuck_host`
followed by a write of the demo record: two blocks are pending. -/
def stuck_written (P : Platform) : Nat × Process × Option rrf_handle_t :=
  let c := rrf_create P (Process.start zero_memory stuck_host) true "demo" 2 4096
  rrf_write_async P c.2.1 c.2.2 (some demo_record) 12 none

/-- A first record, of 3 bytes. -/
def first_record : List Nat := [1, 2, 3]

/-- A second record, of 5 bytes. -/
def second_record : List Nat := [4, 5, 6, 7, 8]

/-- The result of writing `first_record` on the fresh demo handle and then calling
`rrf_service`, which flushes both blocks. -/
def dangling_served (P : Platform) : Option (Nat × Process × Option rrf_handle_t) :=
  let w := rrf_write_async P (demo_process P) (some (demo_handle P)) (some first_record) 3 none
  rrf_service P 3 w.2.1 w.2.2

/-- The result of then writing `second_record`. -/
def dangling_second (P : Platform) : Option (Nat × Process × Option rrf_handle_t) :=
  (dangling_served P).map (fun s => rrf_write_async P s.2.1 s.2.2 (some second_record) 5 none)

/-- The result of then calling `rrf_close`. -/
def dangling_closed (P : Platform) : Option (Nat × Process × Option rrf_handle_t) :=
  (dangling_second P).bind (fun s => rrf_close P 5 5 s.2.1 s.2.2)

/-- The result of writing a record of 4090 bytes and then the record `[9]` on the
fresh demo handle. -/
def demo_overrun (P : Platform) : Nat × Process × Option rrf_handle_t :=
  let w := rrf_write_async P (demo_process P) (some (demo_handle P))
    (some (List.replicate 4090 7)) 4090 none
  rrf_write_async P w.2.1 w.2.2 (some [9]) 1 none

/-- A host on which `fopen` fails from the sixth library call on, that is for every
partition opened after `rrf_create`; every other call succeeds. -/
def rotation_host : Host :=
  ⟨fun _ => [], 0, fun _ => false, fun n => decide (5 ≤ n), fun _ => false,
    fun _ => none, []⟩

/-- The result of `rrf_create(&h, "demo", 2, 20)` at program start on
`rotation_host`: the first block flushed brings partition 0 to its cap. -/
def rotation_created (P : Platform) : Nat × Process × Option rrf_handle_t :=
  rrf_create P (Process.start zero_memory rotation_host) true "demo" 2 20

/-- The result of then calling `rrf_write(h, "blahblahblah", 12)`. -/
def rotation_write (P : Platform) : Option (Nat × Process × Option rrf_handle_t) :=
  rrf_write P 3 (rotation_created P).2.1 (rotation_created P).2.2 (some demo_record) 12
/-! ## Effects of the internal functions -/

theorem same_oracles_refl (d : Host) : same_oracles d d := ⟨rfl, rfl, rfl, rfl⟩

theorem same_oracles_trans {a b c : Host} (h1 : same_oracles a b) (h2 : same_oracles b c) :
    same_oracles a c := by
  obtain ⟨a1, a2, a3, a4⟩ := h1
  obtain ⟨b1, b2, b3, b4⟩ := h2
  exact ⟨b1.trans a1, b2.trans a2, b3.trans a3, b4.trans a4⟩

theorem PoolFrame_refl (g : Process) (h : rrf_handle_t) : PoolFrame g h g h :=
  ⟨rfl, rfl, rfl, rfl, rfl, same_oracles_refl _, rfl, rfl, rfl, rfl, rfl, rfl, rfl⟩

theorem PoolFrame_trans {g g1 g2 : Process} {h h1 h2 : rrf_handle_t}
    (a : PoolFrame g h g1 h1) (b : PoolFrame g1 h1 g2 h2) : PoolFrame g h g2 h2 := by
  obtain ⟨a1, a2, a3, a4, a5, a6, a7, a8, a9, a10, a11, a12, a13⟩ := a
  obtain ⟨b1, b2, b3, b4, b5, b6, b7, b8, b9, b10, b11, b12, b13⟩ := b
  exact ⟨b1.trans a1, b2.trans a2, b3.trans a3, b4.trans a4, b5.trans a5,
    same_oracles_trans a6 b6, b7.trans a7, b8.trans a8, b9.trans a9, b10.trans a10,
    b11.trans a11, b12.trans a12, b13.trans a13⟩

theorem RRF_ERROR_eq (g : Process) (h : rrf_handle_t) (code : Nat) (m : Option String)
    (line : Nat) :
    RRF_ERROR g h code m line =
      if h.errors < RRF_ERRORS_MAX then
        (g, { h with errorbuf := upd h.errorbuf h.errors ⟨m, code, some "rrfile.c", line⟩,
                     errors := h.errors + 1 })
      else ({ g with rrf_sys_error := ⟨m, code, some "rrfile.c", line⟩ }, h) := by
  by_cases hc : h.errors < RRF_ERRORS_MAX <;> simp [RRF_ERROR, rrf_add_error, hc]

theorem RRF_ERROR_frame (g : Process) (h : rrf_handle_t) (code : Nat) (m : Option String)
    (line : Nat) :
    PoolFrame g h (RRF_ERROR g h code m line).1 (RRF_ERROR g h code m line).2 ∧
    (RRF_ERROR g h code m line).1.host = g.host ∧
    (RRF_ERROR g h code m line).2.current_file = h.current_file ∧
    (RRF_ERROR g h code m line).2.current_file_bytes = h.current_file_bytes ∧
    (RRF_ERROR g h code m line).2.file_index = h.file_index := by
  rw [RRF_ERROR_eq]
  split <;> exact ⟨⟨rfl, rfl, rfl, rfl, rfl, same_oracles_refl _, rfl, rfl, rfl, rfl, rfl, rfl, rfl⟩,
    rfl, rfl, rfl, rfl⟩

theorem u32_bytes_length (P : Platform) (x : Nat) : (u32_bytes P x).length = 4 := by
  unfold u32_bytes
  split <;> rfl

theorem stamp_bytes_length (P : Platform) (h : rrf_handle_t) : (stamp_bytes P h).length = 16 := by
  simp [stamp_bytes, u32_bytes_length]

theorem fwrite_oracles (d : Host) (f : Nat) (bs : List Nat) : same_oracles d (d.fwrite f bs).2 :=
  ⟨rfl, rfl, rfl, rfl⟩

theorem fclose_oracles (d : Host) (f : Nat) : same_oracles d (d.fclose f) :=
  ⟨rfl, rfl, rfl, rfl⟩

theorem fwrite_le (d : Host) (f : Nat) (bs : List Nat) : (d.fwrite f bs).1 ≤ bs.length := by
  unfold Host.fwrite RRF_MIN
  dsimp only
  split
  · exact le_refl _
  · split <;> omega

theorem fwrite_reliable (d : Host) (f : Nat) (bs : List Nat) (hd : d.reliable) :
    (d.fwrite f bs).1 = bs.length ∧ (d.fwrite f bs).2.files = upd d.files f (d.files f ++ bs) := by
  have h4 := hd.2.2.2 d.calls
  simp [Host.fwrite, h4]

theorem reliable_of_same_oracles {d d1 : Host} (hs : same_oracles d d1) (hd : d.reliable) :
    d1.reliable := by
  obtain ⟨a1, a2, a3, a4⟩ := hs
  obtain ⟨b1, b2, b3, b4⟩ := hd
  refine ⟨?_, ?_, ?_, ?_⟩
  · intro n; rw [a1]; exact b1 n
  · intro n; rw [a2]; exact b2 n
  · intro n; rw [a3]; exact b3 n
  · intro n; rw [a4]; exact b4 n

theorem rrf_safe_seek_spec (g : Process) (h : rrf_handle_t) :
    PoolFrame g h (rrf_safe_seek g h).2.1 (rrf_safe_seek g h).2.2 ∧
    (rrf_safe_seek g h).2.2.current_file = h.current_file ∧
    (rrf_safe_seek g h).2.2.current_file_bytes = h.current_file_bytes ∧
    (rrf_safe_seek g h).2.2.file_index = h.file_index ∧
    (rrf_safe_seek g h).2.1.host.files = g.host.files ∧
    (g.host.reliable → (rrf_safe_seek g h).1 = 1) := by
  unfold rrf_safe_seek
  dsimp only
  split
  · refine ⟨?_, rfl, rfl, rfl, rfl, fun _ => rfl⟩
    exact ⟨rfl, rfl, rfl, rfl, rfl, ⟨rfl, rfl, rfl, rfl⟩, rfl, rfl, rfl, rfl, rfl, rfl, rfl⟩
  · rename_i hf
    have e := RRF_ERROR_frame { g with host := g.host.fseek.2 } h RRF_SEEK_FAILED
      (some "strerror(errno)") 90
    obtain ⟨e1, e2, e3, e4, e5⟩ := e
    refine ⟨?_, e3, e4, e5, ?_, ?_⟩
    · refine PoolFrame_trans ?_ e1
      exact ⟨rfl, rfl, rfl, rfl, rfl, ⟨rfl, rfl, rfl, rfl⟩, rfl, rfl, rfl, rfl, rfl, rfl, rfl⟩
    · rw [e2]; simp [Host.fseek]
    · intro hd
      have := hd.2.2.1 g.host.calls
      simp [Host.fseek, this] at hf

theorem rrf_stamp_spec (P : Platform) (g : Process) (h : rrf_handle_t) (f : Nat) :
    PoolFrame g h (rrf_stamp P g h f).2.1 (rrf_stamp P g h f).2.2 ∧
    (rrf_stamp P g h f).2.2.current_file = h.current_file ∧
    (rrf_stamp P g h f).2.2.file_index = h.file_index ∧
    (((rrf_stamp P g h f).1 = 0 ∧
        (rrf_stamp P g h f).2.2.current_file_bytes = h.current_file_bytes) ∨
     ((rrf_stamp P g h f).1 = 1 ∧
        (rrf_stamp P g h f).2.2.current_file_bytes = (h.current_file_bytes + 16) % UINT_MOD ∧
        (rrf_stamp P g h f).2.1.host.files = upd g.host.files f (g.host.files f ++ stamp_bytes P h))) ∧
    (g.host.reliable → (rrf_stamp P g h f).1 = 1) := by
  unfold rrf_stamp
  dsimp only
  split
  · rename_i hne
    have e := RRF_ERROR_frame { g with host := (g.host.fwrite f (stamp_bytes P h)).2 } h
      RRF_WRITE_FAILED (some "strerror(errno)") 105
    obtain ⟨e1, e2, e3, e4, e5⟩ := e
    refine ⟨?_, e3, e5, Or.inl ⟨rfl, e4⟩, ?_⟩
    · refine PoolFrame_trans ?_ e1
      exact ⟨rfl, rfl, rfl, rfl, rfl, ⟨rfl, rfl, rfl, rfl⟩, rfl, rfl, rfl, rfl, rfl, rfl, rfl⟩
    · intro hd
      have := (fwrite_reliable g.host f (stamp_bytes P h) hd).1
      rw [stamp_bytes_length] at this
      omega
  · rename_i hne
    have h16 : (g.host.fwrite f (stamp_bytes P h)).1 = 16 := by omega
    refine ⟨?_, rfl, rfl, Or.inr ⟨rfl, rfl, ?_⟩, fun _ => rfl⟩
    · exact ⟨rfl, rfl, rfl, rfl, rfl, ⟨rfl, rfl, rfl, rfl⟩, rfl, rfl, rfl, rfl, rfl, rfl, rfl⟩
    · have hl := stamp_bytes_length P h
      unfold Host.fwrite at h16 ⊢
      dsimp only at h16 ⊢
      rw [h16, ← hl, List.take_length]

theorem stamp_bytes_congr (P : Platform) {h h1 : rrf_handle_t} (hp : h1.partitions = h.partitions)
    (hs : h1.size = h.size) (hw : h1.write_index = h.write_index) :
    stamp_bytes P h1 = stamp_bytes P h := by
  simp [stamp_bytes, hp, hs, hw]

theorem fopen_spec (d : Host) (i : Nat) :
    same_oracles d (d.fopen i).2 ∧
    (((d.fopen i).1 = none ∧ (d.fopen i).2.files = d.files) ∨
     ((d.fopen i).1 = some i ∧ (d.fopen i).2.files = upd d.files i [])) ∧
    (d.reliable → (d.fopen i).1 = some i) := by
  unfold Host.fopen
  split
  · rename_i hf
    refine ⟨⟨rfl, rfl, rfl, rfl⟩, Or.inl ⟨rfl, rfl⟩, ?_⟩
    intro hd
    have := hd.2.1 d.calls
    simp [this] at hf
  · exact ⟨⟨rfl, rfl, rfl, rfl⟩, Or.inr ⟨rfl, rfl⟩, fun _ => rfl⟩

theorem upd_same {α : Type} (f : Nat → α) (i : Nat) (v : α) : upd f i v i = v := by
  simp [upd]

theorem upd_other {α : Type} (f : Nat → α) (i j : Nat) (v : α) (hne : j ≠ i) :
    upd f i v j = f j := by
  simp [upd, hne]

theorem rrf_check_or_open_spec (P : Platform) (g : Process) (h : rrf_handle_t) (i : Nat) :
    PoolFrame g h (rrf_check_or_open P g h none i).2.1 (rrf_check_or_open P g h none i).2.2 ∧
    (rrf_check_or_open P g h none i).2.2.current_file = h.current_file ∧
    (rrf_check_or_open P g h none i).2.2.file_index = h.file_index ∧
    (((rrf_check_or_open P g h none i).1 = none ∧
        (rrf_check_or_open P g h none i).2.2.current_file_bytes = h.current_file_bytes) ∨
     ((rrf_check_or_open P g h none i).1 = some i ∧
        (rrf_check_or_open P g h none i).2.2.current_file_bytes
          = (h.current_file_bytes + 16) % UINT_MOD ∧
        (rrf_check_or_open P g h none i).2.1.host.files i = stamp_bytes P h ∧
        ∀ j, j ≠ i → (rrf_check_or_open P g h none i).2.1.host.files j = g.host.files j)) ∧
    (g.host.reliable → (rrf_check_or_open P g h none i).1 = some i) := by
  obtain ⟨o1, o2, o3⟩ := fopen_spec g.host i
  unfold rrf_check_or_open
  dsimp only
  rcases o2 with ⟨hn, _⟩ | ⟨hs, ofiles⟩
  · rw [hn]
    dsimp only
    refine ⟨?_, rfl, rfl, Or.inl ⟨rfl, rfl⟩, ?_⟩
    · exact ⟨rfl, rfl, rfl, rfl, rfl, o1, rfl, rfl, rfl, rfl, rfl, rfl, rfl⟩
    · intro hd
      have := o3 hd
      rw [hn] at this
      exact absurd this (by simp)
  · rw [hs]
    dsimp only
    have hf0 : PoolFrame g h { g with host := (g.host.fopen i).2 } h :=
      ⟨rfl, rfl, rfl, rfl, rfl, o1, rfl, rfl, rfl, rfl, rfl, rfl, rfl⟩
    obtain ⟨s1, s2, s3, s4, s5, s6⟩ := rrf_safe_seek_spec { g with host := (g.host.fopen i).2 } h
    split
    · rename_i hz
      refine ⟨PoolFrame_trans hf0 s1, s2, s4, Or.inl ⟨rfl, s3⟩, ?_⟩
      intro hd
      have := s6 (reliable_of_same_oracles o1 hd)
      omega
    · obtain ⟨t1, t2, t3, t4, t5⟩ := rrf_stamp_spec P
        (rrf_safe_seek { g with host := (g.host.fopen i).2 } h).2.1
        (rrf_safe_seek { g with host := (g.host.fopen i).2 } h).2.2 i
      have hf2 := PoolFrame_trans hf0 s1
      split
      · rename_i hz
        rcases t4 with ⟨_, tb⟩ | ⟨t1x, _⟩
        · refine ⟨PoolFrame_trans hf2 t1, t2.trans s2, t3.trans s4, Or.inl ⟨rfl, tb.trans s3⟩, ?_⟩
          intro hd
          have := t5 (reliable_of_same_oracles hf2.oracles hd)
          omega
        · omega
      · rename_i hz
        rcases t4 with ⟨t0, _⟩ | ⟨_, tb, tf⟩
        · omega
        · refine ⟨PoolFrame_trans hf2 t1, t2.trans s2, t3.trans s4, Or.inr ⟨rfl, ?_, ?_, ?_⟩,
            fun _ => rfl⟩
          · rw [tb, s3]
          · rw [tf, upd_same, s5]
            dsimp only
            rw [ofiles, upd_same, List.nil_append]
            exact stamp_bytes_congr P s1.partitions s1.size s1.write_index
          · intro j hj
            rw [tf, upd_other _ _ _ _ hj, s5]
            dsimp only
            rw [ofiles, upd_other _ _ _ _ hj]

theorem rrf_ensure_open (P : Platform) (g : Process) (h : rrf_handle_t) (f : Nat)
    (hf : h.current_file = some f) : rrf_ensure_file_handles P g h = (1, g, h) := by
  unfold rrf_ensure_file_handles
  rw [hf]

theorem rrf_ensure_spec (P : Platform) (g : Process) (h : rrf_handle_t)
    (hf : h.current_file = none) :
    PoolFrame g h (rrf_ensure_file_handles P g h).2.1 (rrf_ensure_file_handles P g h).2.2 ∧
    (rrf_ensure_file_handles P g h).2.2.file_index = h.file_index ∧
    (((rrf_ensure_file_handles P g h).1 = 0 ∧
        (rrf_ensure_file_handles P g h).2.2.current_file = none ∧
        (rrf_ensure_file_handles P g h).2.2.current_file_bytes = h.current_file_bytes) ∨
     ((rrf_ensure_file_handles P g h).1 = 1 ∧
        (rrf_ensure_file_handles P g h).2.2.current_file = some h.file_index ∧
        (rrf_ensure_file_handles P g h).2.2.current_file_bytes
          = (h.current_file_bytes + 16) % UINT_MOD ∧
        (rrf_ensure_file_handles P g h).2.1.host.files h.file_index = stamp_bytes P h ∧
        ∀ j, j ≠ h.file_index →
          (rrf_ensure_file_handles P g h).2.1.host.files j = g.host.files j)) ∧
    (g.host.reliable → (rrf_ensure_file_handles P g h).1 = 1) := by
  obtain ⟨c1, c2, c3, c4, c5⟩ := rrf_check_or_open_spec P g h h.file_index
  unfold rrf_ensure_file_handles
  rw [hf]
  dsimp only
  rcases c4 with ⟨cn, cb⟩ | ⟨cs, cb, cf, co⟩
  · rw [cn]
    dsimp only
    obtain ⟨e1, e2, e3, e4, e5⟩ := RRF_ERROR_frame (rrf_check_or_open P g h none h.file_index).2.1
      { (rrf_check_or_open P g h none h.file_index).2.2 with current_file := none }
      RRF_OPEN_FAILED
      (some ({ (rrf_check_or_open P g h none h.file_index).2.2 with
                current_file := none } : rrf_handle_t).filepath) 142
    have hfr : PoolFrame g h (rrf_check_or_open P g h none h.file_index).2.1
        { (rrf_check_or_open P g h none h.file_index).2.2 with current_file := none } :=
      ⟨c1.head, c1.buffer, c1.blocks, c1.active, c1.flushed, c1.oracles, c1.pending, c1.current,
        c1.context, c1.partitions, c1.size, c1.filepath, c1.write_index⟩
    refine ⟨PoolFrame_trans hfr e1, e5.trans c3, Or.inl ⟨rfl, e3, e4.trans cb⟩, ?_⟩
    intro hd
    have := c5 hd
    rw [cn] at this
    exact absurd this (by simp)
  · rw [cs]
    dsimp only
    refine ⟨?_, c3, Or.inr ⟨rfl, rfl, cb, cf, co⟩, fun _ => rfl⟩
    exact ⟨c1.head, c1.buffer, c1.blocks, c1.active, c1.flushed, c1.oracles, c1.pending,
      c1.current, c1.context, c1.partitions, c1.size, c1.filepath, c1.write_index⟩

theorem rrf_roll_below (P : Platform) (g : Process) (h : rrf_handle_t)
    (hb : h.current_file_bytes < h.size) : rrf_roll_file_handles P g h = some (1, g, h) := by
  unfold rrf_roll_file_handles
  split
  · rfl
  · rw [if_neg (by omega)]

theorem rrf_roll_spec (P : Platform) (g : Process) (h : rrf_handle_t) (f : Nat)
    (hf : h.current_file = some f) (hb : h.size ≤ h.current_file_bytes)
    (hp : h.partitions ≠ 0) :
    ∃ r, rrf_roll_file_handles P g h = some r ∧
      PoolFrame g h r.2.1 r.2.2 ∧
      r.2.2.file_index = (h.file_index + 1) % h.partitions ∧
      ((r.1 = 0 ∧ r.2.2.current_file = none ∧ r.2.2.current_file_bytes = 0) ∨
       (r.1 = 1 ∧ r.2.2.current_file = some r.2.2.file_index ∧
          r.2.2.current_file_bytes = 16)) ∧
      (g.host.reliable → r.1 = 1) := by
  obtain ⟨t1, t2, t3, _, t5⟩ := rrf_stamp_spec P g h f
  have hp1 : (rrf_stamp P g h f).2.2.partitions ≠ 0 := by rw [t1.partitions]; exact hp
  have hnone : ({ (rrf_stamp P g h f).2.2 with
      current_file := none, current_file_bytes := 0,
      file_index := ((rrf_stamp P g h f).2.2.file_index + 1)
        % (rrf_stamp P g h f).2.2.partitions } : rrf_handle_t).current_file = none := rfl
  obtain ⟨e1, e2, e3, e4⟩ := rrf_ensure_spec P
    { (rrf_stamp P g h f).2.1 with host := (rrf_stamp P g h f).2.1.host.fclose f } _ hnone
  have key : rrf_roll_file_handles P g h = some (rrf_ensure_file_handles P
      { (rrf_stamp P g h f).2.1 with host := (rrf_stamp P g h f).2.1.host.fclose f }
      { (rrf_stamp P g h f).2.2 with
        current_file := none, current_file_bytes := 0,
        file_index := ((rrf_stamp P g h f).2.2.file_index + 1)
          % (rrf_stamp P g h f).2.2.partitions }) := by
    unfold rrf_roll_file_handles
    rw [hf]
    dsimp only
    rw [if_pos hb, if_neg hp1]
  have hoc : same_oracles g.host ((rrf_stamp P g h f).2.1.host.fclose f) :=
    same_oracles_trans t1.oracles (fclose_oracles _ f)
  refine ⟨_, key, ?_, ?_, ?_, ?_⟩
  · refine PoolFrame_trans ?_ e1
    exact ⟨t1.head, t1.buffer, t1.blocks, t1.active, t1.flushed, hoc, t1.pending,
      t1.current, t1.context, t1.partitions, t1.size, t1.filepath, t1.write_index⟩
  · rw [e2]
    dsimp only
    rw [t3, t1.partitions]
  · rcases e3 with ⟨a, b, c⟩ | ⟨a, b, c, _⟩
    · exact Or.inl ⟨a, b, c⟩
    · refine Or.inr ⟨a, ?_, ?_⟩
      · rw [b, e2]
      · rw [c]; rfl
  · intro hd
    exact e4 (reliable_of_same_oracles hoc hd)

theorem upd_upd {α : Type} (f : Nat → α) (i : Nat) (v w : α) : upd (upd f i v) i w = upd f i w := by
  funext j
  unfold upd
  split <;> rfl

theorem rrf_get_write_block_any (g : Process) (h : rrf_handle_t) (size : Nat) :
    rrf_get_write_block g h size false =
      match g.rrf_block_cache_head with
      | [] => (none, g, { h with current := none })
      | b :: rest =>
        (some b,
         { g with rrf_block_cache_head := rest,
                  blocks := upd g.blocks b { g.blocks b with count := 0, written := 0 } },
         { h with pending := b :: h.pending, current := some b }) := by
  unfold rrf_get_write_block
  cases h.current <;> simp

theorem rrf_write_loop_zero (fuel : Nat) (g : Process) (h : rrf_handle_t) (record : List Nat)
    (readpos : Nat) : rrf_write_loop fuel g h record readpos 0 = (1, g, h) := by
  cases fuel <;> simp [rrf_write_loop]

theorem rrf_write_loop_nil (fuel : Nat) (g : Process) (h : rrf_handle_t) (record : List Nat)
    (readpos total_left : Nat) (hl : total_left ≠ 0) (hn : g.rrf_block_cache_head = []) :
    rrf_write_loop (fuel + 1) g h record readpos total_left =
      (0, (RRF_ERROR g { h with current := none } RRF_WRITE_BUFFER_FULL none 330).1,
          (RRF_ERROR g { h with current := none } RRF_WRITE_BUFFER_FULL none 330).2) := by
  rw [rrf_write_loop, if_neg hl]
  simp only [rrf_get_write_block_any, hn]

theorem rrf_write_loop_cons (fuel : Nat) (g : Process) (h : rrf_handle_t) (record : List Nat)
    (readpos total_left : Nat) (hl : total_left ≠ 0) (b : Nat) (rest : List Nat)
    (hn : g.rrf_block_cache_head = b :: rest) :
    rrf_write_loop (fuel + 1) g h record readpos total_left =
      rrf_write_loop fuel
        { g with rrf_block_cache_head := rest,
                 blocks := upd g.blocks b
                   { count := RRF_MIN RRF_WRITE_BLOCK_SIZE total_left, written := 0,
                     buffer := store (g.blocks b).buffer 0
                       ((record.drop readpos).take (RRF_MIN RRF_WRITE_BLOCK_SIZE total_left)) } }
        { h with pending := b :: h.pending, current := some b }
        record (readpos + RRF_MIN RRF_WRITE_BLOCK_SIZE total_left)
        (total_left - RRF_MIN RRF_WRITE_BLOCK_SIZE total_left) := by
  rw [rrf_write_loop, if_neg hl]
  simp only [rrf_get_write_block_any, hn, upd_same, upd_upd, Nat.sub_zero, Nat.zero_add]

/-! ## The pool invariant -/

theorem PoolInv_frame {g g1 : Process} {h h1 : rrf_handle_t} (f : PoolFrame g h g1 h1)
    (i : PoolInv g h) : PoolInv g1 h1 := by
  refine ⟨?_, ?_⟩
  · rw [f.head, f.pending]; exact i.arranged
  · intro b hb
    rw [f.blocks]
    rw [f.pending] at hb
    exact i.cursors b hb

theorem RRF_MIN_le_left (a b : Nat) : RRF_MIN a b ≤ a := by
  unfold RRF_MIN; split <;> omega

theorem RRF_MIN_le_right (a b : Nat) : RRF_MIN a b ≤ b := by
  unfold RRF_MIN; split <;> omega

theorem RRF_MIN_pos (a b : Nat) (ha : 0 < a) (hb : 0 < b) : 0 < RRF_MIN a b := by
  unfold RRF_MIN; split <;> omega

theorem ptr_bytes_le (P : Platform) : P.ptr_bytes ≤ 8 := by
  unfold Platform.ptr_bytes; split <;> omega

theorem PoolInv_write_loop (fuel : Nat) : ∀ (g : Process) (h : rrf_handle_t) (record : List Nat)
    (readpos total_left : Nat), PoolInv g h →
    PoolInv (rrf_write_loop fuel g h record readpos total_left).2.1
      (rrf_write_loop fuel g h record readpos total_left).2.2 := by
  induction fuel with
  | zero => intro g h record readpos total_left i; exact i
  | succ fuel ih =>
    intro g h record readpos total_left i
    by_cases hl : total_left = 0
    · rw [hl, rrf_write_loop_zero]; exact i
    · cases hn : g.rrf_block_cache_head with
      | nil =>
        rw [rrf_write_loop_nil fuel g h record readpos total_left hl hn]
        refine PoolInv_frame (RRF_ERROR_frame _ _ _ _ _).1 ?_
        exact ⟨i.arranged, i.cursors⟩
      | cons b rest =>
        rw [rrf_write_loop_cons fuel g h record readpos total_left hl b rest hn]
        apply ih
        refine ⟨?_, ?_⟩
        · have := i.arranged
          rw [hn] at this
          exact List.perm_middle.trans this
        · intro b1 hb1
          by_cases hb : b1 = b
          · subst hb
            simp only [upd_same]
            have := RRF_MIN_le_left RRF_WRITE_BLOCK_SIZE total_left
            simp only [RRF_WRITE_BLOCK_SIZE] at this ⊢
            omega
          · simp only [upd_other _ _ _ _ hb]
            simp only [List.mem_cons] at hb1
            rcases hb1 with hb1 | hb1
            · exact absurd hb1 hb
            · exact i.cursors b1 hb1

theorem rrf_get_write_block_cases (g : Process) (h : rrf_handle_t) (size : Nat) (fit : Bool) :
    (∃ c, h.current = some c ∧ (g.blocks c).count < RRF_WRITE_BLOCK_SIZE ∧ fit = true ∧
        size < RRF_WRITE_BLOCK_SIZE - (g.blocks c).count ∧
        rrf_get_write_block g h size fit = (some c, g, h)) ∨
    (g.rrf_block_cache_head = [] ∧
        rrf_get_write_block g h size fit = (none, g, { h with current := none })) ∨
    (∃ b rest, g.rrf_block_cache_head = b :: rest ∧
        rrf_get_write_block g h size fit =
          (some b,
           { g with rrf_block_cache_head := rest,
                    blocks := upd g.blocks b { g.blocks b with count := 0, written := 0 } },
           { h with pending := b :: h.pending, current := some b })) := by
  unfold rrf_get_write_block
  cases hc : h.current with
  | none =>
    cases hn : g.rrf_block_cache_head with
    | nil => right; left; simp
    | cons b rest => right; right; exact ⟨b, rest, rfl, by simp⟩
  | some c =>
    by_cases hfit : (g.blocks c).count < RRF_WRITE_BLOCK_SIZE ∧ fit = true
          ∧ size < RRF_WRITE_BLOCK_SIZE - (g.blocks c).count
    · left
      refine ⟨c, rfl, hfit.1, hfit.2.1, hfit.2.2, ?_⟩
      simp only [if_pos hfit]
    · cases hn : g.rrf_block_cache_head with
      | nil => right; left; simp only [if_neg hfit, true_and]
      | cons b rest => right; right; exact ⟨b, rest, rfl, by simp only [if_neg hfit]⟩

theorem PoolInv_buffer_record (P : Platform) (g : Process) (h : rrf_handle_t)
    (record : List Nat) (size : Nat) (ctx : Option rrf_context_t) (i : PoolInv g h) :
    ∃ h1, (buffer_record P g h record size ctx).2.2 = some h1 ∧
      PoolInv (buffer_record P g h record size ctx).2.1 h1 := by
  have hp := ptr_bytes_le P
  unfold buffer_record
  rcases rrf_get_write_block_cases g h SIZEOF_UNSIGNED true with
    ⟨c, _, hlt, _, hsz, hr⟩ | ⟨hn, hr⟩ | ⟨b, rest, hn, hr⟩
  · rw [hr]
    dsimp only
    have i1 : PoolInv
        { g with blocks := upd g.blocks c ⟨(g.blocks c).count + P.ptr_bytes, (g.blocks c).written,
            store (g.blocks c).buffer (g.blocks c).count (u32_bytes P size)⟩ } h := by
      refine ⟨i.arranged, ?_⟩
      intro b1 hb1
      by_cases hb : b1 = c
      · subst hb
        simp only [upd_same]
        have := i.cursors b1 hb1
        simp only [RRF_WRITE_BLOCK_SIZE, SIZEOF_UNSIGNED] at hlt hsz
        omega
      · simp only [upd_other _ _ _ _ hb]
        exact i.cursors b1 hb1
    have i2 := PoolInv_write_loop size _ _ record 0 size i1
    split
    · exact ⟨_, rfl, i2⟩
    · exact ⟨_, rfl, ⟨i2.arranged, i2.cursors⟩⟩
  · rw [hr]
    dsimp only
    refine ⟨_, rfl, PoolInv_frame (RRF_ERROR_frame _ _ _ _ _).1 ?_⟩
    exact ⟨i.arranged, i.cursors⟩
  · rw [hr]
    dsimp only
    have i1 : PoolInv
        { g with rrf_block_cache_head := rest,
                 blocks := upd (upd g.blocks b { g.blocks b with count := 0, written := 0 }) b
                   ⟨0 + P.ptr_bytes, 0, store (g.blocks b).buffer 0 (u32_bytes P size)⟩ }
        { h with pending := b :: h.pending, current := some b } := by
      refine ⟨?_, ?_⟩
      · have := i.arranged
        rw [hn] at this
        exact List.perm_middle.trans this
      · intro b1 hb1
        by_cases hb : b1 = b
        · subst hb
          simp only [upd_same]
          omega
        · simp only [upd_other _ _ _ _ hb]
          simp only [List.mem_cons] at hb1
          rcases hb1 with hb1 | hb1
          · exact absurd hb1 hb
          · exact i.cursors b1 hb1
    simp only [upd_same]
    have i2 := PoolInv_write_loop size _ _ record 0 size i1
    split
    · exact ⟨_, rfl, i2⟩
    · exact ⟨_, rfl, ⟨i2.arranged, i2.cursors⟩⟩

theorem rrf_arg_not_null_some (g : Process) (h : rrf_handle_t) (ptr : Bool) (name : String) :
    rrf_arg_not_null g (some h) ptr name =
      if ptr then (1, g, some h)
      else (0, (RRF_ERROR g h RRF_INVALID_ARGUMENT (some name) 207).1,
               some (RRF_ERROR g h RRF_INVALID_ARGUMENT (some name) 207).2) := by
  unfold rrf_arg_not_null
  cases ptr
  · by_cases hc : h.errors < RRF_ERRORS_MAX <;> simp [RRF_ERROR, rrf_add_error, hc]
  · rfl

/-- The four ways through `rrf_write_async` on a handle: nothing to write, an
argument rejected, the partition file not opened, or the record buffered. -/
theorem rrf_write_async_cases (P : Platform) (g : Process) (h : rrf_handle_t)
    (record : Option (List Nat)) (size : Nat) (ctx : Option rrf_context_t) :
    (record.isSome = true ∧ size = 0 ∧
      rrf_write_async P g (some h) record size ctx = (1, g, some h)) ∨
    ((record = none ∨ (size ≠ 0 ∧ ¬ ctx_ok ctx)) ∧ ∃ name,
      rrf_write_async P g (some h) record size ctx =
        (0, (RRF_ERROR g h RRF_INVALID_ARGUMENT (some name) 207).1,
            some (RRF_ERROR g h RRF_INVALID_ARGUMENT (some name) 207).2)) ∨
    (record.isSome = true ∧ size ≠ 0 ∧ ctx_ok ctx ∧ (rrf_ensure_file_handles P g h).1 = 0 ∧
      rrf_write_async P g (some h) record size ctx =
        (0, (rrf_ensure_file_handles P g h).2.1, some (rrf_ensure_file_handles P g h).2.2)) ∨
    (∃ r, record = some r ∧ size ≠ 0 ∧ ctx_ok ctx ∧ (rrf_ensure_file_handles P g h).1 ≠ 0 ∧
      rrf_write_async P g (some h) record size ctx =
        buffer_record P (rrf_ensure_file_handles P g h).2.1
          (rrf_ensure_file_handles P g h).2.2 r size ctx) := by
  unfold rrf_write_async
  simp only [rrf_arg_not_null_some]
  cases record with
  | none =>
    right; left
    exact ⟨Or.inl rfl, "record", by simp⟩
  | some r =>
    by_cases hs : size = 0
    · left
      exact ⟨rfl, hs, by simp [hs]⟩
    · cases ctx with
      | none =>
        have hok : ctx_ok none := by intro c hc; cases hc
        by_cases hf : (rrf_ensure_file_handles P g h).1 = 0
        · right; right; left
          exact ⟨rfl, hs, hok, hf, by simp [hs, hf]⟩
        · right; right; right
          exact ⟨r, rfl, hs, hok, hf, by simp [hs, hf]⟩
      | some c =>
        by_cases h1 : c.handle.isSome = true
        · by_cases h2 : c.callback.isSome = true
          · have hok : ctx_ok (some c) := by
              intro c1 hc
              cases hc
              exact ⟨h1, h2⟩
            by_cases hf : (rrf_ensure_file_handles P g h).1 = 0
            · right; right; left
              exact ⟨rfl, hs, hok, hf, by simp [hs, hf, h1, h2]⟩
            · right; right; right
              exact ⟨r, rfl, hs, hok, hf, by simp [hs, hf, h1, h2]⟩
          · right; left
            refine ⟨Or.inr ⟨hs, ?_⟩, "ctx.callback", by simp [hs, h1, h2]⟩
            intro hok
            exact h2 (hok c rfl).2
        · right; left
          refine ⟨Or.inr ⟨hs, ?_⟩, "ctx.handle", by simp [hs, h1]⟩
          intro hok
          exact h1 (hok c rfl).1

theorem rrf_ensure_frame (P : Platform) (g : Process) (h : rrf_handle_t) :
    PoolFrame g h (rrf_ensure_file_handles P g h).2.1 (rrf_ensure_file_handles P g h).2.2 := by
  cases hf : h.current_file with
  | none => exact (rrf_ensure_spec P g h hf).1
  | some f => rw [rrf_ensure_open P g h f hf]; exact PoolFrame_refl g h

theorem rrf_roll_frame (P : Platform) (g : Process) (h : rrf_handle_t)
    (r : Nat × Process × rrf_handle_t) (hr : rrf_roll_file_handles P g h = some r) :
    PoolFrame g h r.2.1 r.2.2 := by
  cases hf : h.current_file with
  | none =>
    unfold rrf_roll_file_handles at hr
    rw [hf] at hr
    cases hr
    exact PoolFrame_refl g h
  | some f =>
    by_cases hb : h.current_file_bytes < h.size
    · rw [rrf_roll_below P g h hb] at hr
      cases hr
      exact PoolFrame_refl g h
    · by_cases hp : h.partitions = 0
      · unfold rrf_roll_file_handles at hr
        rw [hf] at hr
        dsimp only at hr
        rw [if_pos (by omega), if_pos (by rw [(rrf_stamp_spec P g h f).1.partitions]; exact hp)] at hr
        cases hr
      · obtain ⟨r1, h1, h2, _⟩ := rrf_roll_spec P g h f hf (by omega) hp
        rw [h1] at hr
        cases hr
        exact h2

theorem PoolInv_write_async (P : Platform) (g g1 : Process) (h h1 : rrf_handle_t)
    (record : Option (List Nat)) (size : Nat) (ctx : Option rrf_context_t) (ret : Nat)
    (hw : rrf_write_async P g (some h) record size ctx = (ret, g1, some h1))
    (i : PoolInv g h) : PoolInv g1 h1 := by
  rcases rrf_write_async_cases P g h record size ctx with
    ⟨_, _, e⟩ | ⟨_, name, e⟩ | ⟨_, _, _, _, e⟩ | ⟨r, _, _, _, _, e⟩
  · rw [e] at hw
    cases hw
    exact i
  · rw [e] at hw
    cases hw
    exact PoolInv_frame (RRF_ERROR_frame _ _ _ _ _).1 i
  · rw [e] at hw
    cases hw
    exact PoolInv_frame (rrf_ensure_frame P g h) i
  · obtain ⟨h2, e2, i2⟩ := PoolInv_buffer_record P _ _ r size ctx
      (PoolInv_frame (rrf_ensure_frame P g h) i)
    rw [e] at hw
    rw [hw] at e2 i2
    cases e2
    exact i2

theorem load_length (buf : Nat → Nat) (off n : Nat) : (load buf off n).length = n := by
  simp [load]

theorem block_bytes_length (g : Process) (b : Nat) :
    (block_bytes g b).length = (g.blocks b).count - (g.blocks b).written := by
  simp [block_bytes, load]

/-- The part of a flush pass before the rotation check keeps the pool invariant. -/
theorem PoolInv_account (g : Process) (h : rrf_handle_t) (b f : Nat) (rest : List Nat)
    (w : Nat × Host) (hp : h.pending = b :: rest)
    (hw : w.1 ≤ (g.blocks b).count - (g.blocks b).written) (i : PoolInv g h) :
    PoolInv (rrf_service_account g h b rest f w).1 (rrf_service_account g h b rest f w).2 := by
  have hb := i.cursors b (by rw [hp]; exact List.mem_cons_self _ _)
  have htot := i.arranged
  rw [hp] at htot
  unfold rrf_service_account
  dsimp only
  by_cases hd : (g.blocks b).written + w.1 = (g.blocks b).count
  · simp only [if_pos hd]
    refine ⟨List.perm_middle.symm.trans htot, ?_⟩
    intro b1 hb1
    have hb1p : b1 ∈ h.pending := by rw [hp]; exact List.mem_cons_of_mem _ hb1
    by_cases hbb : b1 = b
    · subst hbb
      simp only [upd_same]
      omega
    · dsimp only
      rw [upd_other _ _ _ _ hbb]
      exact i.cursors b1 hb1p
  · simp only [if_neg hd]
    refine ⟨htot, ?_⟩
    intro b1 hb1
    have hb1p : b1 ∈ h.pending := by rw [hp]; exact hb1
    by_cases hbb : b1 = b
    · subst hbb
      simp only [upd_same]
      omega
    · dsimp only
      rw [upd_other _ _ _ _ hbb]
      exact i.cursors b1 hb1p

theorem PoolInv_service_iter (P : Platform) (g g1 : Process) (h h1 : rrf_handle_t)
    (x : Option Nat) (hs : rrf_service_iter P g h = some (x, g1, h1)) (i : PoolInv g h) :
    PoolInv g1 h1 := by
  unfold rrf_service_iter at hs
  cases hp : h.pending with
  | nil =>
    rw [hp] at hs
    cases hs
    exact i
  | cons b rest =>
    rw [hp] at hs
    dsimp only at hs
    cases hf : h.current_file with
    | none => rw [hf] at hs; cases hs
    | some f =>
      rw [hf] at hs
      dsimp only at hs
      have hle := fwrite_le g.host f (block_bytes g b)
      rw [block_bytes_length] at hle
      split at hs
      · cases hs
        refine PoolInv_frame (RRF_ERROR_frame _ _ _ _ _).1 ?_
        exact ⟨i.arranged, i.cursors⟩
      · have ia := PoolInv_account g h b f rest (g.host.fwrite f (block_bytes g b)) hp hle i
        split at hs
        · cases hs
        · rename_i r hr
          have key : PoolInv r.2.1 r.2.2 := PoolInv_frame (rrf_roll_frame P _ _ r hr) ia
          split at hs <;> (cases hs; exact key)

theorem PoolInv_total {g : Process} {h : rrf_handle_t} (i : PoolInv g h) :
    g.rrf_block_cache_head.length + h.pending.length = RRF_WRITE_BLOCK_CACHE := by
  have := i.arranged.length_eq
  simpa using this

theorem rrf_service_loop_induct (P : Platform) (Q : Process → rrf_handle_t → Prop)
    (hstep : ∀ g h x g1 h1, Q g h → rrf_service_iter P g h = some (x, g1, h1) → Q g1 h1)
    (fuel : Nat) : ∀ (g : Process) (h : rrf_handle_t) (r : Nat × Process × rrf_handle_t),
      Q g h → rrf_service_loop P fuel g h = some r → Q r.2.1 r.2.2 := by
  induction fuel with
  | zero => intro g h r _ hr; cases hr
  | succ fuel ih =>
    intro g h r q hr
    rw [rrf_service_loop] at hr
    cases hi : rrf_service_iter P g h with
    | none => rw [hi] at hr; cases hr
    | some v =>
      obtain ⟨x, g1, h1⟩ := v
      have q1 := hstep g h x g1 h1 q hi
      rw [hi] at hr
      cases x with
      | none => exact ih g1 h1 r q1 hr
      | some ret =>
        cases hr
        exact q1

theorem int_negative_small (n : Nat) (hn : n ≤ 4099) : int_negative n = false := by
  unfold int_negative UINT_MOD
  simp only [decide_eq_false_iff_not, not_le]
  omega

/-- A pass of the flush loop that makes `rrf_service` return 0 leaves nothing pending. -/
theorem rrf_service_iter_zero (P : Platform) (g g1 : Process) (h h1 : rrf_handle_t)
    (hs : rrf_service_iter P g h = some (some 0, g1, h1)) (i : PoolInv g h) :
    h1.pending = [] := by
  unfold rrf_service_iter at hs
  cases hp : h.pending with
  | nil =>
    rw [hp] at hs
    cases hs
    exact hp
  | cons b rest =>
    rw [hp] at hs
    dsimp only at hs
    cases hf : h.current_file with
    | none => rw [hf] at hs; cases hs
    | some f =>
      rw [hf] at hs
      dsimp only at hs
      have hle := fwrite_le g.host f (block_bytes g b)
      rw [block_bytes_length] at hle
      have hb := i.cursors b (by rw [hp]; exact List.mem_cons_self _ _)
      rw [int_negative_small _ (by omega)] at hs
      simp only [Bool.false_eq_true, if_false] at hs
      split at hs
      · cases hs
      · rename_i r hr
        split at hs
        · simp only [Option.some.injEq, Prod.mk.injEq] at hs
          obtain ⟨h0, _, h2⟩ := hs
          rw [← h2]
          by_contra hne
          rw [if_neg hne] at h0
          exact absurd h0 (by decide)
        · cases hs

theorem rrf_service_loop_zero (P : Platform) (fuel : Nat) : ∀ (g g1 : Process)
    (h h1 : rrf_handle_t), PoolInv g h → rrf_service_loop P fuel g h = some (0, g1, h1) →
    h1.pending = [] := by
  induction fuel with
  | zero => intro g g1 h h1 _ hr; cases hr
  | succ fuel ih =>
    intro g g1 h h1 i hr
    rw [rrf_service_loop] at hr
    cases hi : rrf_service_iter P g h with
    | none => rw [hi] at hr; cases hr
    | some v =>
      obtain ⟨x, g2, h2⟩ := v
      rw [hi] at hr
      cases x with
      | none => exact ih g2 g1 h2 h1 (PoolInv_service_iter P g g2 h h2 none hi i) hr
      | some ret =>
        simp only [Option.some.injEq, Prod.mk.injEq] at hr
        obtain ⟨e0, e1, e2⟩ := hr
        subst e0 e1 e2
        exact rrf_service_iter_zero P g g2 h h2 hi i

theorem foldl_push (l init : List Nat) :
    l.foldl (fun hd b => b :: hd) init = l.reverse ++ init := by
  induction l generalizing init with
  | nil => rfl
  | cons a l ih => simp [List.foldl_cons, ih]

theorem malloc_oracles (d : Host) : same_oracles d d.malloc.2 := ⟨rfl, rfl, rfl, rfl⟩

/-- A call of `rrf_create` that fails leaves the block cache as it was or built, and
stores no handle. -/
theorem rrf_create_failed (P : Platform) (g : Process) (handle : Bool) (filepath : String)
    (partitions size : Nat) (hz : (rrf_create P g handle filepath partitions size).1 = 0) :
    (rrf_create P g handle filepath partitions size).2.2 = none ∧
    same_oracles g.host (rrf_create P g handle filepath partitions size).2.1.host ∧
    (((rrf_create P g handle filepath partitions size).2.1.rrf_block_cache_head
        = g.rrf_block_cache_head ∧
      (rrf_create P g handle filepath partitions size).2.1.rrf_block_cache_buffer
        = g.rrf_block_cache_buffer) ∨
     ((rrf_create P g handle filepath partitions size).2.1.rrf_block_cache_head
        = (cache_built g).rrf_block_cache_head ∧
      (rrf_create P g handle filepath partitions size).2.1.rrf_block_cache_buffer
        = (cache_built g).rrf_block_cache_buffer)) := by
  cases handle with
  | false => simp [rrf_create, same_oracles_refl]
  | true =>
    cases hb : g.rrf_block_cache_buffer with
    | true =>
      cases hm : g.host.malloc.1 with
      | false =>
        have e : rrf_create P g true filepath partitions size =
            (0, { g with host := g.host.malloc.2, rrf_sys_error := rrf_malloc_error 246 }, none) := by
          simp [rrf_create, hb, hm]
        rw [e]
        exact ⟨rfl, malloc_oracles _, Or.inl ⟨rfl, hb⟩⟩
      | true =>
        have e : rrf_create P g true filepath partitions size =
            if (rrf_ensure_file_handles P (cache_built g)
                  (rrf_handle_new filepath partitions size)).1 = 0
            then (0, (rrf_ensure_file_handles P (cache_built g)
                  (rrf_handle_new filepath partitions size)).2.1, none)
            else (1, { (rrf_ensure_file_handles P (cache_built g)
                          (rrf_handle_new filepath partitions size)).2.1 with
                        rrf_handles_active :=
                          ((rrf_ensure_file_handles P (cache_built g)
                              (rrf_handle_new filepath partitions size)).2.1.rrf_handles_active + 1)
                            % UINT_MOD },
                  some (rrf_ensure_file_handles P (cache_built g)
                          (rrf_handle_new filepath partitions size)).2.2) := by
          simp [rrf_create, cache_built, hb, hm]
        rw [e] at hz ⊢
        split at hz
        · rename_i hz1
          rw [if_pos hz1]
          have fr := rrf_ensure_frame P (cache_built g) (rrf_handle_new filepath partitions size)
          refine ⟨rfl, ?_, Or.inr ⟨fr.head, fr.buffer⟩⟩
          refine same_oracles_trans ?_ fr.oracles
          simp only [cache_built, hb, if_true]
          exact malloc_oracles _
        · simp at hz
    | false =>
      cases hm1 : g.host.malloc.1 with
      | false =>
        have e : rrf_create P g true filepath partitions size =
            (0, { g with host := g.host.malloc.2, rrf_sys_error := rrf_malloc_error 229 }, none) := by
          simp [rrf_create, hb, hm1]
        rw [e]
        exact ⟨rfl, malloc_oracles _, Or.inl ⟨rfl, hb⟩⟩
      | true =>
        cases hm2 : g.host.malloc.2.malloc.1 with
        | false =>
          have e : rrf_create P g true filepath partitions size =
              (0, { cache_built g with rrf_sys_error := rrf_malloc_error 246 }, none) := by
            simp [rrf_create, cache_built, hb, hm1, hm2, foldl_push]
          rw [e]
          refine ⟨rfl, ?_, Or.inr ⟨rfl, rfl⟩⟩
          simp only [cache_built, hb, Bool.false_eq_true, if_false]
          exact same_oracles_trans (malloc_oracles _) (malloc_oracles _)
        | true =>
          have e : rrf_create P g true filepath partitions size =
              if (rrf_ensure_file_handles P (cache_built g)
                    (rrf_handle_new filepath partitions size)).1 = 0
              then (0, (rrf_ensure_file_handles P (cache_built g)
                    (rrf_handle_new filepath partitions size)).2.1, none)
              else (1, { (rrf_ensure_file_handles P (cache_built g)
                            (rrf_handle_new filepath partitions size)).2.1 with
                          rrf_handles_active :=
                            ((rrf_ensure_file_handles P (cache_built g)
                                (rrf_handle_new filepath partitions size)).2.1.rrf_handles_active + 1)
                              % UINT_MOD },
                    some (rrf_ensure_file_handles P (cache_built g)
                            (rrf_handle_new filepath partitions size)).2.2) := by
            simp [rrf_create, cache_built, hb, hm1, hm2, foldl_push]
          rw [e] at hz ⊢
          split at hz
          · rename_i hz1
            rw [if_pos hz1]
            have fr := rrf_ensure_frame P (cache_built g) (rrf_handle_new filepath partitions size)
            refine ⟨rfl, ?_, Or.inr ⟨fr.head, fr.buffer⟩⟩
            refine same_oracles_trans ?_ fr.oracles
            simp only [cache_built, hb, Bool.false_eq_true, if_false]
            exact same_oracles_trans (malloc_oracles _) (malloc_oracles _)
          · simp at hz

/-- A call of `rrf_create` that succeeds has run `rrf_ensure_file_handles` on a zeroed
handle over the built cache. -/
theorem rrf_create_succeeded (P : Platform) (g g1 : Process) (h1 : rrf_handle_t)
    (filepath : String) (partitions size : Nat)
    (hc : rrf_create P g true filepath partitions size = (1, g1, some h1)) :
    (rrf_ensure_file_handles P (cache_built g) (rrf_handle_new filepath partitions size)).1 ≠ 0 ∧
    g1 = { (rrf_ensure_file_handles P (cache_built g)
              (rrf_handle_new filepath partitions size)).2.1 with
            rrf_handles_active :=
              ((rrf_ensure_file_handles P (cache_built g)
                  (rrf_handle_new filepath partitions size)).2.1.rrf_handles_active + 1)
                % UINT_MOD } ∧
    h1 = (rrf_ensure_file_handles P (cache_built g)
            (rrf_handle_new filepath partitions size)).2.2 := by
  have e : g.host.malloc.1 = true ∧ (g.rrf_block_cache_buffer = false →
      g.host.malloc.2.malloc.1 = true) := by
    cases hb : g.rrf_block_cache_buffer with
    | true =>
      cases hm : g.host.malloc.1 with
      | false => simp [rrf_create, hb, hm] at hc
      | true => simp
    | false =>
      cases hm1 : g.host.malloc.1 with
      | false => simp [rrf_create, hb, hm1] at hc
      | true =>
        cases hm2 : g.host.malloc.2.malloc.1 with
        | false => simp [rrf_create, hb, hm1, hm2] at hc
        | true => simp
  have e2 : rrf_create P g true filepath partitions size =
      if (rrf_ensure_file_handles P (cache_built g)
            (rrf_handle_new filepath partitions size)).1 = 0
      then (0, (rrf_ensure_file_handles P (cache_built g)
            (rrf_handle_new filepath partitions size)).2.1, none)
      else (1, { (rrf_ensure_file_handles P (cache_built g)
                    (rrf_handle_new filepath partitions size)).2.1 with
                  rrf_handles_active :=
                    ((rrf_ensure_file_handles P (cache_built g)
                        (rrf_handle_new filepath partitions size)).2.1.rrf_handles_active + 1)
                      % UINT_MOD },
            some (rrf_ensure_file_handles P (cache_built g)
                    (rrf_handle_new filepath partitions size)).2.2) := by
    cases hb : g.rrf_block_cache_buffer with
    | true => simp [rrf_create, cache_built, hb, e.1]
    | false => simp [rrf_create, cache_built, hb, e.1, e.2 hb, foldl_push]
  rw [e2] at hc
  split at hc
  · simp at hc
  · rename_i hne
    simp only [Prod.mk.injEq, Option.some.injEq, true_and] at hc
    exact ⟨hne, hc.1.symm, hc.2.symm⟩

theorem cache_built_inv (g : Process) (i : StartupInv g) :
    (cache_built g).rrf_block_cache_buffer = true ∧
    List.Perm (cache_built g).rrf_block_cache_head (List.range RRF_WRITE_BLOCK_CACHE) ∧
    same_oracles g.host (cache_built g).host := by
  rcases i with ⟨hb, hh⟩ | ⟨hb, hh⟩
  · simp only [cache_built, hb, Bool.false_eq_true, if_false, hh, List.append_nil]
    exact ⟨trivial, List.reverse_perm _, same_oracles_trans (malloc_oracles _) (malloc_oracles _)⟩
  · simp only [cache_built, hb, if_true]
    exact ⟨trivial, hh, malloc_oracles _⟩

theorem Startup_inv (P : Platform) (d : Host) (g : Process) (s : Startup P d g) :
    StartupInv g ∧ same_oracles d g.host := by
  induction s with
  | start mem => exact ⟨Or.inl ⟨rfl, rfl⟩, same_oracles_refl _⟩
  | failed g handle filepath partitions size _ hz ih =>
    obtain ⟨_, ho, hc⟩ := rrf_create_failed P g handle filepath partitions size hz
    refine ⟨?_, same_oracles_trans ih.2 ho⟩
    rcases hc with ⟨e1, e2⟩ | ⟨e1, e2⟩
    · unfold StartupInv
      rw [e1, e2]
      exact ih.1
    · unfold StartupInv
      rw [e1, e2]
      exact Or.inr ⟨(cache_built_inv g ih.1).1, (cache_built_inv g ih.1).2.1⟩

theorem rrf_error_cases (g : Process) (h : rrf_handle_t) (count : Nat) :
    rrf_error g (some h) count = (0, [], g, some h) ∨
    rrf_error g (some h) count =
      (RRF_MAX count h.errors, (List.range (RRF_MAX count h.errors)).map h.errorbuf, g,
       some { h with errors := (h.errors + UINT_MOD - RRF_MAX count h.errors) % UINT_MOD }) := by
  unfold rrf_error
  by_cases hc : count = 0
  · left; simp [hc]
  · by_cases he : h.errors = 0
    · left; simp [hc, he]
    · right; simp [hc, he]

theorem PoolInv_create (P : Platform) (g g1 : Process) (h1 : rrf_handle_t)
    (filepath : String) (partitions size : Nat) (i : StartupInv g)
    (hc : rrf_create P g true filepath partitions size = (1, g1, some h1)) : PoolInv g1 h1 := by
  obtain ⟨_, e1, e2⟩ := rrf_create_succeeded P g g1 h1 filepath partitions size hc
  have fr := rrf_ensure_frame P (cache_built g) (rrf_handle_new filepath partitions size)
  have hp : h1.pending = [] := by rw [e2, fr.pending]; rfl
  have hh : g1.rrf_block_cache_head = (cache_built g).rrf_block_cache_head := by
    rw [e1]; exact fr.head
  refine ⟨?_, ?_⟩
  · rw [hp, hh, List.append_nil]
    exact (cache_built_inv g i).2.1
  · intro b hb
    rw [hp] at hb
    cases hb

/-- Every reachable state satisfies the pool invariant. -/
theorem Reachable_PoolInv (P : Platform) (d : Host) (g : Process) (h : rrf_handle_t)
    (r : Reachable P d g h) : PoolInv g h := by
  induction r with
  | create g0 g h filepath partitions size s _ _ hc =>
    exact PoolInv_create P g0 g h filepath partitions size (Startup_inv P d g0 s).1 hc
  | write_async g g1 h h1 record size ctx ret _ _ _ hw ih =>
    exact PoolInv_write_async P g g1 h h1 record size ctx ret hw ih
  | service_iter g g1 h h1 x _ hs ih =>
    exact PoolInv_service_iter P g g1 h h1 x hs ih
  | service g g1 h h1 fuel ret _ hs ih =>
    unfold rrf_service at hs
    dsimp only at hs
    cases hl : rrf_service_loop P fuel g h with
    | none => rw [hl] at hs; cases hs
    | some v =>
      rw [hl] at hs
      simp only [Option.map_some', Option.some.injEq, Prod.mk.injEq] at hs
      obtain ⟨_, e1, e2⟩ := hs
      have := rrf_service_loop_induct P PoolInv
        (fun g h x g1 h1 q hi => PoolInv_service_iter P g g1 h h1 x hi q) fuel g h v ih hl
      rw [e1, e2] at this
      exact this
  | error g g1 h h1 count ret out _ _ he ih =>
    rcases rrf_error_cases g h count with e | e
    · rw [e] at he
      simp only [Prod.mk.injEq, Option.some.injEq] at he
      obtain ⟨_, _, e1, e2⟩ := he
      rw [← e1, ← e2]
      exact ih
    · rw [e] at he
      simp only [Prod.mk.injEq, Option.some.injEq] at he
      obtain ⟨_, _, e1, e2⟩ := he
      rw [← e1, ← e2]
      exact ⟨ih.arranged, ih.cursors⟩

/-! ## The copy loop -/

theorem ChainFrame_refl (g : Process) (h : rrf_handle_t) : ChainFrame g h g h :=
  ⟨rfl, rfl, rfl, rfl, rfl, rfl, rfl, rfl, rfl, rfl, rfl, rfl, rfl, rfl, rfl, rfl⟩

theorem ChainFrame_trans {g g1 g2 : Process} {h h1 h2 : rrf_handle_t}
    (a : ChainFrame g h g1 h1) (b : ChainFrame g1 h1 g2 h2) : ChainFrame g h g2 h2 :=
  ⟨b.host.trans a.host, b.flushed.trans a.flushed, b.active.trans a.active,
    b.buffer.trans a.buffer, b.sys_error.trans a.sys_error,
    b.current_file.trans a.current_file, b.write_index.trans a.write_index,
    b.file_index.trans a.file_index, b.current_file_bytes.trans a.current_file_bytes,
    b.last_record_start.trans a.last_record_start, b.filepath.trans a.filepath,
    b.partitions.trans a.partitions, b.size.trans a.size, b.context.trans a.context,
    b.errors.trans a.errors, b.errorbuf.trans a.errorbuf⟩

theorem RRF_MIN_block (n : Nat) :
    RRF_MIN RRF_WRITE_BLOCK_SIZE n = if 4096 < n then 4096 else n := by
  unfold RRF_MIN RRF_WRITE_BLOCK_SIZE
  rfl

/-- The copy loop takes a run `taken` of blocks off the head of the free list and puts
them on the pending chain, each holding a positive number of unwritten bytes. It
succeeds when the run covers the record, taking `⌈total_left / 4096⌉` blocks, and
otherwise empties the free list and reports `RRF_WRITE_BUFFER_FULL`. -/
theorem rrf_write_loop_spec (fuel : Nat) : ∀ (g : Process) (h : rrf_handle_t)
    (record : List Nat) (readpos total_left : Nat), total_left ≤ fuel →
    ∃ g2 h2 taken, ChainFrame g h g2 h2 ∧ taken ++ g2.rrf_block_cache_head = g.rrf_block_cache_head ∧
      h2.pending = taken.reverse ++ h.pending ∧
      (∀ b, b ∉ taken → g2.blocks b = g.blocks b) ∧
      (∀ b, b ∈ taken → (g2.blocks b).written = 0 ∧ 0 < (g2.blocks b).count ∧
        (g2.blocks b).count ≤ RRF_WRITE_BLOCK_SIZE) ∧
      ((rrf_write_loop fuel g h record readpos total_left = (1, g2, h2) ∧
          total_left ≤ RRF_WRITE_BLOCK_SIZE * taken.length ∧
          RRF_WRITE_BLOCK_SIZE * taken.length < total_left + RRF_WRITE_BLOCK_SIZE) ∨
       (rrf_write_loop fuel g h record readpos total_left =
          (0, (RRF_ERROR g2 { h2 with current := none } RRF_WRITE_BUFFER_FULL none 330).1,
              (RRF_ERROR g2 { h2 with current := none } RRF_WRITE_BUFFER_FULL none 330).2) ∧
          g2.rrf_block_cache_head = [] ∧
          RRF_WRITE_BLOCK_SIZE * taken.length < total_left)) := by
  induction fuel with
  | zero =>
    intro g h record readpos total_left hle
    have h0 : total_left = 0 := by omega
    subst h0
    refine ⟨g, h, [], ChainFrame_refl g h, rfl, rfl, fun _ _ => rfl, ?_, Or.inl ⟨rfl, ?_, ?_⟩⟩
    · intro b hb; cases hb
    · simp
    · simp [RRF_WRITE_BLOCK_SIZE]
  | succ fuel ih =>
    intro g h record readpos total_left hle
    by_cases hl : total_left = 0
    · subst hl
      refine ⟨g, h, [], ChainFrame_refl g h, rfl, rfl, fun _ _ => rfl, ?_,
        Or.inl ⟨rrf_write_loop_zero _ g h record readpos, ?_, ?_⟩⟩
      · intro b hb; cases hb
      · simp
      · simp [RRF_WRITE_BLOCK_SIZE]
    · cases hn : g.rrf_block_cache_head with
      | nil =>
        refine ⟨g, h, [], ChainFrame_refl g h, by rw [hn]; rfl, rfl, fun _ _ => rfl, ?_,
          Or.inr ⟨rrf_write_loop_nil fuel g h record readpos total_left hl hn, hn, ?_⟩⟩
        · intro b hb; cases hb
        · simp only [List.length_nil, Nat.mul_zero]; omega
      | cons b rest =>
        rw [rrf_write_loop_cons fuel g h record readpos total_left hl b rest hn]
        have hmin := RRF_MIN_block total_left
        have hpos : 0 < RRF_MIN RRF_WRITE_BLOCK_SIZE total_left := by
          rw [hmin]; split <;> omega
        obtain ⟨g2, h2, taken, fr, htk, hpend, hout, hin, hres⟩ :=
          ih { g with rrf_block_cache_head := rest,
                      blocks := upd g.blocks b
                        { count := RRF_MIN RRF_WRITE_BLOCK_SIZE total_left, written := 0,
                          buffer := store (g.blocks b).buffer 0
                            ((record.drop readpos).take
                              (RRF_MIN RRF_WRITE_BLOCK_SIZE total_left)) } }
             { h with pending := b :: h.pending, current := some b } record
             (readpos + RRF_MIN RRF_WRITE_BLOCK_SIZE total_left)
             (total_left - RRF_MIN RRF_WRITE_BLOCK_SIZE total_left) (by omega)
        refine ⟨g2, h2, b :: taken, ?_, ?_, ?_, ?_, ?_, ?_⟩
        · refine ChainFrame_trans ?_ fr
          exact ⟨rfl, rfl, rfl, rfl, rfl, rfl, rfl, rfl, rfl, rfl, rfl, rfl, rfl, rfl, rfl, rfl⟩
        · rw [List.cons_append, htk]
        · rw [hpend]; simp
        · intro b1 hb1
          simp only [List.mem_cons, not_or] at hb1
          rw [hout b1 hb1.2]
          exact upd_other _ _ _ _ hb1.1
        · intro b1 hb1
          by_cases hm : b1 ∈ taken
          · exact hin b1 hm
          · simp only [List.mem_cons] at hb1
            rcases hb1 with hb1 | hb1
            · subst hb1
              rw [hout b1 hm]
              simp only [upd_same]
              exact ⟨trivial, hpos, RRF_MIN_le_left _ _⟩
            · exact absurd hb1 hm
        · simp only [List.length_cons]
          rw [hmin] at hres
          simp only [RRF_WRITE_BLOCK_SIZE] at hres ⊢
          rcases hres with ⟨e, h1, h2⟩ | ⟨e, h1, h2⟩
          · refine Or.inl ⟨e, ?_, ?_⟩
            · split at h1 <;> omega
            · split at h2 <;> omega
          · refine Or.inr ⟨e, h1, ?_⟩
            split at h2 <;> omega

theorem store_below (buf : Nat → Nat) (off : Nat) (bs : List Nat) (i : Nat) (hi : i < off) :
    store buf off bs i = buf i := by
  unfold store
  rw [if_neg (by omega)]

/-- The buffering part of `rrf_write_async` takes a run `taken` of blocks off the head
of the free list and puts them on the pending chain, each with a positive number of
unwritten bytes; a block it does not take keeps its `written` cursor and the bytes
it already held. It either registers the context and succeeds, or leaves the free
list empty and reports `RRF_WRITE_BUFFER_FULL`. -/
theorem buffer_record_spec (P : Platform) (g : Process) (h : rrf_handle_t) (record : List Nat)
    (size : Nat) (ctx : Option rrf_context_t) :
    ∃ g2 h2 taken, ChainFrame g h g2 h2 ∧
      taken ++ g2.rrf_block_cache_head = g.rrf_block_cache_head ∧
      h2.pending = taken.reverse ++ h.pending ∧
      (∀ b, b ∉ taken → (g2.blocks b).written = (g.blocks b).written ∧
        (g.blocks b).count ≤ (g2.blocks b).count ∧
        ∀ i, i < (g.blocks b).count → (g2.blocks b).buffer i = (g.blocks b).buffer i) ∧
      (∀ b, b ∈ taken → (g2.blocks b).written = 0 ∧ 0 < (g2.blocks b).count) ∧
      ((buffer_record P g h record size ctx = (1, g2, some { h2 with context := ctx }) ∧
          size ≤ RRF_WRITE_BLOCK_SIZE * taken.length) ∨
       (∃ line, buffer_record P g h record size ctx =
          (0, (RRF_ERROR g2 { h2 with current := none } RRF_WRITE_BUFFER_FULL none line).1,
              some (RRF_ERROR g2 { h2 with current := none } RRF_WRITE_BUFFER_FULL none line).2) ∧
          g2.rrf_block_cache_head = [])) := by
  have hpp : 0 < P.ptr_bytes := by unfold Platform.ptr_bytes; split <;> omega
  unfold buffer_record
  rcases rrf_get_write_block_cases g h SIZEOF_UNSIGNED true with
    ⟨c, _, hlt, _, hsz, hr⟩ | ⟨hn, hr⟩ | ⟨b, rest, hn, hr⟩
  · rw [hr]
    dsimp only
    obtain ⟨g2, h2, taken, fr, htk, hpend, hout, hin, hres⟩ :=
      rrf_write_loop_spec size
        { g with blocks := upd g.blocks c ⟨(g.blocks c).count + P.ptr_bytes, (g.blocks c).written,
            store (g.blocks c).buffer (g.blocks c).count (u32_bytes P size)⟩ } h record 0 size
        (le_refl _)
    refine ⟨g2, h2, taken, ?_, htk, hpend, ?_, ?_, ?_⟩
    · refine ChainFrame_trans ?_ fr
      exact ⟨rfl, rfl, rfl, rfl, rfl, rfl, rfl, rfl, rfl, rfl, rfl, rfl, rfl, rfl, rfl, rfl⟩
    · intro b1 hb1
      rw [hout b1 hb1]
      by_cases hb : b1 = c
      · subst hb
        simp only [upd_same]
        refine ⟨trivial, by omega, ?_⟩
        intro i hi
        exact store_below _ _ _ _ hi
      · dsimp only
        rw [upd_other _ _ _ _ hb]
        exact ⟨rfl, le_refl _, fun _ _ => rfl⟩
    · intro b1 hb1
      exact ⟨(hin b1 hb1).1, (hin b1 hb1).2.1⟩
    · rcases hres with ⟨e, h1, _⟩ | ⟨e, h1, _⟩
      · left
        rw [e]
        exact ⟨by simp, h1⟩
      · right
        rw [e]
        exact ⟨330, by simp, h1⟩
  · rw [hr]
    dsimp only
    refine ⟨g, h, [], ChainFrame_refl g h, by rw [hn]; rfl, rfl, ?_, ?_, Or.inr ⟨317, rfl, hn⟩⟩
    · intro b1 _
      exact ⟨rfl, le_refl _, fun _ _ => rfl⟩
    · intro b1 hb1; cases hb1
  · rw [hr]
    dsimp only
    simp only [upd_same, upd_upd]
    obtain ⟨g2, h2, taken, fr, htk, hpend, hout, hin, hres⟩ :=
      rrf_write_loop_spec size
        { g with rrf_block_cache_head := rest,
                 blocks := upd g.blocks b
                   ⟨0 + P.ptr_bytes, 0, store (g.blocks b).buffer 0 (u32_bytes P size)⟩ }
        { h with pending := b :: h.pending, current := some b } record 0 size (le_refl _)
    refine ⟨g2, h2, b :: taken, ?_, ?_, ?_, ?_, ?_, ?_⟩
    · refine ChainFrame_trans ?_ fr
      exact ⟨rfl, rfl, rfl, rfl, rfl, rfl, rfl, rfl, rfl, rfl, rfl, rfl, rfl, rfl, rfl, rfl⟩
    · rw [List.cons_append, htk, hn]
    · rw [hpend]; simp
    · intro b1 hb1
      simp only [List.mem_cons, not_or] at hb1
      rw [hout b1 hb1.2]
      dsimp only
      rw [upd_other _ _ _ _ hb1.1]
      exact ⟨rfl, le_refl _, fun _ _ => rfl⟩
    · intro b1 hb1
      by_cases hm : b1 ∈ taken
      · exact ⟨(hin b1 hm).1, (hin b1 hm).2.1⟩
      · simp only [List.mem_cons] at hb1
        rcases hb1 with hb1 | hb1
        · subst hb1
          rw [hout b1 hm]
          simp only [upd_same]
          exact ⟨trivial, by omega⟩
        · exact absurd hb1 hm
    · rcases hres with ⟨e, h1, _⟩ | ⟨e, h1, _⟩
      · left
        rw [e]
        refine ⟨by simp, ?_⟩
        simp only [List.length_cons]
        simp only [RRF_WRITE_BLOCK_SIZE] at h1 ⊢
        omega
      · right
        rw [e]
        exact ⟨330, by simp, h1⟩

/-! ## The partition invariant -/

theorem FileInv_same {d : Host} {g g1 : Process} {h h1 : rrf_handle_t} (i : FileInv d g h)
    (ho : same_oracles g.host g1.host) (hf : h1.current_file = h.current_file)
    (hi : h1.file_index = h.file_index) (hb : h1.current_file_bytes = h.current_file_bytes)
    (hs : h1.size = h.size) : FileInv d g1 h1 := by
  refine ⟨same_oracles_trans i.oracles ho, ?_, ?_⟩
  · rw [hf, hi, hb, hs]; exact i.stream
  · rw [hf]; exact i.opened

theorem FileInv_ensure (P : Platform) (d : Host) (g : Process) (h : rrf_handle_t)
    (i : FileInv d g h) :
    FileInv d (rrf_ensure_file_handles P g h).2.1 (rrf_ensure_file_handles P g h).2.2 := by
  cases hf : h.current_file with
  | some f => rw [rrf_ensure_open P g h f hf]; exact i
  | none =>
    obtain ⟨fr, e1, e2, e3⟩ := rrf_ensure_spec P g h hf
    have hb0 : h.current_file_bytes = 0 := by
      rcases i.stream with ⟨_, b⟩ | ⟨c, _⟩
      · exact b
      · rw [hf] at c; cases c
    refine ⟨same_oracles_trans i.oracles fr.oracles, ?_, ?_⟩
    · rcases e2 with ⟨_, a, b⟩ | ⟨_, a, b, _⟩
      · exact Or.inl ⟨a, by rw [b, hb0]⟩
      · refine Or.inr ⟨by rw [a, e1], ?_⟩
        intro hs
        rw [fr.size] at hs
        rw [b, hb0, fr.size]
        simp only [UINT_MOD]
        omega
    · intro hd
      exact absurd hf (i.opened hd)

theorem FileInv_create (P : Platform) (d : Host) (g g1 : Process) (h1 : rrf_handle_t)
    (filepath : String) (partitions size : Nat) (s : StartupInv g) (ho : same_oracles d g.host)
    (hc : rrf_create P g true filepath partitions size = (1, g1, some h1)) :
    FileInv d g1 h1 := by
  obtain ⟨hne, e1, e2⟩ := rrf_create_succeeded P g g1 h1 filepath partitions size hc
  have hnone : (rrf_handle_new filepath partitions size).current_file = none := rfl
  obtain ⟨fr, i1, i2, i3⟩ := rrf_ensure_spec P (cache_built g)
    (rrf_handle_new filepath partitions size) hnone
  have hoc := same_oracles_trans ho (cache_built_inv g s).2.2
  rcases i2 with ⟨a, _, _⟩ | ⟨_, a, b, _⟩
  · exact absurd a hne
  · refine ⟨?_, ?_, ?_⟩
    · rw [e1]; exact same_oracles_trans hoc fr.oracles
    · rw [e2]
      refine Or.inr ⟨by rw [a, i1], ?_⟩
      intro hs
      rw [fr.size] at hs
      rw [b, fr.size]
      have : (rrf_handle_new filepath partitions size).current_file_bytes = 0 := rfl
      rw [this]
      simp only [UINT_MOD]
      omega
    · intro _
      rw [e2, a]
      simp

theorem FileInv_write_async (P : Platform) (d : Host) (g g1 : Process) (h h1 : rrf_handle_t)
    (record : Option (List Nat)) (size : Nat) (ctx : Option rrf_context_t) (ret : Nat)
    (hw : rrf_write_async P g (some h) record size ctx = (ret, g1, some h1))
    (i : FileInv d g h) : FileInv d g1 h1 := by
  rcases rrf_write_async_cases P g h record size ctx with
    ⟨_, _, e⟩ | ⟨_, name, e⟩ | ⟨_, _, _, _, e⟩ | ⟨r, _, _, _, _, e⟩
  · rw [e] at hw
    cases hw
    exact i
  · rw [e] at hw
    cases hw
    obtain ⟨fr, e2, e3, e4, e5⟩ := RRF_ERROR_frame g h RRF_INVALID_ARGUMENT (some name) 207
    exact FileInv_same i fr.oracles e3 e5 e4 fr.size
  · rw [e] at hw
    cases hw
    exact FileInv_ensure P d g h i
  · have i1 := FileInv_ensure P d g h i
    obtain ⟨g2, h2, taken, fr, _, _, _, _, hres⟩ := buffer_record_spec P
      (rrf_ensure_file_handles P g h).2.1 (rrf_ensure_file_handles P g h).2.2 r size ctx
    have i2 : FileInv d g2 h2 := FileInv_same i1 (by rw [fr.host]; exact same_oracles_refl _)
      fr.current_file fr.file_index fr.current_file_bytes fr.size
    rw [e] at hw
    rcases hres with ⟨e3, _⟩ | ⟨line, e3, _⟩
    · rw [e3] at hw
      cases hw
      exact FileInv_same i2 (same_oracles_refl _) rfl rfl rfl rfl
    · rw [e3] at hw
      cases hw
      obtain ⟨fr2, f2, f3, f4, f5⟩ := RRF_ERROR_frame g2 { h2 with current := none }
        RRF_WRITE_BUFFER_FULL none line
      exact FileInv_same i2 fr2.oracles f3 f5 f4 fr2.size

theorem FileInv_roll (P : Platform) (d : Host) (g : Process) (h : rrf_handle_t)
    (r : Nat × Process × rrf_handle_t) (ho : same_oracles d g.host)
    (hf : h.current_file = some h.file_index)
    (hr : rrf_roll_file_handles P g h = some r) : FileInv d r.2.1 r.2.2 := by
  by_cases hb : h.current_file_bytes < h.size
  · rw [rrf_roll_below P g h hb] at hr
    cases hr
    exact ⟨ho, Or.inr ⟨hf, fun _ => hb⟩, fun _ => by rw [hf]; simp⟩
  · by_cases hp : h.partitions = 0
    · unfold rrf_roll_file_handles at hr
      rw [hf] at hr
      dsimp only at hr
      rw [if_pos (by omega),
        if_pos (by rw [(rrf_stamp_spec P g h h.file_index).1.partitions]; exact hp)] at hr
      cases hr
    · obtain ⟨r1, h1, fr, h3, h4, h5⟩ := rrf_roll_spec P g h h.file_index hf (by omega) hp
      rw [h1] at hr
      cases hr
      refine ⟨same_oracles_trans ho fr.oracles, ?_, ?_⟩
      · rcases h4 with ⟨_, a, b⟩ | ⟨_, a, b⟩
        · exact Or.inl ⟨a, b⟩
        · exact Or.inr ⟨a, fun hs => by rw [b]; exact hs⟩
      · intro hd
        have h1 := h5 (reliable_of_same_oracles ho hd)
        rcases h4 with ⟨a, _, _⟩ | ⟨_, a, _⟩
        · omega
        · rw [a]; simp

theorem FileInv_service_iter (P : Platform) (d : Host) (g g1 : Process) (h h1 : rrf_handle_t)
    (x : Option Nat) (hs : rrf_service_iter P g h = some (x, g1, h1)) (i : FileInv d g h) :
    FileInv d g1 h1 := by
  unfold rrf_service_iter at hs
  cases hp : h.pending with
  | nil =>
    rw [hp] at hs
    cases hs
    exact i
  | cons b rest =>
    rw [hp] at hs
    dsimp only at hs
    cases hf : h.current_file with
    | none => rw [hf] at hs; cases hs
    | some f =>
      rw [hf] at hs
      dsimp only at hs
      have hfi : f = h.file_index := by
        rcases i.stream with ⟨a, _⟩ | ⟨a, _⟩
        · rw [hf] at a; cases a
        · rw [hf] at a; cases a; rfl
      split at hs
      · cases hs
        obtain ⟨fr, e2, e3, e4, e5⟩ := RRF_ERROR_frame
          { g with host := (g.host.fwrite f (block_bytes g b)).2,
                   flushed := g.flushed ++
                     [(f, (block_bytes g b).take (g.host.fwrite f (block_bytes g b)).1)] }
          h RRF_WRITE_FAILED (some "strerror(errno)") 363
        exact FileInv_same i (same_oracles_trans (fwrite_oracles g.host f (block_bytes g b))
          fr.oracles) e3 e5 e4 fr.size
      · split at hs
        · cases hs
        · rename_i r hr
          have key : FileInv d r.2.1 r.2.2 := by
            refine FileInv_roll P d _ _ r ?_ ?_ hr
            · exact same_oracles_trans i.oracles (fwrite_oracles g.host f (block_bytes g b))
            · show h.current_file = some h.file_index
              rw [hf, hfi]
          split at hs <;> (cases hs; exact key)

/-- Every reachable state satisfies the partition invariant. -/
theorem Reachable_FileInv (P : Platform) (d : Host) (g : Process) (h : rrf_handle_t)
    (r : Reachable P d g h) : FileInv d g h := by
  induction r with
  | create g0 g h filepath partitions size s _ _ hc =>
    exact FileInv_create P d g0 g h filepath partitions size (Startup_inv P d g0 s).1
      (Startup_inv P d g0 s).2 hc
  | write_async g g1 h h1 record size ctx ret _ _ _ hw ih =>
    exact FileInv_write_async P d g g1 h h1 record size ctx ret hw ih
  | service_iter g g1 h h1 x _ hs ih =>
    exact FileInv_service_iter P d g g1 h h1 x hs ih
  | service g g1 h h1 fuel ret _ hs ih =>
    unfold rrf_service at hs
    dsimp only at hs
    cases hl : rrf_service_loop P fuel g h with
    | none => rw [hl] at hs; cases hs
    | some v =>
      rw [hl] at hs
      simp only [Option.map_some', Option.some.injEq, Prod.mk.injEq] at hs
      obtain ⟨_, e1, e2⟩ := hs
      have := rrf_service_loop_induct P (FileInv d)
        (fun g h x g1 h1 q hi => FileInv_service_iter P d g g1 h h1 x hi q) fuel g h v ih hl
      rw [e1, e2] at this
      exact this
  | error g g1 h h1 count ret out _ _ he ih =>
    rcases rrf_error_cases g h count with e | e
    · rw [e] at he
      simp only [Prod.mk.injEq, Option.some.injEq] at he
      obtain ⟨_, _, e1, e2⟩ := he
      rw [← e1, ← e2]
      exact ih
    · rw [e] at he
      simp only [Prod.mk.injEq, Option.some.injEq] at he
      obtain ⟨_, _, e1, e2⟩ := he
      rw [← e1, ← e2]
      exact FileInv_same ih (same_oracles_refl _) rfl rfl rfl rfl

/-! ## The flush loop on a reliable host -/

/-- On a reliable host a pass of the flush loop writes the whole of the head block,
returns it to the free list, and leaves a stream open: that of the next partition
when the tracked byte count has reached the size cap, the same one otherwise. -/
theorem rrf_service_iter_reliable (P : Platform) (g : Process) (h : rrf_handle_t) (b f : Nat)
    (rest : List Nat) (hd : g.host.reliable) (hp : h.pending = b :: rest)
    (hf : h.current_file = some f) (hpart : h.partitions ≠ 0)
    (hc : (g.blocks b).written ≤ (g.blocks b).count ∧ (g.blocks b).count ≤ 4099) :
    ∃ g1 h1, rrf_service_iter P g h = some (none, g1, h1) ∧
      g1.host.reliable ∧ h1.pending = rest ∧
      g1.rrf_block_cache_head = b :: g.rrf_block_cache_head ∧
      g1.blocks = upd g.blocks b { g.blocks b with written := (g.blocks b).count } ∧
      g1.flushed = g.flushed ++ [(f, block_bytes g b)] ∧
      h1.partitions = h.partitions ∧ h1.size = h.size ∧
      h1.write_index = (h.write_index + 1) % UINT_MOD ∧
      (if h.size ≤ (h.current_file_bytes + (block_bytes g b).length) % UINT_MOD then
        h1.file_index = (h.file_index + 1) % h.partitions ∧
        h1.current_file = some h1.file_index ∧ h1.current_file_bytes = 16
      else
        h1.file_index = h.file_index ∧ h1.current_file = some f ∧
        h1.current_file_bytes
          = (h.current_file_bytes + (block_bytes g b).length) % UINT_MOD) := by
  obtain ⟨w1, w2⟩ := fwrite_reliable g.host f (block_bytes g b) hd
  have hlen := block_bytes_length g b
  have hneg : int_negative (g.host.fwrite f (block_bytes g b)).1 = false :=
    int_negative_small _ (by rw [w1, hlen]; omega)
  have hdone : (g.blocks b).written + (g.host.fwrite f (block_bytes g b)).1 = (g.blocks b).count := by
    rw [w1, hlen]; omega
  have ha : rrf_service_account g h b rest f (g.host.fwrite f (block_bytes g b)) =
      ({ g with host := (g.host.fwrite f (block_bytes g b)).2,
                flushed := g.flushed ++ [(f, block_bytes g b)],
                blocks := upd g.blocks b { g.blocks b with written := (g.blocks b).count },
                rrf_block_cache_head := b :: g.rrf_block_cache_head },
       { h with context := h.context.map (fun (c : rrf_context_t) =>
                  { c with rvalue := some (b, (g.blocks b).written),
                           size := (g.host.fwrite f (block_bytes g b)).1 }),
                pending := rest,
                write_index := (h.write_index + 1) % UINT_MOD,
                current_file_bytes :=
                  (h.current_file_bytes + (block_bytes g b).length) % UINT_MOD }) := by
    unfold rrf_service_account
    dsimp only
    rw [if_pos hdone, if_pos hdone, hdone, w1, List.take_length]
  have hrel : (g.host.fwrite f (block_bytes g b)).2.reliable :=
    reliable_of_same_oracles (fwrite_oracles _ _ _) hd
  have hiter : rrf_service_iter P g h =
      match rrf_roll_file_handles P
        (rrf_service_account g h b rest f (g.host.fwrite f (block_bytes g b))).1
        (rrf_service_account g h b rest f (g.host.fwrite f (block_bytes g b))).2 with
      | none => none
      | some r =>
        if r.1 = 0 then some (some (if r.2.2.pending = [] then 0 else 1), r.2.1, r.2.2)
        else some (none, r.2.1, r.2.2) := by
    unfold rrf_service_iter
    rw [hp]
    dsimp only
    rw [hf]
    dsimp only
    rw [hneg]
    simp only [Bool.false_eq_true, if_false]
  rw [hiter, ha]
  dsimp only
  by_cases hb : h.size ≤ (h.current_file_bytes + (block_bytes g b).length) % UINT_MOD
  · obtain ⟨r, e, fr, e3, e4, e5⟩ := rrf_roll_spec P
      { g with host := (g.host.fwrite f (block_bytes g b)).2,
               flushed := g.flushed ++ [(f, block_bytes g b)],
               blocks := upd g.blocks b { g.blocks b with written := (g.blocks b).count },
               rrf_block_cache_head := b :: g.rrf_block_cache_head }
      { h with context := h.context.map (fun (c : rrf_context_t) =>
                 { c with rvalue := some (b, (g.blocks b).written),
                          size := (g.host.fwrite f (block_bytes g b)).1 }),
               pending := rest,
               write_index := (h.write_index + 1) % UINT_MOD,
               current_file_bytes :=
                 (h.current_file_bytes + (block_bytes g b).length) % UINT_MOD }
      f hf hb hpart
    have hr1 := e5 hrel
    rw [e]
    dsimp only
    rw [if_neg (by omega)]
    rcases e4 with ⟨a, _, _⟩ | ⟨_, a, c⟩
    · omega
    · exact ⟨r.2.1, r.2.2, rfl, reliable_of_same_oracles fr.oracles hrel, fr.pending, fr.head,
        fr.blocks, fr.flushed, fr.partitions, fr.size, fr.write_index,
        by rw [if_pos hb]; exact ⟨e3, a, c⟩⟩
  · rw [rrf_roll_below P _ _ (by dsimp only; omega)]
    dsimp only
    exact ⟨_, _, rfl, hrel, rfl, rfl, rfl, rfl, rfl, rfl, rfl,
      by rw [if_neg hb]; exact ⟨rfl, hf, rfl⟩⟩

theorem block_bytes_congr (g g1 : Process) (b : Nat) (hb : g1.blocks b = g.blocks b) :
    block_bytes g1 b = block_bytes g b := by
  unfold block_bytes
  rw [hb]

/-- On a reliable host `rrf_service` drains the pending chain within one pass per
block: it returns 0, every block of the chain is back on the free list (the head of
the chain deepest), and the bytes it wrote are the unwritten bytes of the blocks in
chain order, head first. -/
theorem rrf_service_loop_drains (P : Platform) : ∀ (pending : List Nat) (g : Process)
    (h : rrf_handle_t), g.host.reliable → h.pending = pending → h.current_file ≠ none →
    h.partitions ≠ 0 → pending.Nodup →
    (∀ b ∈ pending, (g.blocks b).written ≤ (g.blocks b).count ∧ (g.blocks b).count ≤ 4099) →
    ∃ g1 h1, rrf_service_loop P (pending.length + 1) g h = some (0, g1, h1) ∧
      h1.pending = [] ∧ g1.host.reliable ∧ h1.current_file ≠ none ∧
      g1.rrf_block_cache_head = pending.reverse ++ g.rrf_block_cache_head ∧
      g1.flushed.map Prod.snd = g.flushed.map Prod.snd ++ pending.map (block_bytes g) ∧
      (∀ b, b ∉ pending → g1.blocks b = g.blocks b) ∧
      (∀ b, b ∈ pending → g1.blocks b = { g.blocks b with written := (g.blocks b).count }) ∧
      h1.write_index % UINT_MOD = (h.write_index + pending.length) % UINT_MOD := by
  intro pending
  induction pending with
  | nil =>
    intro g h hd hp hf _ _ _
    refine ⟨g, h, ?_, hp, hd, hf, rfl, by simp, fun _ _ => rfl, ?_, ?_⟩
    · simp only [List.length_nil, Nat.zero_add, rrf_service_loop, rrf_service_iter, hp]
    · intro b hb; cases hb
    · rfl
  | cons b rest ih =>
    intro g h hd hp hf hpart hnd hc
    obtain ⟨f, hf1⟩ := Option.ne_none_iff_exists'.mp hf
    obtain ⟨g1, h1, e, hd1, hp1, hh1, hb1, hfl1, hpt1, _, hw1, hrot⟩ :=
      rrf_service_iter_reliable P g h b f rest hd hp hf1 hpart (hc b (List.mem_cons_self _ _))
    have hnd1 := (List.nodup_cons.mp hnd)
    have hf2 : h1.current_file ≠ none := by
      split at hrot
      · rw [hrot.2.1]; simp
      · rw [hrot.2.1]; simp
    have hc1 : ∀ b1 ∈ rest, (g1.blocks b1).written ≤ (g1.blocks b1).count ∧
        (g1.blocks b1).count ≤ 4099 := by
      intro b1 hb1m
      have hne : b1 ≠ b := fun e => hnd1.1 (e ▸ hb1m)
      rw [hb1, upd_other _ _ _ _ hne]
      exact hc b1 (List.mem_cons_of_mem _ hb1m)
    obtain ⟨g2, h2, e2, hp2, hd2, hf3, hh2, hfl2, hout2, hin2, hw2⟩ :=
      ih g1 h1 hd1 hp1 hf2 (by rw [hpt1]; exact hpart) hnd1.2 hc1
    refine ⟨g2, h2, ?_, hp2, hd2, hf3, ?_, ?_, ?_, ?_, ?_⟩
    · rw [List.length_cons, rrf_service_loop, e]
      exact e2
    · rw [hh2, hh1]; simp
    · rw [hfl2, hfl1]
      have : rest.map (block_bytes g1) = rest.map (block_bytes g) := by
        apply List.map_congr_left
        intro b1 hb1m
        have hne : b1 ≠ b := fun e => hnd1.1 (e ▸ hb1m)
        exact block_bytes_congr g g1 b1 (by rw [hb1, upd_other _ _ _ _ hne])
      rw [this]
      simp
    · intro b1 hb1m
      simp only [List.mem_cons, not_or] at hb1m
      rw [hout2 b1 hb1m.2, hb1, upd_other _ _ _ _ hb1m.1]
    · intro b1 hb1m
      by_cases hm : b1 ∈ rest
      · have hne : b1 ≠ b := fun e => hnd1.1 (e ▸ hm)
        rw [hin2 b1 hm, hb1, upd_other _ _ _ _ hne]
      · simp only [List.mem_cons] at hb1m
        rcases hb1m with hb1m | hb1m
        · subst hb1m
          rw [hout2 b1 hm, hb1, upd_same]
        · exact absurd hb1m hm
    · rw [hw2, hw1, List.length_cons]
      simp only [UINT_MOD]
      omega

/-! ## Failed writes -/

theorem reported_RRF_ERROR (code : Nat) (g g2 : Process) (h h2 : rrf_handle_t)
    (m : Option String) (line : Nat) (he : h2.errors = h.errors)
    (hb : h2.errorbuf = h.errorbuf) (hs : g2.rrf_sys_error = g.rrf_sys_error) :
    reported code g h (RRF_ERROR g2 h2 code m line).1 (RRF_ERROR g2 h2 code m line).2 := by
  unfold reported
  rw [RRF_ERROR_eq, he, hb]
  by_cases hc : h.errors < RRF_ERRORS_MAX
  · rw [if_pos hc, if_pos hc]
    refine ⟨rfl, ?_, ?_, hs⟩
    · show (upd h.errorbuf h.errors _ h.errors).code = code
      rw [upd_same]
    · intro i hi
      exact upd_other _ _ _ _ hi
  · rw [if_neg hc, if_neg hc]
    exact ⟨he, hb, rfl⟩

/-- With a partition file open, a record to write and a context that passes the
checks, `rrf_write_async` is its buffering part. -/
theorem rrf_write_async_open (P : Platform) (g : Process) (h : rrf_handle_t) (r : List Nat)
    (size : Nat) (ctx : Option rrf_context_t) (hf : h.current_file ≠ none) (hs : size ≠ 0)
    (hc : ctx_ok ctx) :
    rrf_write_async P g (some h) (some r) size ctx = buffer_record P g h r size ctx := by
  obtain ⟨f, hf1⟩ := Option.ne_none_iff_exists'.mp hf
  have he := rrf_ensure_open P g h f hf1
  rcases rrf_write_async_cases P g h (some r) size ctx with
    ⟨_, e, _⟩ | ⟨e, _⟩ | ⟨_, _, _, e, _⟩ | ⟨r1, e1, _, _, _, e⟩
  · exact absurd e hs
  · rcases e with e | ⟨_, e⟩
    · cases e
    · exact absurd hc e
  · rw [he] at e
    simp at e
  · cases e1
    rw [e, he]

theorem PoolInv_pending_nodup {g : Process} {h : rrf_handle_t} (i : PoolInv g h) :
    h.pending.Nodup := by
  have h1 : (g.rrf_block_cache_head ++ h.pending).Nodup :=
    (List.Perm.nodup_iff i.arranged).mpr (List.nodup_range _)
  exact h1.of_append_right

theorem load_append (buf : Nat → Nat) (off n m : Nat) :
    load buf off (n + m) = load buf off n ++ load buf (off + n) m := by
  unfold load
  rw [List.range_add, List.map_append, List.map_map]
  congr 1
  apply List.map_congr_left
  intro i _
  simp [Nat.add_assoc]

theorem load_congr (buf buf1 : Nat → Nat) (off n : Nat)
    (hb : ∀ i, i < off + n → buf1 i = buf i) : load buf1 off n = load buf off n := by
  unfold load
  apply List.map_congr_left
  intro i hi
  exact hb _ (by have := List.mem_range.mp hi; omega)

/-- A block whose `written` cursor and earlier bytes are kept, and whose `count` has
not shrunk, still has its earlier unwritten bytes at the front of what is to flush. -/
theorem block_bytes_extend (g g1 : Process) (b : Nat)
    (hw : (g1.blocks b).written = (g.blocks b).written)
    (hc : (g.blocks b).count ≤ (g1.blocks b).count)
    (hb : ∀ i, i < (g.blocks b).count → (g1.blocks b).buffer i = (g.blocks b).buffer i)
    (hle : (g.blocks b).written ≤ (g.blocks b).count) :
    ∃ t, block_bytes g1 b = block_bytes g b ++ t := by
  refine ⟨load (g1.blocks b).buffer (g.blocks b).count
    ((g1.blocks b).count - (g.blocks b).count), ?_⟩
  unfold block_bytes
  rw [hw]
  have e : (g1.blocks b).count - (g.blocks b).written =
      ((g.blocks b).count - (g.blocks b).written) + ((g1.blocks b).count - (g.blocks b).count) := by
    omega
  rw [e, load_append]
  congr 1
  · exact load_congr _ _ _ _ (fun i hi => hb i (by omega))
  · congr 1
    omega

theorem ctx_ok_none : ctx_ok none := by
  intro c hc
  cases hc

/-! ## The worked scenario is reachable -/

theorem demo_reachable : Reachable LP64 demo_host (demo_process LP64) (demo_handle LP64) :=
  Reachable.create _ _ _ "demo" 2 4096 (Startup.start zero_memory) (by decide) (by decide) rfl

theorem demo_written_reachable :
    Reachable LP64 demo_host (demo_written LP64).2.1
      ((demo_written LP64).2.2.getD (demo_handle LP64)) :=
  Reachable.write_async _ _ _ _ (some demo_record) 12 none 1 demo_reachable (by decide)
    (by intro r hr; cases hr; rfl) rfl


/-- A call of `rrf_write_async` on a handle hands that handle back. -/
theorem rrf_write_async_some (P : Platform) (g : Process) (h : rrf_handle_t)
    (record : Option (List Nat)) (size : Nat) (ctx : Option rrf_context_t) :
    ∃ h1, (rrf_write_async P g (some h) record size ctx).2.2 = some h1 := by
  rcases rrf_write_async_cases P g h record size ctx with
    ⟨_, _, e⟩ | ⟨_, name, e⟩ | ⟨_, _, _, _, e⟩ | ⟨r, _, _, _, _, e⟩
  · rw [e]; exact ⟨_, rfl⟩
  · rw [e]; exact ⟨_, rfl⟩
  · rw [e]; exact ⟨_, rfl⟩
  · rw [e]
    obtain ⟨g2, h2, taken, _, _, _, _, _, hres⟩ := buffer_record_spec P
      (rrf_ensure_file_handles P g h).2.1 (rrf_ensure_file_handles P g h).2.2 r size ctx
    rcases hres with ⟨e3, _⟩ | ⟨line, e3, _⟩
    · rw [e3]; exact ⟨_, rfl⟩
    · rw [e3]; exact ⟨_, rfl⟩

theorem demo_writes_reachable (n : Nat) :
    ∃ h, (demo_writes LP64 n).2.2 = some h ∧ Reachable LP64 demo_host (demo_writes LP64 n).2.1 h := by
  induction n with
  | zero => exact ⟨demo_handle LP64, rfl, demo_reachable⟩
  | succ n ih =>
    obtain ⟨h, e, hr⟩ := ih
    obtain ⟨h1, e1⟩ := rrf_write_async_some LP64 (demo_writes LP64 n).2.1 h (some demo_record) 12 none
    refine ⟨h1, ?_, ?_⟩
    · rw [demo_writes, e]; exact e1
    · refine Reachable.write_async (demo_writes LP64 n).2.1 _ h h1 (some demo_record) 12 none
        (demo_writes LP64 (n + 1)).1 hr (by decide) (by intro r hr; cases hr; rfl) ?_
      rw [← e1, demo_writes, e]

theorem demo_full_reachable :
    Reachable LP64 demo_host (demo_writes LP64 7).2.1
      ((demo_writes LP64 7).2.2.getD (demo_handle LP64)) := by
  obtain ⟨h, e, hr⟩ := demo_writes_reachable 7
  rw [e]
  exact hr


/-! ## The error queue -/

/-- While the queue has room, the reported errors are appended to it in report
order and nothing else is touched. -/
theorem report_all_room : ∀ (es : List (Nat × Option String × Nat)) (g : Process)
    (h : rrf_handle_t), h.errors + es.length ≤ RRF_ERRORS_MAX →
    (report_all g h es).1 = g ∧
    (report_all g h es).2.errors = h.errors + es.length ∧
    (∀ i, i < h.errors → (report_all g h es).2.errorbuf i = h.errorbuf i) ∧
    (∀ i (hi : i < es.length),
      (report_all g h es).2.errorbuf (h.errors + i) = error_record (es.get ⟨i, hi⟩)) := by
  intro es
  induction es with
  | nil =>
    intro g h _
    refine ⟨rfl, rfl, fun _ _ => rfl, ?_⟩
    intro i hi
    cases hi
  | cons e es ih =>
    intro g h hle
    simp only [List.length_cons] at hle
    have hlt : h.errors < RRF_ERRORS_MAX := by omega
    have e1 : RRF_ERROR g h e.1 e.2.1 e.2.2 =
        (g, { h with errorbuf := upd h.errorbuf h.errors (error_record e),
                     errors := h.errors + 1 }) := by
      rw [RRF_ERROR_eq, if_pos hlt]
      rfl
    rw [report_all, e1]
    obtain ⟨a, b, c, d⟩ := ih g
      { h with errorbuf := upd h.errorbuf h.errors (error_record e), errors := h.errors + 1 }
      (by dsimp only; omega)
    dsimp only at a b c d ⊢
    refine ⟨a, ?_, ?_, ?_⟩
    · rw [b, List.length_cons]
      omega
    · intro i hi
      rw [c i (by omega)]
      exact upd_other _ _ _ _ (by omega)
    · intro i hi
      cases i with
      | zero =>
        have hc := c h.errors (by omega)
        have h0 : h.errors + 0 = h.errors := rfl
        rw [h0, hc]
        exact upd_same _ _ _
      | succ i =>
        simp only [List.length_cons] at hi
        have := d i (by omega)
        rw [show h.errors + (i + 1) = h.errors + 1 + i by omega, this]
        rfl

/-! ## Rotation -/

theorem rrf_roll_crash (P : Platform) (g : Process) (h : rrf_handle_t) (f : Nat)
    (hf : h.current_file = some f) (hb : h.size ≤ h.current_file_bytes)
    (hp : h.partitions = 0) : rrf_roll_file_handles P g h = none := by
  unfold rrf_roll_file_handles
  rw [hf]
  dsimp only
  rw [if_pos (by omega), if_pos (by rw [(rrf_stamp_spec P g h f).1.partitions]; exact hp)]

/-- A pass of the flush loop that writes the head block `b` to the open stream `f`:
the bytes `fwrite` took are recorded against `f`; when they bring the tracked byte
count to the size cap the partition index advances modulo the partition count and
the stream, if one could be opened, is that of the new index with the 16 bytes of
its stamp counted; otherwise index and stream stay and the count has grown. -/
theorem rrf_service_iter_rotation (P : Platform) (g g1 : Process) (h h1 : rrf_handle_t)
    (b f : Nat) (rest : List Nat) (x : Option Nat) (hp : h.pending = b :: rest)
    (hf : h.current_file = some f)
    (hc : (g.blocks b).written ≤ (g.blocks b).count ∧ (g.blocks b).count ≤ 4099)
    (hs : rrf_service_iter P g h = some (x, g1, h1)) :
    g1.flushed = g.flushed ++
      [(f, (block_bytes g b).take (g.host.fwrite f (block_bytes g b)).1)] ∧
    h1.partitions = h.partitions ∧ h1.size = h.size ∧
    (if h.size ≤ (h.current_file_bytes + (g.host.fwrite f (block_bytes g b)).1) % UINT_MOD then
      h1.file_index = (h.file_index + 1) % h.partitions ∧
      ((h1.current_file = none ∧ h1.current_file_bytes = 0) ∨
       (h1.current_file = some h1.file_index ∧ h1.current_file_bytes = 16))
    else
      h1.file_index = h.file_index ∧ h1.current_file = some f ∧
      h1.current_file_bytes
        = (h.current_file_bytes + (g.host.fwrite f (block_bytes g b)).1) % UINT_MOD) := by
  have hle := fwrite_le g.host f (block_bytes g b)
  rw [block_bytes_length] at hle
  have hneg : int_negative (g.host.fwrite f (block_bytes g b)).1 = false :=
    int_negative_small _ (by omega)
  unfold rrf_service_iter at hs
  rw [hp] at hs
  dsimp only at hs
  rw [hf] at hs
  dsimp only at hs
  rw [hneg] at hs
  simp only [Bool.false_eq_true, if_false] at hs
  have hacf : (rrf_service_account g h b rest f (g.host.fwrite f (block_bytes g b))).2.current_file
      = some f := hf
  by_cases hb : h.size ≤ (h.current_file_bytes + (g.host.fwrite f (block_bytes g b)).1) % UINT_MOD
  · rw [if_pos hb]
    by_cases hz : h.partitions = 0
    · rw [rrf_roll_crash P _ _ f hacf hb hz] at hs
      cases hs
    · obtain ⟨r, e, fr, e3, e4, _⟩ := rrf_roll_spec P
        (rrf_service_account g h b rest f (g.host.fwrite f (block_bytes g b))).1
        (rrf_service_account g h b rest f (g.host.fwrite f (block_bytes g b))).2 f hacf hb hz
      rw [e] at hs
      dsimp only at hs
      have key : g1 = r.2.1 ∧ h1 = r.2.2 := by
        split at hs
        · simp only [Option.some.injEq, Prod.mk.injEq] at hs
          exact ⟨hs.2.1.symm, hs.2.2.symm⟩
        · simp only [Option.some.injEq, Prod.mk.injEq] at hs
          exact ⟨hs.2.1.symm, hs.2.2.symm⟩
      rw [key.1, key.2]
      refine ⟨fr.flushed, fr.partitions, fr.size, e3, ?_⟩
      rcases e4 with ⟨_, a, c⟩ | ⟨_, a, c⟩
      · exact Or.inl ⟨a, c⟩
      · exact Or.inr ⟨a, c⟩
  · rw [if_neg hb]
    rw [rrf_roll_below P _ _ (by show (h.current_file_bytes + _) % UINT_MOD < h.size; omega)] at hs
    dsimp only at hs
    simp only [Nat.one_ne_zero, if_false, Option.some.injEq, Prod.mk.injEq] at hs
    rw [← hs.2.1, ← hs.2.2]
    exact ⟨rfl, rfl, rfl, rfl, hf, rfl⟩


/-! ## Return values -/

/-- A pass of the flush loop that ends `rrf_service` with nothing pending ends it
with 0. -/
theorem rrf_service_iter_ret (P : Platform) (g g1 : Process) (h h1 : rrf_handle_t) (ret : Nat)
    (hs : rrf_service_iter P g h = some (some ret, g1, h1)) (hp : h1.pending = []) :
    ret = 0 := by
  unfold rrf_service_iter at hs
  cases hq : h.pending with
  | nil =>
    rw [hq] at hs
    simp only [Option.some.injEq, Prod.mk.injEq] at hs
    exact hs.1.symm
  | cons b rest =>
    rw [hq] at hs
    dsimp only at hs
    cases hf : h.current_file with
    | none => rw [hf] at hs; cases hs
    | some f =>
      rw [hf] at hs
      dsimp only at hs
      split at hs
      · simp only [Option.some.injEq, Prod.mk.injEq] at hs
        exact hs.1.symm
      · split at hs
        · cases hs
        · split at hs
          · simp only [Option.some.injEq, Prod.mk.injEq] at hs
            obtain ⟨e0, _, e2⟩ := hs
            rw [← e2] at hp
            rw [if_pos hp] at e0
            exact e0.symm
          · cases hs

theorem rrf_service_loop_ret (P : Platform) (fuel : Nat) : ∀ (g g1 : Process)
    (h h1 : rrf_handle_t) (ret : Nat), rrf_service_loop P fuel g h = some (ret, g1, h1) →
    h1.pending = [] → ret = 0 := by
  induction fuel with
  | zero => intro g g1 h h1 ret hr; cases hr
  | succ fuel ih =>
    intro g g1 h h1 ret hr hp
    rw [rrf_service_loop] at hr
    cases hi : rrf_service_iter P g h with
    | none => rw [hi] at hr; cases hr
    | some v =>
      obtain ⟨x, g2, h2⟩ := v
      rw [hi] at hr
      cases x with
      | none => exact ih g2 g1 h2 h1 ret hr hp
      | some r0 =>
        simp only [Option.some.injEq, Prod.mk.injEq] at hr
        obtain ⟨e0, e1, e2⟩ := hr
        subst e0 e1 e2
        exact rrf_service_iter_ret P g g2 h h2 r0 hi hp

theorem demo_host_reliable : demo_host.reliable :=
  ⟨fun _ => rfl, fun _ => rfl, fun _ => rfl, fun _ => rfl⟩

/-! ## The log of closed streams -/

theorem RRF_ERROR_host (g : Process) (h : rrf_handle_t) (code : Nat) (m : Option String)
    (line : Nat) : (RRF_ERROR g h code m line).1.host = g.host :=
  (RRF_ERROR_frame g h code m line).2.1

theorem rrf_safe_seek_closed (g : Process) (h : rrf_handle_t) :
    (rrf_safe_seek g h).2.1.host.closed = g.host.closed := by
  unfold rrf_safe_seek
  dsimp only
  split
  · rfl
  · rw [RRF_ERROR_host]
    rfl

theorem rrf_stamp_closed (P : Platform) (g : Process) (h : rrf_handle_t) (f : Nat) :
    (rrf_stamp P g h f).2.1.host.closed = g.host.closed := by
  unfold rrf_stamp
  dsimp only
  split
  · rw [RRF_ERROR_host]
    rfl
  · rfl

theorem fopen_closed (d : Host) (i : Nat) : (d.fopen i).2.closed = d.closed := by
  unfold Host.fopen
  split <;> rfl

theorem rrf_check_or_open_closed (P : Platform) (g : Process) (h : rrf_handle_t) (i : Nat) :
    (rrf_check_or_open P g h none i).2.1.host.closed = g.host.closed := by
  unfold rrf_check_or_open
  dsimp only
  cases ho : (g.host.fopen i).1 with
  | none => exact fopen_closed g.host i
  | some f =>
    dsimp only
    split
    · rw [rrf_safe_seek_closed]
      exact fopen_closed g.host i
    · split
      · rw [rrf_stamp_closed, rrf_safe_seek_closed]
        exact fopen_closed g.host i
      · rw [rrf_stamp_closed, rrf_safe_seek_closed]
        exact fopen_closed g.host i

theorem rrf_ensure_closed (P : Platform) (g : Process) (h : rrf_handle_t) :
    (rrf_ensure_file_handles P g h).2.1.host.closed = g.host.closed := by
  cases hf : h.current_file with
  | some f => rw [rrf_ensure_open P g h f hf]
  | none =>
    unfold rrf_ensure_file_handles
    rw [hf]
    dsimp only
    cases hr : (rrf_check_or_open P g h none h.file_index).1 with
    | none =>
      dsimp only
      rw [RRF_ERROR_host]
      exact rrf_check_or_open_closed P g h h.file_index
    | some f1 =>
      exact rrf_check_or_open_closed P g h h.file_index

/-! ## What a pass of the flush loop counts -/

/-- A pass of the flush loop that finds a block pending makes one call of `fwrite`,
advances the write counter by one, and returns the block to the free list exactly
when the call wrote all the bytes the block still held. -/
theorem rrf_service_iter_counts (P : Platform) (g g1 : Process) (h h1 : rrf_handle_t)
    (x : Option Nat) (i : PoolInv g h) (hs : rrf_service_iter P g h = some (x, g1, h1)) :
    (h.pending = [] ∧ g1 = g ∧ h1 = h ∧ x = some 0) ∨
    (∃ b rest f, h.pending = b :: rest ∧ h.current_file = some f ∧
      g1.flushed.length = g.flushed.length + 1 ∧
      h1.write_index = (h.write_index + 1) % UINT_MOD ∧
      ((g.blocks b).written + (g.host.fwrite f (block_bytes g b)).1 = (g.blocks b).count →
        g1.rrf_block_cache_head = b :: g.rrf_block_cache_head ∧ h1.pending = rest) ∧
      ((g.blocks b).written + (g.host.fwrite f (block_bytes g b)).1 ≠ (g.blocks b).count →
        g1.rrf_block_cache_head = g.rrf_block_cache_head ∧ h1.pending = b :: rest)) := by
  unfold rrf_service_iter at hs
  cases hp : h.pending with
  | nil =>
    rw [hp] at hs
    simp only [Option.some.injEq, Prod.mk.injEq] at hs
    exact Or.inl ⟨rfl, hs.2.1.symm, hs.2.2.symm, hs.1.symm⟩
  | cons b rest =>
    right
    rw [hp] at hs
    dsimp only at hs
    cases hf : h.current_file with
    | none => rw [hf] at hs; cases hs
    | some f =>
      rw [hf] at hs
      dsimp only at hs
      have hle := fwrite_le g.host f (block_bytes g b)
      rw [block_bytes_length] at hle
      have hb := i.cursors b (by rw [hp]; exact List.mem_cons_self _ _)
      rw [int_negative_small _ (by omega)] at hs
      simp only [Bool.false_eq_true, if_false] at hs
      cases hroll : rrf_roll_file_handles P
          (rrf_service_account g h b rest f (g.host.fwrite f (block_bytes g b))).1
          (rrf_service_account g h b rest f (g.host.fwrite f (block_bytes g b))).2 with
      | none => rw [hroll] at hs; cases hs
      | some r =>
        rw [hroll] at hs
        dsimp only at hs
        have fr := rrf_roll_frame P _ _ r hroll
        have key : g1 = r.2.1 ∧ h1 = r.2.2 := by
          split at hs
          · simp only [Option.some.injEq, Prod.mk.injEq] at hs
            exact ⟨hs.2.1.symm, hs.2.2.symm⟩
          · simp only [Option.some.injEq, Prod.mk.injEq] at hs
            exact ⟨hs.2.1.symm, hs.2.2.symm⟩
        rw [key.1, key.2]
        refine ⟨b, rest, f, rfl, rfl, ?_, ?_, ?_, ?_⟩
        · rw [fr.flushed]
          simp [rrf_service_account]
        · rw [fr.write_index]
          rfl
        · intro hdone
          rw [fr.head, fr.pending]
          simp [rrf_service_account, hdone]
        · intro hdone
          rw [fr.head, fr.pending]
          simp [rrf_service_account, hdone]

theorem FlushCount_step (P : Platform) (d : Host) (g0 : Process) (h0 : rrf_handle_t)
    (g h : Process × rrf_handle_t) (x : Option Nat) (q : FlushCount d g0 h0 g.1 g.2)
    (hs : rrf_service_iter P g.1 g.2 = some (x, h.1, h.2)) : FlushCount d g0 h0 h.1 h.2 := by
  obtain ⟨i, j, passes, done, q1, q2, q3, q4, q5, q6⟩ := q
  have i1 := PoolInv_service_iter P _ _ _ _ x hs i
  have j1 := FileInv_service_iter P d _ _ _ _ x hs j
  rcases rrf_service_iter_counts P _ _ _ _ x i hs with ⟨_, e1, e2, _⟩ | ⟨b, rest, f, hp, hf, c1, c2, c3, c4⟩
  · rw [e1, e2]
    exact ⟨i, j, passes, done, q1, q2, q3, q4, q5, q6⟩
  · refine ⟨i1, j1, ?_⟩
    have hb := i.cursors b (by rw [hp]; exact List.mem_cons_self _ _)
    by_cases hdone : (g.1.blocks b).written + (g.1.host.fwrite f (block_bytes g.1 b)).1
        = (g.1.blocks b).count
    · obtain ⟨a1, a2⟩ := c3 hdone
      refine ⟨passes + 1, done + 1, ?_, ?_, ?_, ?_, ?_, ?_⟩
      · rw [c1, q1]; omega
      · rw [a1, List.length_cons, q2]; omega
      · rw [a2]
        rw [hp, List.length_cons] at q3
        omega
      · omega
      · rw [c2]
        unfold UINT_MOD at q5 ⊢
        omega
      · intro hd
        rw [q6 hd]
    · obtain ⟨a1, a2⟩ := c4 hdone
      refine ⟨passes + 1, done, ?_, ?_, ?_, ?_, ?_, ?_⟩
      · rw [c1, q1]; omega
      · rw [a1, q2]
      · rw [a2, ← hp]; exact q3
      · omega
      · rw [c2]
        unfold UINT_MOD at q5 ⊢
        omega
      · intro hd
        exfalso
        have hrel := reliable_of_same_oracles j.oracles hd
        have hw := (fwrite_reliable g.1.host f (block_bytes g.1 b) hrel).1
        rw [block_bytes_length] at hw
        omega

theorem short_written_reachable :
    Reachable LP64 short_host (short_written LP64).2.1
      ((short_written LP64).2.2.getD (rrf_handle_new "demo" 2 4096)) :=
  Reachable.write_async (short_created LP64).2.1 _
    ((short_created LP64).2.2.getD (rrf_handle_new "demo" 2 4096)) _ (some demo_record) 12 none 1
    (Reachable.create _ _ _ "demo" 2 4096 (Startup.start zero_memory) (by decide) (by decide) rfl)
    (by decide) (by intro r hr; cases hr; rfl) rfl

/-! ## A write that makes no progress -/

/-- A pass of the flush loop in which `fwrite` returns 0 for a head block that still
holds bytes, below the size cap: no error is reported, the block stays at the head
of the pending chain with its cursor where it was, the write counter advances, and
the loop goes round again. -/
theorem zero_write_pass (P : Platform) (g : Process) (h : rrf_handle_t) (b f : Nat)
    (rest : List Nat) (hp : h.pending = b :: rest) (hf : h.current_file = some f)
    (hz : g.host.fwrite_limit g.host.calls = some 0)
    (hw : (g.blocks b).written < (g.blocks b).count)
    (hb : h.current_file_bytes < h.size) (hm : h.current_file_bytes < UINT_MOD) :
    ∃ g1 h1, rrf_service_iter P g h = some (none, g1, h1) ∧
      h1.pending = b :: rest ∧ h1.current_file = some f ∧
      h1.current_file_bytes = h.current_file_bytes ∧ h1.size = h.size ∧
      h1.errors = h.errors ∧ h1.errorbuf = h.errorbuf ∧ g1.rrf_sys_error = g.rrf_sys_error ∧
      h1.write_index = (h.write_index + 1) % UINT_MOD ∧
      g1.blocks b = g.blocks b ∧
      g1.host.calls = g.host.calls + 1 ∧ g1.host.fwrite_limit = g.host.fwrite_limit ∧
      g1.host.files = g.host.files := by
  have hw0 : (g.host.fwrite f (block_bytes g b)).1 = 0 := by
    unfold Host.fwrite
    dsimp only
    rw [hz]
    simp [RRF_MIN]
  have hmod : h.current_file_bytes % UINT_MOD = h.current_file_bytes :=
    Nat.mod_eq_of_lt hm
  have hne : ¬ ((g.blocks b).written = (g.blocks b).count) := by omega
  have ha : rrf_service_account g h b rest f (g.host.fwrite f (block_bytes g b)) =
      ({ g with host := (g.host.fwrite f (block_bytes g b)).2,
                flushed := g.flushed ++ [(f, [])],
                blocks := upd g.blocks b (g.blocks b) },
       { h with context := h.context.map (fun (c : rrf_context_t) =>
                  { c with rvalue := some (b, (g.blocks b).written), size := 0 }),
                pending := b :: rest,
                write_index := (h.write_index + 1) % UINT_MOD,
                current_file_bytes := h.current_file_bytes }) := by
    unfold rrf_service_account
    dsimp only
    rw [hw0]
    simp only [Nat.add_zero, hne, if_false, hmod, List.take_zero]
  have hroll := rrf_roll_below P
    (rrf_service_account g h b rest f (g.host.fwrite f (block_bytes g b))).1
    (rrf_service_account g h b rest f (g.host.fwrite f (block_bytes g b))).2
    (by rw [ha]; exact hb)
  refine ⟨(rrf_service_account g h b rest f (g.host.fwrite f (block_bytes g b))).1,
    (rrf_service_account g h b rest f (g.host.fwrite f (block_bytes g b))).2, ?_, ?_⟩
  · unfold rrf_service_iter
    rw [hp]
    dsimp only
    rw [hf]
    dsimp only
    have hneg : int_negative (g.host.fwrite f (block_bytes g b)).1 = false := by
      rw [hw0]; decide
    rw [hneg]
    simp only [Bool.false_eq_true, if_false]
    rw [hroll]
    dsimp only
    rw [if_neg (by decide)]
  · rw [ha]
    refine ⟨rfl, hf, rfl, rfl, rfl, rfl, rfl, rfl, ?_, ?_, rfl, ?_⟩
    · show upd g.blocks b (g.blocks b) b = g.blocks b
      rw [upd_same]
    · show (g.host.fwrite f (block_bytes g b)).2.calls = g.host.calls + 1
      rfl
    · show (g.host.fwrite f (block_bytes g b)).2.files = g.host.files
      unfold Host.fwrite
      dsimp only
      rw [hz]
      funext j
      by_cases hj : j = f
      · rw [hj, upd_same]
        simp [RRF_MIN]
      · rw [upd_other _ _ _ _ hj]

/-- While `fwrite` keeps returning 0 the flush loop does not end, whatever the number
of passes it is given. -/
theorem zero_write_spins (P : Platform) (fuel : Nat) : ∀ (g : Process) (h : rrf_handle_t)
    (b f : Nat) (rest : List Nat), h.pending = b :: rest → h.current_file = some f →
    (∀ n, g.host.calls ≤ n → g.host.fwrite_limit n = some 0) →
    (g.blocks b).written < (g.blocks b).count →
    h.current_file_bytes < h.size → h.current_file_bytes < UINT_MOD →
    rrf_service_loop P fuel g h = none := by
  induction fuel with
  | zero => intro g h b f rest _ _ _ _ _ _; rfl
  | succ fuel ih =>
    intro g h b f rest hp hf hz hw hb hm
    obtain ⟨g1, h1, e, a1, a2, a3, a4, _, _, _, _, a5, a6, a7, _⟩ :=
      zero_write_pass P g h b f rest hp hf (hz _ (le_refl _)) hw hb hm
    rw [rrf_service_loop, e]
    dsimp only
    refine ih g1 h1 b f rest a1 a2 ?_ (by rw [a5]; exact hw) (by rw [a3, a4]; exact hb)
      (by rw [a3]; exact hm)
    intro n hn
    rw [a7]
    exact hz n (by omega)

/-! ## What the copy loop stores -/

theorem load_store (buf : Nat → Nat) (bs : List Nat) :
    load (store buf 0 bs) 0 bs.length = bs := by
  apply List.ext_getElem
  · exact load_length _ _ _
  · intro i h1 h2
    unfold load store
    simp only [List.getElem_map, List.getElem_range, Nat.zero_add, Nat.zero_le, true_and,
      Nat.sub_zero]
    rw [if_pos h2]
    exact List.getD_eq_getElem _ _ h2

theorem take_drop_split (l : List Nat) (p n t : Nat) (hn : n ≤ t) :
    (l.drop p).take n ++ (l.drop (p + n)).take (t - n) = (l.drop p).take t := by
  have e : t = n + (t - n) := by omega
  conv_rhs => rw [e, List.take_add]
  rw [List.drop_drop]

/-- The test of `rrf_get_write_block` for `RRF_FIT` and a length word: the current
block is used when it has strictly more than `sizeof(unsigned)` bytes of room, and
otherwise the call does what it does for `RRF_ANY`. -/
theorem rrf_get_write_block_fit (g : Process) (h : rrf_handle_t) :
    (∀ c, h.current = some c →
      SIZEOF_UNSIGNED < RRF_WRITE_BLOCK_SIZE - (g.blocks c).count →
      rrf_get_write_block g h SIZEOF_UNSIGNED true = (some c, g, h)) ∧
    ((∀ c, h.current = some c →
        RRF_WRITE_BLOCK_SIZE - (g.blocks c).count ≤ SIZEOF_UNSIGNED) →
      rrf_get_write_block g h SIZEOF_UNSIGNED true
        = rrf_get_write_block g h SIZEOF_UNSIGNED false) := by
  unfold rrf_get_write_block
  cases hc : h.current with
  | none => simp
  | some c =>
    constructor
    · intro c1 e1 hroom
      cases e1
      have hlt : (g.blocks c).count < RRF_WRITE_BLOCK_SIZE := by omega
      simp [hlt, hroom]
    · intro hroom
      have hnr : ¬ (SIZEOF_UNSIGNED < RRF_WRITE_BLOCK_SIZE - (g.blocks c).count) := by
        have := hroom c rfl
        omega
      simp [hnr]

theorem PoolInv_head_nodup {g : Process} {h : rrf_handle_t} (i : PoolInv g h) :
    g.rrf_block_cache_head.Nodup := by
  have h1 : (g.rrf_block_cache_head ++ h.pending).Nodup :=
    (List.Perm.nodup_iff i.arranged).mpr (List.nodup_range _)
  exact h1.of_append_left

theorem load_store_word (P : Platform) (buf : Nat → Nat) (x : Nat) :
    load (store buf 0 (u32_bytes P x)) 0 4 = u32_bytes P x := by
  have hls := load_store buf (u32_bytes P x)
  rw [u32_bytes_length] at hls
  exact hls

/-- When the copy loop fails it has taken every block of the free list, and each holds
4096 unwritten bytes of the record: joined in the order they were taken, the blocks
hold the bytes of the record from `readpos` on, as far as they go. -/
theorem rrf_write_loop_overflow (fuel : Nat) : ∀ (g : Process) (h : rrf_handle_t)
    (record : List Nat) (readpos total_left : Nat), total_left ≤ fuel →
    g.rrf_block_cache_head.Nodup → readpos + total_left ≤ record.length →
    (rrf_write_loop fuel g h record readpos total_left).1 = 0 →
    (rrf_write_loop fuel g h record readpos total_left).2.1.rrf_block_cache_head = [] ∧
    (∀ b, b ∉ g.rrf_block_cache_head →
      (rrf_write_loop fuel g h record readpos total_left).2.1.blocks b = g.blocks b) ∧
    (∀ b, b ∈ g.rrf_block_cache_head →
      ((rrf_write_loop fuel g h record readpos total_left).2.1.blocks b).written = 0 ∧
      ((rrf_write_loop fuel g h record readpos total_left).2.1.blocks b).count
        = RRF_WRITE_BLOCK_SIZE) ∧
    (g.rrf_block_cache_head.map
        (block_bytes (rrf_write_loop fuel g h record readpos total_left).2.1)).flatten
      = (record.drop readpos).take (RRF_WRITE_BLOCK_SIZE * g.rrf_block_cache_head.length) ∧
    RRF_WRITE_BLOCK_SIZE * g.rrf_block_cache_head.length < total_left := by
  induction fuel with
  | zero =>
    intro g h record readpos total_left _ _ _ hz
    rw [rrf_write_loop] at hz
    simp at hz
  | succ fuel ih =>
    intro g h record readpos total_left hle hnd hlen hz
    by_cases hl : total_left = 0
    · subst hl
      rw [rrf_write_loop_zero] at hz
      simp at hz
    · cases hn : g.rrf_block_cache_head with
      | nil =>
        rw [rrf_write_loop_nil fuel g h record readpos total_left hl hn]
        obtain ⟨fr, _⟩ := RRF_ERROR_frame g { h with current := none }
          RRF_WRITE_BUFFER_FULL none 330
        dsimp only
        refine ⟨by rw [fr.head]; exact hn, fun b _ => by rw [fr.blocks], ?_, ?_, ?_⟩
        · intro b hb; cases hb
        · simp
        · simp only [List.length_nil, Nat.mul_zero]; omega
      | cons b rest =>
        rw [rrf_write_loop_cons fuel g h record readpos total_left hl b rest hn] at hz ⊢
        have hle4 : RRF_MIN RRF_WRITE_BLOCK_SIZE total_left ≤ total_left :=
          RRF_MIN_le_right _ _
        have hpos : 0 < RRF_MIN RRF_WRITE_BLOCK_SIZE total_left :=
          RRF_MIN_pos _ _ (by decide) (by omega)
        rw [hn] at hnd
        obtain ⟨a1, a2, a3, a4, a5⟩ :=
          ih { g with rrf_block_cache_head := rest,
                      blocks := upd g.blocks b
                        { count := RRF_MIN RRF_WRITE_BLOCK_SIZE total_left, written := 0,
                          buffer := store (g.blocks b).buffer 0
                            ((record.drop readpos).take
                              (RRF_MIN RRF_WRITE_BLOCK_SIZE total_left)) } }
             { h with pending := b :: h.pending, current := some b } record
             (readpos + RRF_MIN RRF_WRITE_BLOCK_SIZE total_left)
             (total_left - RRF_MIN RRF_WRITE_BLOCK_SIZE total_left) (by omega)
             (List.nodup_cons.mp hnd).2 (by omega) hz
        dsimp only at a1 a2 a3 a4 a5
        have hbr : b ∉ rest := (List.nodup_cons.mp hnd).1
        have hfull : RRF_MIN RRF_WRITE_BLOCK_SIZE total_left = RRF_WRITE_BLOCK_SIZE := by
          have hmin := RRF_MIN_block total_left
          rw [hmin] at a5 ⊢
          simp only [RRF_WRITE_BLOCK_SIZE] at a5 ⊢
          split at a5
          · rw [if_pos (by assumption)]
          · omega
        rw [hfull] at a1 a2 a3 a4 a5 hz ⊢
        have hchunk : ((record.drop readpos).take RRF_WRITE_BLOCK_SIZE).length
            = RRF_WRITE_BLOCK_SIZE := by
          rw [List.length_take, List.length_drop]
          rw [hfull] at hle4
          omega
        have hb2 := a2 b hbr
        rw [upd_same] at hb2
        refine ⟨a1, ?_, ?_, ?_, ?_⟩
        · intro b1 hb1
          simp only [List.mem_cons, not_or] at hb1
          rw [a2 b1 hb1.2]
          exact upd_other _ _ _ _ hb1.1
        · intro b1 hb1
          simp only [List.mem_cons] at hb1
          by_cases hm : b1 ∈ rest
          · exact a3 b1 hm
          · rcases hb1 with hb1 | hb1
            · subst hb1
              rw [hb2]
              exact ⟨rfl, rfl⟩
            · exact absurd hb1 hm
        · rw [List.map_cons, List.flatten_cons, a4]
          have hbb : ∀ G : Process, G.blocks b =
              { count := RRF_WRITE_BLOCK_SIZE, written := 0,
                buffer := store (g.blocks b).buffer 0
                  ((record.drop readpos).take RRF_WRITE_BLOCK_SIZE) } →
              block_bytes G b = (record.drop readpos).take RRF_WRITE_BLOCK_SIZE := by
            intro G hG
            unfold block_bytes
            rw [hG]
            dsimp only
            rw [Nat.sub_zero]
            have hls := load_store (g.blocks b).buffer
              ((record.drop readpos).take RRF_WRITE_BLOCK_SIZE)
            rw [hchunk] at hls
            exact hls
          rw [hbb _ hb2]
          have hsplit := take_drop_split record readpos RRF_WRITE_BLOCK_SIZE
            (RRF_WRITE_BLOCK_SIZE * (b :: rest).length)
            (by simp only [List.length_cons, RRF_WRITE_BLOCK_SIZE]; omega)
          have hsub : RRF_WRITE_BLOCK_SIZE * (b :: rest).length - RRF_WRITE_BLOCK_SIZE
              = RRF_WRITE_BLOCK_SIZE * rest.length := by
            simp only [List.length_cons, RRF_WRITE_BLOCK_SIZE]; omega
          rw [hsub] at hsplit
          exact hsplit
        · simp only [List.length_cons]
          simp only [RRF_WRITE_BLOCK_SIZE] at a5 ⊢
          omega

/-- When the buffering part of `rrf_write_async` fails for a non-empty record, the
free list is empty afterwards and every block that was on it has been taken: at most
one for the length word, which then holds that word at offset 0, and the others for
the payload, each holding 4096 unwritten bytes of it, in order. -/
theorem buffer_record_overflow (P : Platform) (g g1 : Process) (h : rrf_handle_t)
    (h1 : Option rrf_handle_t) (r : List Nat) (ctx : Option rrf_context_t)
    (hnd : g.rrf_block_cache_head.Nodup) (hne : r.length ≠ 0)
    (hw : buffer_record P g h r r.length ctx = (0, g1, h1)) :
    g1.rrf_block_cache_head = [] ∧
    ∃ first payload, g.rrf_block_cache_head = first ++ payload ∧ first.length ≤ 1 ∧
      (∀ c, h.current = some c →
        SIZEOF_UNSIGNED < RRF_WRITE_BLOCK_SIZE - (g.blocks c).count → first = []) ∧
      (∀ b, b ∈ first → (g1.blocks b).written = 0 ∧ (g1.blocks b).count = P.ptr_bytes ∧
        load (g1.blocks b).buffer 0 SIZEOF_UNSIGNED = u32_bytes P r.length) ∧
      (∀ b, b ∈ payload → (g1.blocks b).written = 0 ∧
        (g1.blocks b).count = RRF_WRITE_BLOCK_SIZE) ∧
      (payload.map (block_bytes g1)).flatten = r.take (RRF_WRITE_BLOCK_SIZE * payload.length) ∧
      RRF_WRITE_BLOCK_SIZE * payload.length < r.length := by
  have main : ∀ (g0 : Process) (h0 : rrf_handle_t),
      (if (rrf_write_loop r.length g0 h0 r 0 r.length).1 = 0 then
          (0, (rrf_write_loop r.length g0 h0 r 0 r.length).2.1,
            some (rrf_write_loop r.length g0 h0 r 0 r.length).2.2)
        else (1, (rrf_write_loop r.length g0 h0 r 0 r.length).2.1,
            some { (rrf_write_loop r.length g0 h0 r 0 r.length).2.2 with context := ctx })) =
        (0, g1, h1) → g0.rrf_block_cache_head.Nodup →
      g1.rrf_block_cache_head = [] ∧
      (∀ b, b ∉ g0.rrf_block_cache_head → g1.blocks b = g0.blocks b) ∧
      (∀ b, b ∈ g0.rrf_block_cache_head → (g1.blocks b).written = 0 ∧
        (g1.blocks b).count = RRF_WRITE_BLOCK_SIZE) ∧
      (g0.rrf_block_cache_head.map (block_bytes g1)).flatten
        = r.take (RRF_WRITE_BLOCK_SIZE * g0.rrf_block_cache_head.length) ∧
      RRF_WRITE_BLOCK_SIZE * g0.rrf_block_cache_head.length < r.length := by
    intro g0 h0 he hnd0
    by_cases hl : (rrf_write_loop r.length g0 h0 r 0 r.length).1 = 0
    · rw [if_pos hl] at he
      simp only [Prod.mk.injEq, true_and] at he
      have ov := rrf_write_loop_overflow r.length g0 h0 r 0 r.length (le_refl _) hnd0
        (by omega) hl
      rw [he.1, List.drop_zero] at ov
      exact ov
    · rw [if_neg hl] at he
      simp only [Prod.mk.injEq] at he
      exact absurd he.1 (by decide)
  obtain ⟨f1, f2⟩ := rrf_get_write_block_fit g h
  unfold buffer_record at hw
  by_cases hfit : ∃ c, h.current = some c ∧
      SIZEOF_UNSIGNED < RRF_WRITE_BLOCK_SIZE - (g.blocks c).count
  · obtain ⟨c, hc, hroom⟩ := hfit
    rw [f1 c hc hroom] at hw
    dsimp only at hw
    obtain ⟨a1, _, a3, a4, a5⟩ := main _ _ hw hnd
    refine ⟨a1, [], g.rrf_block_cache_head, rfl, by simp, fun _ _ _ => rfl, ?_, a3, a4, a5⟩
    intro b hb; cases hb
  · have hno : ∀ c, h.current = some c →
        RRF_WRITE_BLOCK_SIZE - (g.blocks c).count ≤ SIZEOF_UNSIGNED := by
      intro c hc
      by_contra hx
      exact hfit ⟨c, hc, by omega⟩
    rw [f2 hno, rrf_get_write_block_any] at hw
    cases hn : g.rrf_block_cache_head with
    | nil =>
      rw [hn] at hw
      dsimp only at hw
      simp only [Prod.mk.injEq, true_and] at hw
      obtain ⟨fr, _⟩ := RRF_ERROR_frame g { h with current := none }
        RRF_WRITE_BUFFER_FULL none 317
      refine ⟨by rw [← hw.1, fr.head]; exact hn, [], [], rfl, by simp, fun _ _ _ => rfl,
        ?_, ?_, by simp, ?_⟩
      · intro b hb; cases hb
      · intro b hb; cases hb
      · simp only [List.length_nil, Nat.mul_zero]; omega
    | cons b rest =>
      rw [hn] at hw hnd
      dsimp only at hw
      obtain ⟨a1, a2, a3, a4, a5⟩ := main _ _ hw (List.nodup_cons.mp hnd).2
      dsimp only at a2 a3 a4 a5
      have hb2 := a2 b (List.nodup_cons.mp hnd).1
      rw [upd_same, upd_same] at hb2
      refine ⟨a1, [b], rest, rfl, by simp, ?_, ?_, a3, a4, a5⟩
      · intro c hc hroom
        exact absurd ⟨c, hc, hroom⟩ hfit
      · intro b1 hb1
        simp only [List.mem_singleton] at hb1
        subst hb1
        rw [hb2]
        dsimp only
        refine ⟨rfl, Nat.zero_add _, ?_⟩
        exact load_store_word P _ r.length

/-! ## The value `rrf_service` returns -/

/-- A pass of the flush loop that ends `rrf_service`, in a state that satisfies the
pool invariant, ends it with the pending flag: 0 when nothing is pending and 1
otherwise. -/
theorem rrf_service_iter_flag (P : Platform) (g g1 : Process) (h h1 : rrf_handle_t)
    (ret : Nat) (i : PoolInv g h)
    (hs : rrf_service_iter P g h = some (some ret, g1, h1)) :
    ret = if h1.pending = [] then 0 else 1 := by
  unfold rrf_service_iter at hs
  cases hp : h.pending with
  | nil =>
    rw [hp] at hs
    simp only [Option.some.injEq, Prod.mk.injEq] at hs
    rw [← hs.2.2, hp, if_pos rfl]
    exact hs.1.symm
  | cons b rest =>
    rw [hp] at hs
    dsimp only at hs
    cases hf : h.current_file with
    | none => rw [hf] at hs; cases hs
    | some f =>
      rw [hf] at hs
      dsimp only at hs
      have hle := fwrite_le g.host f (block_bytes g b)
      rw [block_bytes_length] at hle
      have hb := i.cursors b (by rw [hp]; exact List.mem_cons_self _ _)
      rw [int_negative_small _ (by omega)] at hs
      simp only [Bool.false_eq_true, if_false] at hs
      split at hs
      · cases hs
      · split at hs
        · simp only [Option.some.injEq, Prod.mk.injEq] at hs
          obtain ⟨e0, _, e2⟩ := hs
          rw [← e2]
          exact e0.symm
        · cases hs

theorem rrf_service_loop_flag (P : Platform) (fuel : Nat) : ∀ (g g1 : Process)
    (h h1 : rrf_handle_t) (ret : Nat), PoolInv g h →
    rrf_service_loop P fuel g h = some (ret, g1, h1) →
    ret = if h1.pending = [] then 0 else 1 := by
  induction fuel with
  | zero => intro g g1 h h1 ret _ hr; cases hr
  | succ fuel ih =>
    intro g g1 h h1 ret i hr
    rw [rrf_service_loop] at hr
    cases hi : rrf_service_iter P g h with
    | none => rw [hi] at hr; cases hr
    | some v =>
      obtain ⟨x, g2, h2⟩ := v
      rw [hi] at hr
      cases x with
      | none => exact ih g2 g1 h2 h1 ret (PoolInv_service_iter P g g2 h h2 none hi i) hr
      | some r0 =>
        simp only [Option.some.injEq, Prod.mk.injEq] at hr
        obtain ⟨e0, e1, e2⟩ := hr
        subst e0 e1 e2
        exact rrf_service_iter_flag P g g2 h h2 r0 i hi

/-- From a reachable state, a call of `rrf_service` that returns, returns the pending
flag. -/
theorem rrf_service_flag (P : Platform) (d : Host) (g g1 : Process) (h h1 : rrf_handle_t)
    (fuel ret : Nat) (hr : Reachable P d g h)
    (hs : rrf_service P fuel g (some h) = some (ret, g1, some h1)) :
    ret = if h1.pending = [] then 0 else 1 := by
  unfold rrf_service at hs
  dsimp only at hs
  cases hl : rrf_service_loop P fuel g h with
  | none => rw [hl] at hs; cases hs
  | some v =>
    obtain ⟨r0, g2, h2⟩ := v
    rw [hl] at hs
    simp only [Option.map_some', Option.some.injEq, Prod.mk.injEq] at hs
    obtain ⟨a0, _, a2⟩ := hs
    rw [← a0, ← a2]
    exact rrf_service_loop_flag P fuel g g2 h h2 r0 (Reachable_PoolInv P d g h hr) hl
/-! ## Claims -/

/-- C1. The round trip of the record framing fails for a single record. On a fresh
handle the 12-byte demo record is accepted and one `rrf_service` call flushes
everything, yet partition file 0 holds, after its 16-byte stamp, the payload first and
the length word after it (followed on a 64-bit target by 4 more bytes), not the
length word followed by the payload. -/
theorem round_trip_single_record :
    (demo_written ILP32).1 = 1 ∧
    (rrf_service ILP32 3 (demo_written ILP32).2.1 (demo_written ILP32).2.2).map
        (fun r => (r.1, (r.2.1.host.files 0).drop 16))
      = some (0, demo_record ++ [12, 0, 0, 0]) ∧
    demo_record ++ [12, 0, 0, 0] ≠ frame ILP32 demo_record ∧
    (demo_written LP64).1 = 1 ∧
    (rrf_service LP64 3 (demo_written LP64).2.1 (demo_written LP64).2.2).map
        (fun r => (r.1, (r.2.1.host.files 0).drop 16))
      = some (0, demo_record ++ [12, 0, 0, 0, 0, 0, 0, 0]) ∧
    demo_record ++ [12, 0, 0, 0, 0, 0, 0, 0] ≠ frame LP64 demo_record := by
  decide

/-- C2. The flush order is not the buffering order. Writing the records `[1, 2, 3]` and
`[4, 5]` on a fresh handle acquires block 7 (first length word), then block 6 (first
payload, second length word), then block 5 (second payload); the pending chain is
`[5, 6, 7]` and `rrf_service` writes the blocks in that order, newest first. -/
theorem flush_order_newest_first :
    (rrf_get_write_block (demo_process ILP32) (demo_handle ILP32) 4 true).1 = some 7 ∧
    ((rrf_write_async ILP32 (demo_process ILP32) (some (demo_handle ILP32)) (some [1, 2, 3]) 3
        none).2.2.map (fun h => h.pending)) = some [6, 7] ∧
    (demo_written_two ILP32 [1, 2, 3] [4, 5]).1 = 1 ∧
    ((demo_written_two ILP32 [1, 2, 3] [4, 5]).2.2.map (fun h => h.pending)) = some [5, 6, 7] ∧
    (rrf_service ILP32 4 (demo_written_two ILP32 [1, 2, 3] [4, 5]).2.1
        (demo_written_two ILP32 [1, 2, 3] [4, 5]).2.2).map (fun r => (r.1, r.2.1.flushed))
      = some (0, [(0, [4, 5]), (0, [1, 2, 3, 2, 0, 0, 0]), (0, [3, 0, 0, 0])]) := by
  decide

/-- C3, as the claim states it, fails. A record of 32769 bytes written on a fresh
handle, whose pending chain is empty, makes `rrf_write_async` return 0 and report
`RRF_WRITE_BUFFER_FULL`, yet afterwards all 8 blocks of the pool are on the pending
chain: block 7 holds the length word of the record and the 7 others hold 4096 bytes
of its payload each. -/
theorem oversized_write_leaves_bytes :
    (demo_handle LP64).pending = [] ∧
    (demo_oversized LP64).1 = 0 ∧
    (demo_oversized LP64).2.2.map (fun h => (h.pending, h.errors, (h.errorbuf 0).code))
      = some ([0, 1, 2, 3, 4, 5, 6, 7], 1, RRF_WRITE_BUFFER_FULL) ∧
    [0, 1, 2, 3, 4, 5, 6, 7].map (fun b => ((demo_oversized LP64).2.1.blocks b).count)
      = [4096, 4096, 4096, 4096, 4096, 4096, 4096, 8] ∧
    load ((demo_oversized LP64).2.1.blocks 7).buffer 0 4 = [1, 128, 0, 0] := by
  decide

/-- C3, amended. In a reachable state with a partition file open, writing a record
longer than the capacity of the pool (8 blocks of 4096 bytes) with a context that
passes the checks returns 0, reports `RRF_WRITE_BUFFER_FULL` and registers no
context; it is not undone: every block that was on the free list is now on the
pending chain, newest first, with unwritten bytes of that record, and the free list
is empty. The blocks taken are at most one block `first` for the length word, none
when the current block had more than `sizeof(unsigned)` bytes of room, and then the
blocks `payload`: the block of `first` is unwritten and holds the length word of the
record at offset 0, with `count` advanced by the size of a pointer; each block of
`payload` is unwritten and holds 4096 bytes, and joined in the order they were taken
they hold the first `4096 * payload.length` bytes of the record, which is not all
of it. -/
theorem oversized_write_fails (P : Platform) (d : Host) (g : Process) (h : rrf_handle_t)
    (r : List Nat) (ctx : Option rrf_context_t) (hr : Reachable P d g h)
    (hf : h.current_file ≠ none) (hc : ctx_ok ctx)
    (hbig : RRF_WRITE_BLOCK_CACHE * RRF_WRITE_BLOCK_SIZE < r.length) :
    ∃ g1 h1, rrf_write_async P g (some h) (some r) r.length ctx = (0, g1, some h1) ∧
      reported RRF_WRITE_BUFFER_FULL g h g1 h1 ∧ h1.context = h.context ∧
      g1.rrf_block_cache_head = [] ∧
      h1.pending = g.rrf_block_cache_head.reverse ++ h.pending ∧
      (∀ b, b ∈ g.rrf_block_cache_head →
        (g1.blocks b).written = 0 ∧ 0 < (g1.blocks b).count) ∧
      ∃ first payload, g.rrf_block_cache_head = first ++ payload ∧ first.length ≤ 1 ∧
        (∀ c, h.current = some c →
          SIZEOF_UNSIGNED < RRF_WRITE_BLOCK_SIZE - (g.blocks c).count → first = []) ∧
        (∀ b, b ∈ first → (g1.blocks b).written = 0 ∧ (g1.blocks b).count = P.ptr_bytes ∧
          load (g1.blocks b).buffer 0 SIZEOF_UNSIGNED = u32_bytes P r.length) ∧
        (∀ b, b ∈ payload → (g1.blocks b).written = 0 ∧
          (g1.blocks b).count = RRF_WRITE_BLOCK_SIZE) ∧
        (payload.map (block_bytes g1)).flatten
          = r.take (RRF_WRITE_BLOCK_SIZE * payload.length) ∧
        RRF_WRITE_BLOCK_SIZE * payload.length < r.length := by
  have i := Reachable_PoolInv P d g h hr
  have htot := PoolInv_total i
  have hs : r.length ≠ 0 := by
    simp only [RRF_WRITE_BLOCK_CACHE, RRF_WRITE_BLOCK_SIZE] at hbig
    omega
  rw [rrf_write_async_open P g h r r.length ctx hf hs hc]
  obtain ⟨g2, h2, taken, fr, htk, hpend, _, hin, hres⟩ :=
    buffer_record_spec P g h r r.length ctx
  rcases hres with ⟨_, hle⟩ | ⟨line, e, hnil⟩
  · have hlen : taken.length ≤ g.rrf_block_cache_head.length := by
      rw [← htk, List.length_append]
      omega
    simp only [RRF_WRITE_BLOCK_CACHE, RRF_WRITE_BLOCK_SIZE] at hbig hle htot
    omega
  · have htaken : taken = g.rrf_block_cache_head := by
      rw [← htk, hnil, List.append_nil]
    obtain ⟨f1, _, _, _, _⟩ := RRF_ERROR_frame g2 { h2 with current := none }
      RRF_WRITE_BUFFER_FULL none line
    have ov := buffer_record_overflow P g _ h _ r ctx (PoolInv_head_nodup i) hs e
    refine ⟨_, _, e, ?_, ?_, ?_, ?_, ?_, ov.2⟩
    · exact reported_RRF_ERROR RRF_WRITE_BUFFER_FULL g g2 h { h2 with current := none } none
        line fr.errors fr.errorbuf fr.sys_error
    · rw [f1.context]; exact fr.context
    · rw [f1.head]; exact hnil
    · rw [f1.pending, ← htaken]; exact hpend
    · intro b hb
      rw [f1.blocks]
      exact hin b (by rw [htaken]; exact hb)

theorem oversized_write_fails_witness :
    Reachable LP64 demo_host (demo_process LP64) (demo_handle LP64) ∧
    (demo_handle LP64).current_file ≠ none ∧ ctx_ok none ∧
    RRF_WRITE_BLOCK_CACHE * RRF_WRITE_BLOCK_SIZE < (List.replicate 32769 7).length ∧
    ∃ g1 h1, rrf_write_async LP64 (demo_process LP64) (some (demo_handle LP64))
        (some (List.replicate 32769 7)) (List.replicate 32769 7).length none
          = (0, g1, some h1) ∧
      reported RRF_WRITE_BUFFER_FULL (demo_process LP64) (demo_handle LP64) g1 h1 ∧
      h1.context = (demo_handle LP64).context ∧
      g1.rrf_block_cache_head = [] ∧
      h1.pending = (demo_process LP64).rrf_block_cache_head.reverse ++ (demo_handle LP64).pending ∧
      (∀ b, b ∈ (demo_process LP64).rrf_block_cache_head →
        (g1.blocks b).written = 0 ∧ 0 < (g1.blocks b).count) ∧
      ∃ first payload, (demo_process LP64).rrf_block_cache_head = first ++ payload ∧
        first.length ≤ 1 ∧
        (∀ c, (demo_handle LP64).current = some c →
          SIZEOF_UNSIGNED < RRF_WRITE_BLOCK_SIZE - ((demo_process LP64).blocks c).count →
          first = []) ∧
        (∀ b, b ∈ first → (g1.blocks b).written = 0 ∧ (g1.blocks b).count = LP64.ptr_bytes ∧
          load (g1.blocks b).buffer 0 SIZEOF_UNSIGNED
            = u32_bytes LP64 (List.replicate 32769 7).length) ∧
        (∀ b, b ∈ payload → (g1.blocks b).written = 0 ∧
          (g1.blocks b).count = RRF_WRITE_BLOCK_SIZE) ∧
        (payload.map (block_bytes g1)).flatten
          = (List.replicate 32769 7).take (RRF_WRITE_BLOCK_SIZE * payload.length) ∧
        RRF_WRITE_BLOCK_SIZE * payload.length < (List.replicate 32769 7).length :=
  ⟨demo_reachable, by decide, ctx_ok_none,
    by rw [List.length_replicate]; decide,
    oversized_write_fails LP64 demo_host _ _ (List.replicate 32769 7) none demo_reachable
      (by decide) ctx_ok_none (by rw [List.length_replicate]; decide)⟩

/-- C4. Backpressure: in a reachable state with a partition file open and the free
list empty, writing a non-empty record with a context that passes the checks returns
0 and reports exactly one error, `RRF_WRITE_BUFFER_FULL` (in the queue of the handle
when it has room); the pending chain is the same, and every block keeps its
`written` cursor and the bytes it already held. On a reliable host, with a non-zero
partition count, a following `rrf_service` returns 0 having written the unwritten
bytes of the pending blocks, which start with the bytes they held before the call. -/
theorem backpressure_signal (P : Platform) (d : Host) (g : Process) (h : rrf_handle_t)
    (r : List Nat) (ctx : Option rrf_context_t) (hr : Reachable P d g h)
    (hf : h.current_file ≠ none) (hfree : g.rrf_block_cache_head = [])
    (hne : r ≠ []) (hlen : r.length < UINT_MOD) (hc : ctx_ok ctx) :
    ∃ g1 h1, rrf_write_async P g (some h) (some r) r.length ctx = (0, g1, some h1) ∧
      reported RRF_WRITE_BUFFER_FULL g h g1 h1 ∧ h1.pending = h.pending ∧
      (∀ b, (g1.blocks b).written = (g.blocks b).written ∧
        (g.blocks b).count ≤ (g1.blocks b).count ∧
        ∀ i, i < (g.blocks b).count → (g1.blocks b).buffer i = (g.blocks b).buffer i) ∧
      (d.reliable → h.partitions ≠ 0 →
        ∃ g2 h2, rrf_service P (h.pending.length + 1) g1 (some h1) = some (0, g2, some h2) ∧
          h2.pending = [] ∧
          g2.flushed.map Prod.snd = g1.flushed.map Prod.snd ++ h.pending.map (block_bytes g1) ∧
          ∀ b, b ∈ h.pending → ∃ t, block_bytes g1 b = block_bytes g b ++ t) := by
  have i := Reachable_PoolInv P d g h hr
  have hs : r.length ≠ 0 := by
    intro h0
    exact hne (List.length_eq_zero.mp h0)
  have hopen := rrf_write_async_open P g h r r.length ctx hf hs hc
  obtain ⟨g2, h2, taken, fr, htk, hpend, hout, _, hres⟩ :=
    buffer_record_spec P g h r r.length ctx
  have htaken : taken = [] := by
    rw [hfree] at htk
    exact (List.append_eq_nil.mp htk).1
  subst htaken
  rcases hres with ⟨_, hle⟩ | ⟨line, e, hnil⟩
  · simp only [List.length_nil, Nat.mul_zero] at hle
    omega
  · obtain ⟨f1, _, f3, _, _⟩ := RRF_ERROR_frame g2 { h2 with current := none }
      RRF_WRITE_BUFFER_FULL none line
    rw [← hopen] at e
    have hr1 := Reachable.write_async g _ h _ (some r) r.length ctx 0 hr hlen
      (by intro r1 h1; cases h1; rfl) e
    have i1 := Reachable_PoolInv P d _ _ hr1
    have j1 := Reachable_FileInv P d _ _ hr1
    have hblocks : ∀ b, ((RRF_ERROR g2 { h2 with current := none }
          RRF_WRITE_BUFFER_FULL none line).1.blocks b).written = (g.blocks b).written ∧
        (g.blocks b).count ≤ ((RRF_ERROR g2 { h2 with current := none }
          RRF_WRITE_BUFFER_FULL none line).1.blocks b).count ∧
        ∀ i, i < (g.blocks b).count → ((RRF_ERROR g2 { h2 with current := none }
          RRF_WRITE_BUFFER_FULL none line).1.blocks b).buffer i = (g.blocks b).buffer i := by
      intro b
      rw [f1.blocks]
      exact hout b (by simp)
    have hpending : (RRF_ERROR g2 { h2 with current := none }
        RRF_WRITE_BUFFER_FULL none line).2.pending = h.pending := by
      rw [f1.pending]
      simpa using hpend
    refine ⟨_, _, e, ?_, hpending, hblocks, ?_⟩
    · exact reported_RRF_ERROR RRF_WRITE_BUFFER_FULL g g2 h { h2 with current := none } none
        line fr.errors fr.errorbuf fr.sys_error
    · intro hd hpart
      have hrel := reliable_of_same_oracles j1.oracles hd
      obtain ⟨g3, h3, e3, hp3, _, _, _, hfl3, _, _, _⟩ := rrf_service_loop_drains P h.pending _ _
        hrel hpending (j1.opened hd) (by rw [f1.partitions]; exact fr.partitions ▸ hpart)
        (PoolInv_pending_nodup i) (by
          intro b hb
          exact i1.cursors b (by rw [hpending]; exact hb))
      refine ⟨g3, h3, ?_, hp3, hfl3, ?_⟩
      · unfold rrf_service
        dsimp only
        rw [e3]
        rfl
      · intro b hb
        exact block_bytes_extend g _ b (hblocks b).1 (hblocks b).2.1 (hblocks b).2.2
          (i.cursors b hb).1

theorem backpressure_signal_witness :
    Reachable LP64 demo_host (demo_writes LP64 7).2.1
      ((demo_writes LP64 7).2.2.getD (demo_handle LP64)) ∧
    ((demo_writes LP64 7).2.2.getD (demo_handle LP64)).current_file ≠ none ∧
    (demo_writes LP64 7).2.1.rrf_block_cache_head = [] ∧
    demo_record ≠ [] ∧ demo_record.length < UINT_MOD ∧ ctx_ok none ∧
    ∃ g1 h1, rrf_write_async LP64 (demo_writes LP64 7).2.1
        (some ((demo_writes LP64 7).2.2.getD (demo_handle LP64))) (some demo_record)
        demo_record.length none = (0, g1, some h1) ∧
      h1.pending = ((demo_writes LP64 7).2.2.getD (demo_handle LP64)).pending :=
  ⟨demo_full_reachable, by decide, by decide, by decide, by decide, ctx_ok_none,
    (backpressure_signal LP64 demo_host _ _ demo_record none demo_full_reachable
      (by decide) (by decide) (by decide) (by decide) ctx_ok_none).elim
      (fun g1 e => e.elim (fun h1 e1 => ⟨g1, h1, e1.1, e1.2.2.1⟩))⟩

/-- C5. Pool conservation: in every state reachable through `rrf_create`,
`rrf_write_async` and `rrf_service`, the free list followed by the pending chain is
an arrangement of the 8 blocks of the pool, so their lengths add up to 8; and when
`rrf_service` returns 0 the pending chain is empty and the free list holds all 8
blocks again. -/
theorem pool_conservation (P : Platform) (d : Host) (g : Process) (h : rrf_handle_t)
    (hr : Reachable P d g h) :
    List.Perm (g.rrf_block_cache_head ++ h.pending) (List.range RRF_WRITE_BLOCK_CACHE) ∧
    g.rrf_block_cache_head.length + h.pending.length = 8 ∧
    ∀ fuel g1 h1, rrf_service P fuel g (some h) = some (0, g1, some h1) →
      h1.pending = [] ∧ g1.rrf_block_cache_head.length = 8 ∧
      List.Perm g1.rrf_block_cache_head (List.range RRF_WRITE_BLOCK_CACHE) := by
  have i := Reachable_PoolInv P d g h hr
  refine ⟨i.arranged, PoolInv_total i, ?_⟩
  intro fuel g1 h1 hs
  have i1 := Reachable_PoolInv P d g1 h1 (Reachable.service g g1 h h1 fuel 0 hr hs)
  have hp : h1.pending = [] := by
    unfold rrf_service at hs
    dsimp only at hs
    cases hl : rrf_service_loop P fuel g h with
    | none => rw [hl] at hs; cases hs
    | some v =>
      obtain ⟨ret, g2, h2⟩ := v
      rw [hl] at hs
      simp only [Option.map_some', Option.some.injEq, Prod.mk.injEq] at hs
      obtain ⟨e0, e1, e2⟩ := hs
      subst e0 e1 e2
      exact rrf_service_loop_zero P fuel g g2 h h2 i hl
  have ht := PoolInv_total i1
  have ha := i1.arranged
  rw [hp] at ht ha
  simp only [List.length_nil, Nat.add_zero, List.append_nil] at ht ha
  exact ⟨hp, ht, ha⟩

theorem pool_conservation_witness :
    Reachable LP64 demo_host (demo_written LP64).2.1
      ((demo_written LP64).2.2.getD (demo_handle LP64)) ∧
    (demo_written LP64).2.1.rrf_block_cache_head = [5, 4, 3, 2, 1, 0] ∧
    ((demo_written LP64).2.2.getD (demo_handle LP64)).pending = [6, 7] ∧
    (demo_written LP64).2.1.rrf_block_cache_head.length
      + ((demo_written LP64).2.2.getD (demo_handle LP64)).pending.length = 8 :=
  ⟨demo_written_reachable, by decide, by decide,
    (pool_conservation LP64 demo_host _ _ demo_written_reachable).2.1⟩

/-- C6. The drain count is the larger, not the smaller, of the requested count and
the number of queued errors. With 2 errors queued and 1 requested, `rrf_error`
returns 2, copies 2 records into the array of 1 and leaves 0 queued, where
`min(1, 2) = 1` record should go and 1 should stay. With 1 error queued and 3
requested it returns 3, copies 3 records of which 2 were never stored, and leaves
the count at `2^32 - 2`. -/
theorem error_drain_takes_max :
    ((report_all (demo_process LP64) (demo_handle LP64) (numbered_errors 2)).2).errors = 2 ∧
    (rrf_error (report_all (demo_process LP64) (demo_handle LP64) (numbered_errors 2)).1
        (some (report_all (demo_process LP64) (demo_handle LP64) (numbered_errors 2)).2) 1).1
      = 2 ∧
    ((rrf_error (report_all (demo_process LP64) (demo_handle LP64) (numbered_errors 2)).1
        (some (report_all (demo_process LP64) (demo_handle LP64) (numbered_errors 2)).2) 1).2.1.map
          (fun e => e.line)) = [1, 2] ∧
    ((rrf_error (report_all (demo_process LP64) (demo_handle LP64) (numbered_errors 2)).1
        (some (report_all (demo_process LP64) (demo_handle LP64) (numbered_errors 2)).2) 1).2.2.2.map
          (fun h => h.errors)) = some 0 ∧
    RRF_MIN 1 2 = 1 ∧
    (rrf_error (report_all (demo_process LP64) (demo_handle LP64) (numbered_errors 1)).1
        (some (report_all (demo_process LP64) (demo_handle LP64) (numbered_errors 1)).2) 3).1
      = 3 ∧
    ((rrf_error (report_all (demo_process LP64) (demo_handle LP64) (numbered_errors 1)).1
        (some (report_all (demo_process LP64) (demo_handle LP64) (numbered_errors 1)).2) 3).2.1.map
          (fun e => e.line)) = [1, 0, 0] ∧
    ((rrf_error (report_all (demo_process LP64) (demo_handle LP64) (numbered_errors 1)).1
        (some (report_all (demo_process LP64) (demo_handle LP64) (numbered_errors 1)).2) 3).2.2.2.map
          (fun h => h.errors)) = some 4294967294 := by
  decide

/-- C7. With no handle `rrf_error` never returns 0 for a non-zero count: it returns 1
whatever the fallback slot holds, also right after draining and clearing it, so the
polling loop of `show_errors` on a NULL handle is still running after any number of
calls. On a handle whose queue is empty it does return 0. -/
theorem null_handle_drain_never_zero (g : Process) (h : rrf_handle_t) (fuel : Nat) :
    (rrf_error g none 1).1 = 1 ∧
    (rrf_error g none 1).2.2.1.rrf_sys_error = rrf_error_zero ∧
    (rrf_error (rrf_error g none 1).2.2.1 none 1).1 = 1 ∧
    show_errors fuel g none = none ∧
    (h.errors = 0 → (rrf_error g (some h) 1).1 = 0) := by
  refine ⟨rfl, rfl, rfl, ?_, ?_⟩
  · induction fuel generalizing g with
    | zero => rfl
    | succ fuel ih =>
      have e : show_errors (fuel + 1) g none =
          (show_errors fuel (rrf_error g none 1).2.2.1 none).map (fun n => n + 1) := by
        rw [show_errors]
        rfl
      rw [e, ih]
      rfl
  · intro he
    simp [rrf_error, he]

/-- C8, as the claim states it, fails. After 18 errors are reported against a fresh
handle with no drain in between, its queue holds 16 of them, the first 16; the
fallback slot holds the 18th, and the 17th is in neither place. -/
theorem errors_beyond_sixteen_lost :
    (report_all (demo_process LP64) (demo_handle LP64) (numbered_errors 18)).2.errors = 16 ∧
    (List.range 16).map (fun i =>
        ((report_all (demo_process LP64) (demo_handle LP64) (numbered_errors 18)).2.errorbuf
          i).line)
      = [1, 2, 3, 4, 5, 6, 7, 8, 9, 10, 11, 12, 13, 14, 15, 16] ∧
    (report_all (demo_process LP64) (demo_handle LP64)
        (numbered_errors 18)).1.rrf_sys_error.line = 18 := by
  decide

/-- C8, amended. Errors reported against a handle with no drain in between are all
kept in its queue, in report order and after the ones already queued, as long as
the queue has room for them (it holds 16); the fallback slot and the earlier entries
are left as they were. -/
theorem errors_kept_while_room (g : Process) (h : rrf_handle_t)
    (es : List (Nat × Option String × Nat)) (hroom : h.errors + es.length ≤ RRF_ERRORS_MAX) :
    (report_all g h es).2.errors = h.errors + es.length ∧
    (∀ i (hi : i < es.length),
      (report_all g h es).2.errorbuf (h.errors + i) = error_record (es.get ⟨i, hi⟩)) ∧
    (∀ i, i < h.errors → (report_all g h es).2.errorbuf i = h.errorbuf i) ∧
    (report_all g h es).1.rrf_sys_error = g.rrf_sys_error := by
  obtain ⟨a, b, c, d⟩ := report_all_room es g h hroom
  exact ⟨b, d, c, by rw [a]⟩

theorem errors_kept_while_room_witness :
    (demo_handle LP64).errors + (numbered_errors 16).length ≤ RRF_ERRORS_MAX ∧
    (report_all (demo_process LP64) (demo_handle LP64) (numbered_errors 16)).2.errors
      = (demo_handle LP64).errors + (numbered_errors 16).length :=
  ⟨by decide,
    (errors_kept_while_room (demo_process LP64) (demo_handle LP64) (numbered_errors 16)
      (by decide)).1⟩

/-- C9, as the claim states it, fails for a size cap of 16 or less. On a handle
created with a cap of 16 bytes the stamp alone brings the tracked byte count to the
cap, and the next pass of `rrf_service` still writes the head block to partition 0. -/
theorem block_written_at_cap :
    (demo_small LP64).2.2.map (fun h => (h.partitions, h.size, h.current_file_bytes))
      = some (2, 16, 16) ∧
    (demo_small LP64).2.2.map (fun h => (h.current_file, h.pending)) = some (some 0, [6, 7]) ∧
    ((demo_small LP64).2.2.bind (fun h => rrf_service_iter LP64 (demo_small LP64).2.1 h)).map
        (fun r => (r.2.1.flushed, r.2.2.file_index))
      = some ([(0, demo_record)], 1) := by
  decide

/-- C9, amended. For a partition count of at least 1 and a size cap above 16 (the
size of the stamp), in every reachable state an open stream is that of partition
`file_index` and the tracked byte count is below the cap, so a pass of the loop of
`rrf_service` writes the head block to that partition with the count below the cap;
when the bytes written bring the count to the cap, the partition index becomes
`(index + 1) mod partitions`, a valid index, which is where the stream of the next
pass belongs. -/
theorem rotation_invariant (P : Platform) (d : Host) (g : Process) (h : rrf_handle_t)
    (hr : Reachable P d g h) (hp : 1 ≤ h.partitions) (hs : 16 < h.size) :
    (∀ f, h.current_file = some f → f = h.file_index ∧ h.current_file_bytes < h.size) ∧
    ∀ b rest f x g1 h1, h.pending = b :: rest → h.current_file = some f →
      rrf_service_iter P g h = some (x, g1, h1) →
      g1.flushed = g.flushed ++
        [(h.file_index, (block_bytes g b).take (g.host.fwrite f (block_bytes g b)).1)] ∧
      (if h.size ≤ (h.current_file_bytes + (g.host.fwrite f (block_bytes g b)).1) % UINT_MOD
        then h1.file_index = (h.file_index + 1) % h.partitions ∧ h1.file_index < h.partitions
        else h1.file_index = h.file_index) ∧
      ∀ f1, h1.current_file = some f1 →
        f1 = h1.file_index ∧ h1.current_file_bytes < h1.size := by
  have i := Reachable_PoolInv P d g h hr
  have j := Reachable_FileInv P d g h hr
  have first : ∀ (g : Process) (h : rrf_handle_t), FileInv d g h → 16 < h.size →
      ∀ f, h.current_file = some f → f = h.file_index ∧ h.current_file_bytes < h.size := by
    intro g h j hs f hf
    rcases j.stream with ⟨a, _⟩ | ⟨a, c⟩
    · rw [hf] at a; cases a
    · rw [hf] at a
      cases a
      exact ⟨rfl, c hs⟩
  refine ⟨first g h j hs, ?_⟩
  intro b rest f x g1 h1 hpend hf hiter
  have hfi := (first g h j hs f hf).1
  obtain ⟨e1, e2, e3, e4⟩ := rrf_service_iter_rotation P g g1 h h1 b f rest x hpend hf
    (i.cursors b (by rw [hpend]; exact List.mem_cons_self _ _)) hiter
  have j1 := Reachable_FileInv P d g1 h1 (Reachable.service_iter g g1 h h1 x hr hiter)
  refine ⟨by rw [e1, hfi], ?_, first g1 h1 j1 (by rw [e3]; exact hs)⟩
  split at e4
  · rename_i hb
    rw [if_pos hb]
    exact ⟨e4.1, by rw [e4.1]; exact Nat.mod_lt _ (by omega)⟩
  · rename_i hb
    rw [if_neg hb]
    exact e4.1

theorem rotation_invariant_witness :
    Reachable LP64 demo_host (demo_written LP64).2.1
      ((demo_written LP64).2.2.getD (demo_handle LP64)) ∧
    1 ≤ ((demo_written LP64).2.2.getD (demo_handle LP64)).partitions ∧
    16 < ((demo_written LP64).2.2.getD (demo_handle LP64)).size ∧
    ((demo_written LP64).2.2.getD (demo_handle LP64)).current_file = some 0 ∧
    0 = ((demo_written LP64).2.2.getD (demo_handle LP64)).file_index ∧
    ((demo_written LP64).2.2.getD (demo_handle LP64)).current_file_bytes
      < ((demo_written LP64).2.2.getD (demo_handle LP64)).size :=
  ⟨demo_written_reachable, by decide, by decide, by decide,
    ((rotation_invariant LP64 demo_host _ _ demo_written_reachable (by decide) (by decide)).1 0
      (by decide)).1,
    ((rotation_invariant LP64 demo_host _ _ demo_written_reachable (by decide) (by decide)).1 0
      (by decide)).2⟩

/-- C10. Stamp layout: `rrf_stamp` hands `fwrite` exactly 16 bytes, the four
`unsigned` words signature (`0x72726601`), partition count, size cap and write index
in memory order, to be appended at the position of the stream; it succeeds exactly
when all 16 were written, and then the stream has grown by these 16 bytes, no other
file has changed, and the tracked byte count has increased by 16 in `unsigned`
arithmetic. -/
theorem stamp_layout (P : Platform) (g : Process) (h : rrf_handle_t) (stream : Nat) :
    RRF_SIG_V1 = 0x72726601 ∧
    stamp_bytes P h = u32_bytes P 0x72726601 ++ u32_bytes P h.partitions
      ++ u32_bytes P h.size ++ u32_bytes P h.write_index ∧
    (stamp_bytes P h).length = 16 ∧
    (∀ x, x < UINT_MOD → u32_of_bytes P (u32_bytes P x) = x) ∧
    (∃ n, n ≤ 16 ∧
      (rrf_stamp P g h stream).2.1.host.files stream
        = g.host.files stream ++ (stamp_bytes P h).take n ∧
      ((rrf_stamp P g h stream).1 = 1 ↔ n = 16) ∧
      ((rrf_stamp P g h stream).1 = 0 ↔ n ≠ 16)) ∧
    (∀ j, j ≠ stream → (rrf_stamp P g h stream).2.1.host.files j = g.host.files j) ∧
    ((rrf_stamp P g h stream).1 = 1 →
      (rrf_stamp P g h stream).2.1.host.files stream = g.host.files stream ++ stamp_bytes P h ∧
      (rrf_stamp P g h stream).2.2.current_file_bytes
        = (h.current_file_bytes + 16) % UINT_MOD) ∧
    (g.host.fwrite_limit g.host.calls = none → (rrf_stamp P g h stream).1 = 1) := by
  have hlen := stamp_bytes_length P h
  have hle := fwrite_le g.host stream (stamp_bytes P h)
  rw [hlen] at hle
  have hfiles : (g.host.fwrite stream (stamp_bytes P h)).2.files
      = upd g.host.files stream (g.host.files stream
          ++ (stamp_bytes P h).take (g.host.fwrite stream (stamp_bytes P h)).1) := rfl
  obtain ⟨_, _, _, s4, _⟩ := rrf_stamp_spec P g h stream
  have hhost : (rrf_stamp P g h stream).2.1.host = (g.host.fwrite stream (stamp_bytes P h)).2 := by
    unfold rrf_stamp
    dsimp only
    split
    · exact (RRF_ERROR_frame _ _ _ _ _).2.1
    · rfl
  have hret : ((rrf_stamp P g h stream).1 = 1 ↔ (g.host.fwrite stream (stamp_bytes P h)).1 = 16) ∧
      ((rrf_stamp P g h stream).1 = 0 ↔ (g.host.fwrite stream (stamp_bytes P h)).1 ≠ 16) := by
    unfold rrf_stamp
    dsimp only
    split
    · rename_i hne
      simp only [zero_ne_one, false_iff, true_iff]
      exact ⟨fun e => hne e.symm, fun e => hne e.symm⟩
    · rename_i hne
      simp only [one_ne_zero, true_iff, false_iff, ne_eq, not_not]
      omega
  refine ⟨by decide, ?_, hlen, ?_, ?_, ?_, ?_, ?_⟩
  · have : RRF_SIG_V1 = 0x72726601 := by decide
    rw [← this]
    rfl
  · intro x hx
    unfold u32_of_bytes u32_bytes
    simp only [UINT_MOD] at hx
    cases P.big_endian
    · simp only [Bool.false_eq_true, if_false]
      omega
    · simp only [if_true, List.reverse_cons, List.reverse_nil, List.nil_append, List.cons_append]
      omega
  · refine ⟨(g.host.fwrite stream (stamp_bytes P h)).1, hle, ?_, hret.1, hret.2⟩
    rw [hhost, hfiles, upd_same]
  · intro j hj
    rw [hhost, hfiles, upd_other _ _ _ _ hj]
  · intro h1
    have h16 := hret.1.mp h1
    refine ⟨?_, ?_⟩
    · rw [hhost, hfiles, upd_same, h16, ← hlen, List.take_length]
    · rcases s4 with ⟨a, _⟩ | ⟨_, a, _⟩
      · omega
      · exact a
  · intro hl
    apply hret.1.mpr
    unfold Host.fwrite
    dsimp only
    rw [hl]
    exact hlen

theorem stamp_layout_witness :
    (rrf_stamp LP64 (demo_process LP64) (demo_handle LP64) 0).1 = 1 ∧
    (demo_process LP64).host.files 0
      = [1, 102, 114, 114, 2, 0, 0, 0, 0, 16, 0, 0, 0, 0, 0, 0] ∧
    (rrf_stamp LP64 (demo_process LP64) (demo_handle LP64) 0).2.1.host.files 0
      = (demo_process LP64).host.files 0 ++ stamp_bytes LP64 (demo_handle LP64) ∧
    (rrf_stamp LP64 (demo_process LP64) (demo_handle LP64) 0).2.2.current_file_bytes
      = ((demo_handle LP64).current_file_bytes + 16) % UINT_MOD :=
  ⟨by decide, by decide,
    ((stamp_layout LP64 (demo_process LP64) (demo_handle LP64) 0).2.2.2.2.2.2.1 (by decide)).1,
    ((stamp_layout LP64 (demo_process LP64) (demo_handle LP64) 0).2.2.2.2.2.2.1 (by decide)).2⟩

/-- C11, as the claim states it, fails when a write is short. On a host whose first
`fwrite` of the flush takes 5 of the 12 bytes of the head block, one record of 12
bytes leaves two blocks pending with the write counter at 0; `rrf_service` then makes
three calls of `fwrite`, returns both blocks to the free list, and leaves the write
counter at 3, not 2. -/
theorem short_write_counted_twice :
    (short_written LP64).2.2.map (fun h => (h.write_index, h.pending)) = some (0, [6, 7]) ∧
    (short_written LP64).2.1.rrf_block_cache_head = [5, 4, 3, 2, 1, 0] ∧
    (short_serviced LP64).map (fun r => (r.1, r.2.1.rrf_block_cache_head)) =
      some (0, [7, 6, 5, 4, 3, 2, 1, 0]) ∧
    (short_serviced LP64).map (fun r => r.2.2.map (fun h => (h.write_index, h.pending))) =
      some (some (3, [])) ∧
    (short_serviced LP64).map (fun r => r.2.1.flushed) =
      some [(0, [98, 108, 97, 104, 98]), (0, [108, 97, 104, 98, 108, 97, 104]),
        (0, [12, 0, 0, 0, 0, 0, 0, 0])] := by
  decide

/-- C11, amended. During `rrf_service` the write counter advances by one for each
pass of the loop, that is for each call of `fwrite`, whether or not the call
finishes a block. From a reachable state, a call of `rrf_service` that returns has
made `passes` calls of `fwrite` and returned `done` blocks to the free list, all of
them from the pending chain, with `done ≤ passes` and the write counter advanced by
`passes` modulo `2^32`; when no library call falls short, `done = passes`, so the
counter has advanced by the number of flushed blocks. -/
theorem write_counter_counts_passes (P : Platform) (d : Host) (g g1 : Process)
    (h h1 : rrf_handle_t) (fuel ret : Nat) (hr : Reachable P d g h)
    (hs : rrf_service P fuel g (some h) = some (ret, g1, some h1)) :
    ∃ passes done, g1.flushed.length = g.flushed.length + passes ∧
      g1.rrf_block_cache_head.length = g.rrf_block_cache_head.length + done ∧
      h1.pending.length + done = h.pending.length ∧
      done ≤ passes ∧
      h1.write_index % UINT_MOD = (h.write_index + passes) % UINT_MOD ∧
      (d.reliable → done = passes) := by
  unfold rrf_service at hs
  dsimp only at hs
  cases hl : rrf_service_loop P fuel g h with
  | none => rw [hl] at hs; cases hs
  | some v =>
    rw [hl] at hs
    simp only [Option.map_some', Option.some.injEq, Prod.mk.injEq] at hs
    obtain ⟨_, e1, e2⟩ := hs
    have q0 : FlushCount d g h g h :=
      ⟨Reachable_PoolInv P d g h hr, Reachable_FileInv P d g h hr, 0, 0, rfl, rfl, rfl,
        le_refl _, rfl, fun _ => rfl⟩
    have q := rrf_service_loop_induct P (FlushCount d g h)
      (fun g2 h2 x g3 h3 q hi => FlushCount_step P d g h (g2, h2) (g3, h3) x q hi) fuel g h v q0 hl
    rw [e1, e2] at q
    exact q.2.2

theorem write_counter_counts_passes_witness :
    Reachable LP64 short_host (short_written LP64).2.1
      ((short_written LP64).2.2.getD (rrf_handle_new "demo" 2 4096)) ∧
    rrf_service LP64 4 (short_written LP64).2.1
        (some ((short_written LP64).2.2.getD (rrf_handle_new "demo" 2 4096))) =
      some (0, ((short_serviced LP64).getD (0, (short_written LP64).2.1, none)).2.1,
        some (((short_serviced LP64).getD (0, (short_written LP64).2.1, none)).2.2.getD
          (rrf_handle_new "demo" 2 4096))) ∧
    ∃ passes done,
      ((short_serviced LP64).getD (0, (short_written LP64).2.1, none)).2.1.flushed.length =
        (short_written LP64).2.1.flushed.length + passes ∧
      ((short_serviced LP64).getD
          (0, (short_written LP64).2.1, none)).2.1.rrf_block_cache_head.length =
        (short_written LP64).2.1.rrf_block_cache_head.length + done ∧
      done ≤ passes :=
  ⟨short_written_reachable, rfl,
    (write_counter_counts_passes LP64 short_host _ _ _ _ 4 0 short_written_reachable rfl).elim
      (fun passes e => e.elim (fun done e1 => ⟨passes, done, e1.1, e1.2.1, e1.2.2.2.1⟩))⟩

/-- C12. A write of zero bytes does not stop the flush. `fwrite` returns a `size_t`
and the test in `rrf_service` is `written < 0`, which 0 does not meet. On a host
whose `fwrite` returns 0, with the two blocks of one 12-byte record pending, a pass
of the loop reports no error (the queue of the handle stays empty and the fallback
slot stays clear), leaves the chain and the `written` cursor of the head block as
they were, advances the write counter from 0 to 1, and goes round again; and
`rrf_service` does not return, whatever number of passes it is given. -/
theorem zero_write_not_reported :
    (stuck_written LP64).2.2.map (fun h => (h.pending, h.write_index, h.errors))
      = some ([6, 7], 0, 0) ∧
    ((stuck_written LP64).2.1.blocks 6).written = 0 ∧
    ((stuck_written LP64).2.2.bind
        (fun h => rrf_service_iter LP64 (stuck_written LP64).2.1 h)).map
        (fun r => (r.1, r.2.2.pending, r.2.2.write_index)) = some (none, [6, 7], 1) ∧
    ((stuck_written LP64).2.2.bind
        (fun h => rrf_service_iter LP64 (stuck_written LP64).2.1 h)).map
        (fun r => (r.2.2.errors, r.2.1.rrf_sys_error.code, (r.2.1.blocks 6).written))
      = some (0, 0, 0) ∧
    ∀ fuel, rrf_service LP64 fuel (stuck_written LP64).2.1 (stuck_written LP64).2.2 = none := by
  refine ⟨by decide, by decide, by decide, by decide, ?_⟩
  intro fuel
  have e : (stuck_written LP64).2.2
      = some ((stuck_written LP64).2.2.getD (rrf_handle_new "demo" 2 4096)) := rfl
  rw [e]
  unfold rrf_service
  dsimp only
  rw [zero_write_spins LP64 fuel (stuck_written LP64).2.1 _ 6 0 [7] (by decide) (by decide) ?_
    (by decide) (by decide) (by decide)]
  · rfl
  · intro n hn
    have hc : (stuck_written LP64).2.1.host.calls = 5 := by decide
    rw [hc] at hn
    show (if n < 5 then none else some 0) = some 0
    rw [if_neg (by omega)]

/-- C13, as the claim states it, fails for a record size of 0. With a record that is
not NULL, a size of 0 and a context whose handle and callback are both NULL,
`rrf_write_async` returns 1 and reports nothing: the test of the size comes before
the checks of the context. -/
theorem malformed_context_passes_at_size_zero :
    (rrf_write_async LP64 (demo_process LP64) (some (demo_handle LP64)) (some [])
        0 (some ⟨none, none, 0, none, 0⟩)).1 = 1 ∧
    (rrf_write_async LP64 (demo_process LP64) (some (demo_handle LP64)) (some [])
        0 (some ⟨none, none, 0, none, 0⟩)).2.2.map (fun h => h.errors) = some 0 ∧
    (rrf_write_async LP64 (demo_process LP64) (some (demo_handle LP64)) (some [])
        0 (some ⟨none, none, 0, none, 0⟩)).2.1.rrf_sys_error = rrf_error_zero := by
  decide

/-- C13, amended. For every handle, `rrf_write_async` returns 0 and reports
`RRF_INVALID_ARGUMENT` whenever the record pointer is NULL (for every size, 0
included), or the size is not 0 and a context is supplied whose handle or callback
is NULL; it then buffers nothing (free list, pending chain, current block and block
memory are as before), makes no library call and leaves the registered context
unchanged. -/
theorem argument_validation (P : Platform) (g : Process) (h : rrf_handle_t)
    (record : Option (List Nat)) (size : Nat) (ctx : Option rrf_context_t)
    (hbad : record = none ∨
      (size ≠ 0 ∧ ∃ c, ctx = some c ∧ (c.handle = none ∨ c.callback = none))) :
    ∃ g1 h1, rrf_write_async P g (some h) record size ctx = (0, g1, some h1) ∧
      reported RRF_INVALID_ARGUMENT g h g1 h1 ∧ h1.context = h.context ∧
      h1.pending = h.pending ∧ h1.current = h.current ∧
      g1.rrf_block_cache_head = g.rrf_block_cache_head ∧ g1.blocks = g.blocks ∧
      g1.host = g.host := by
  have hcase : record = none ∨ (size ≠ 0 ∧ ¬ ctx_ok ctx) := by
    rcases hbad with e | ⟨hs, c, hc, hn⟩
    · exact Or.inl e
    · refine Or.inr ⟨hs, ?_⟩
      intro hok
      have := hok c hc
      rcases hn with hn | hn
      · rw [hn] at this; exact absurd this.1 (by decide)
      · rw [hn] at this; exact absurd this.2 (by decide)
  rcases rrf_write_async_cases P g h record size ctx with
    ⟨e1, e2, _⟩ | ⟨_, name, e⟩ | ⟨e1, _, e3, _, _⟩ | ⟨r, e1, _, e3, _, _⟩
  · rcases hcase with e | ⟨hs, _⟩
    · rw [e] at e1; exact absurd e1 (by decide)
    · exact absurd e2 hs
  · obtain ⟨fr, f2, _, _, _⟩ := RRF_ERROR_frame g h RRF_INVALID_ARGUMENT (some name) 207
    exact ⟨_, _, e, reported_RRF_ERROR RRF_INVALID_ARGUMENT g g h h (some name) 207 rfl rfl rfl,
      fr.context, fr.pending, fr.current, fr.head, fr.blocks, f2⟩
  · rcases hcase with e | ⟨_, hn⟩
    · rw [e] at e1; exact absurd e1 (by decide)
    · exact absurd e3 hn
  · rcases hcase with e | ⟨_, hn⟩
    · rw [e] at e1; cases e1
    · exact absurd e3 hn

theorem argument_validation_witness :
    ((none : Option (List Nat)) = none ∨
      (12 ≠ 0 ∧ ∃ c, (none : Option rrf_context_t) = some c ∧
        (c.handle = none ∨ c.callback = none))) ∧
    ∃ g1 h1, rrf_write_async LP64 (demo_process LP64) (some (demo_handle LP64)) none 12 none
        = (0, g1, some h1) ∧
      reported RRF_INVALID_ARGUMENT (demo_process LP64) (demo_handle LP64) g1 h1 ∧
      h1.pending = (demo_handle LP64).pending :=
  ⟨Or.inl rfl,
    (argument_validation LP64 (demo_process LP64) (demo_handle LP64) none 12 none
      (Or.inl rfl)).elim
      (fun g1 e => e.elim (fun h1 e1 => ⟨g1, h1, e1.1, e1.2.1, e1.2.2.2.1⟩))⟩


/-- C14. A close can lose a length word. After a 3-byte record has been written and
flushed, the current block of the handle is still block 6, which `rrf_service` has
returned to the free list. A second write, of 5 bytes, succeeds; its length word goes
into block 6 and its payload into a fresh block. `rrf_close` then returns 0 with
nothing pending, having written the payload of the second record only: the file
holds the stamp, the first record and its length word, and the 5 payload bytes, and
the length word of the second record is in no file. The same happens with 4-byte
pointers. -/
theorem close_loses_length_word :
    (dangling_second LP64).map (fun r => r.1) = some 1 ∧
    (dangling_closed LP64).map (fun r => (r.1, r.2.2.map (fun h => h.pending)))
      = some (0, some []) ∧
    (dangling_closed LP64).map (fun r => r.2.1.flushed)
      = some [(0, [1, 2, 3]), (0, [3, 0, 0, 0, 0, 0, 0, 0]), (0, [4, 5, 6, 7, 8])] ∧
    (dangling_closed LP64).map (fun r => (r.2.1.host.files 0).drop 16)
      = some [1, 2, 3, 3, 0, 0, 0, 0, 0, 0, 0, 4, 5, 6, 7, 8] ∧
    (dangling_closed LP64).map (fun r => r.2.1.host.files 1) = some [] ∧
    (dangling_closed ILP32).map (fun r => r.2.1.flushed)
      = some [(0, [1, 2, 3]), (0, [3, 0, 0, 0]), (0, [4, 5, 6, 7, 8])] := by
  decide

/-- C15. `rrf_close` does not follow the success convention of the library. On the
fresh demo handle, with nothing pending, it succeeds and returns 0; on a NULL handle
it fails and returns 2. So `if(!rrf_close(&h))` in the test takes its error branch
exactly when the close succeeded, whereas `rrf_create` returns 1 on success and 0
on failure. -/
theorem close_returns_zero_on_success :
    (rrf_close LP64 1 1 (demo_process LP64) (some (demo_handle LP64))).map (fun r => r.1)
      = some 0 ∧
    (rrf_close LP64 1 1 (demo_process LP64) (some (demo_handle LP64))).map
        (fun r => (r.2.1.host.closed, r.2.1.rrf_handles_active, r.2.1.rrf_block_cache_buffer))
      = some ([0], 0, false) ∧
    (rrf_close LP64 1 1 (demo_process LP64) none).map (fun r => r.1) = some 2 ∧
    (rrf_close LP64 1 1 (demo_process LP64) none).map
        (fun r => r.2.1.rrf_sys_error.code) = some RRF_INVALID_ARGUMENT ∧
    (demo_created LP64).1 = 1 ∧
    (rrf_create LP64 (Process.start zero_memory demo_host) false "demo" 2 4096).1 = 0 := by
  decide


/-- C16. The roll step of `rrf_roll_file_handles`, for a handle with at least one
partition whose open stream is that of partition `file_index`, on a host whose
library calls succeed. When the tracked byte count has reached the size cap the
call returns 1, the 16 bytes of the stamp are appended to the old file, the old
stream is closed, the partition index becomes `(index + 1) mod partitions`, which is
below `partitions`, that partition is opened (so truncated) and holds the 16 bytes
of its stamp, the open stream is that of the new index and the tracked byte count is
16; every other file is untouched, as are the pool and the chains. When the tracked
count is below the cap the call returns 1 and changes nothing. -/
theorem roll_step (P : Platform) (g : Process) (h : rrf_handle_t)
    (hf : h.current_file = some h.file_index) (hp : 1 ≤ h.partitions)
    (hd : g.host.reliable) :
    (h.current_file_bytes < h.size → rrf_roll_file_handles P g h = some (1, g, h)) ∧
    (h.size ≤ h.current_file_bytes →
      ∃ g1 h1, rrf_roll_file_handles P g h = some (1, g1, h1) ∧
        h1.file_index = (h.file_index + 1) % h.partitions ∧ h1.file_index < h.partitions ∧
        h1.current_file = some h1.file_index ∧ h1.current_file_bytes = 16 ∧
        g1.host.closed = g.host.closed ++ [h.file_index] ∧
        g1.host.files h1.file_index = stamp_bytes P h ∧
        (h1.file_index ≠ h.file_index →
          g1.host.files h.file_index = g.host.files h.file_index ++ stamp_bytes P h) ∧
        (∀ j, j ≠ h1.file_index → j ≠ h.file_index → g1.host.files j = g.host.files j) ∧
        PoolFrame g h g1 h1) := by
  refine ⟨rrf_roll_below P g h, ?_⟩
  intro hb
  have hp0 : h.partitions ≠ 0 := by omega
  obtain ⟨t1, t2, t3, t4, t5⟩ := rrf_stamp_spec P g h h.file_index
  have hp1 : (rrf_stamp P g h h.file_index).2.2.partitions ≠ 0 := by
    rw [t1.partitions]; exact hp0
  obtain ⟨G, hG⟩ : ∃ G : Process, G = { (rrf_stamp P g h h.file_index).2.1 with
      host := (rrf_stamp P g h h.file_index).2.1.host.fclose h.file_index } := ⟨_, rfl⟩
  obtain ⟨H, hH⟩ : ∃ H : rrf_handle_t, H = { (rrf_stamp P g h h.file_index).2.2 with
      current_file := none, current_file_bytes := 0,
      file_index := ((rrf_stamp P g h h.file_index).2.2.file_index + 1)
        % (rrf_stamp P g h h.file_index).2.2.partitions } := ⟨_, rfl⟩
  have hnone : H.current_file = none := by rw [hH]
  have hidx : H.file_index = (h.file_index + 1) % h.partitions := by
    rw [hH]
    show ((rrf_stamp P g h h.file_index).2.2.file_index + 1)
        % (rrf_stamp P g h h.file_index).2.2.partitions = _
    rw [t3, t1.partitions]
  have hbytes : H.current_file_bytes = 0 := by rw [hH]
  have hstamp : stamp_bytes P H = stamp_bytes P h := by
    rw [hH]
    exact stamp_bytes_congr P t1.partitions t1.size t1.write_index
  have hfr : PoolFrame g h G H := by
    rw [hG, hH]
    exact ⟨t1.head, t1.buffer, t1.blocks, t1.active, t1.flushed,
      same_oracles_trans t1.oracles (fclose_oracles _ h.file_index), t1.pending,
      t1.current, t1.context, t1.partitions, t1.size, t1.filepath, t1.write_index⟩
  have hfiles : G.host.files
      = upd g.host.files h.file_index (g.host.files h.file_index ++ stamp_bytes P h) := by
    rw [hG]
    show (rrf_stamp P g h h.file_index).2.1.host.files = _
    rcases t4 with ⟨a, _⟩ | ⟨_, _, c⟩
    · have := t5 hd
      omega
    · exact c
  have hclosed : G.host.closed = g.host.closed ++ [h.file_index] := by
    rw [hG]
    show (rrf_stamp P g h h.file_index).2.1.host.closed ++ [h.file_index] = _
    rw [rrf_stamp_closed]
  have key : rrf_roll_file_handles P g h = some (rrf_ensure_file_handles P G H) := by
    unfold rrf_roll_file_handles
    rw [hf]
    dsimp only
    rw [if_pos hb, if_neg hp1, hG, hH]
  obtain ⟨e1, e2, e3, e4⟩ := rrf_ensure_spec P G H hnone
  have hone := e4 (reliable_of_same_oracles hfr.oracles hd)
  rcases e3 with ⟨a, _⟩ | ⟨_, b, c, cf, co⟩
  · omega
  · rw [hidx] at e2 b cf co
    refine ⟨(rrf_ensure_file_handles P G H).2.1, (rrf_ensure_file_handles P G H).2.2,
      ?_, e2, ?_, ?_, ?_, ?_, ?_, ?_, ?_, ?_⟩
    · rw [key, ← hone]
    · rw [e2]; exact Nat.mod_lt _ (by omega)
    · rw [b, e2]
    · rw [c, hbytes]; rfl
    · rw [rrf_ensure_closed, hclosed]
    · rw [e2, cf, hstamp]
    · intro hne
      rw [e2] at hne
      rw [co _ (Ne.symm hne), hfiles, upd_same]
    · intro j hj1 hj2
      rw [e2] at hj1
      rw [co _ hj1, hfiles, upd_other _ _ _ _ hj2]
    · exact PoolFrame_trans hfr e1

theorem roll_step_witness :
    ((demo_small_handle LP64).current_file = some (demo_small_handle LP64).file_index ∧
      1 ≤ (demo_small_handle LP64).partitions ∧ (demo_small_process LP64).host.reliable ∧
      (demo_small_handle LP64).size ≤ (demo_small_handle LP64).current_file_bytes) ∧
    ∃ g1 h1, rrf_roll_file_handles LP64 (demo_small_process LP64) (demo_small_handle LP64)
        = some (1, g1, h1) ∧
      h1.file_index = ((demo_small_handle LP64).file_index + 1)
        % (demo_small_handle LP64).partitions ∧
      h1.current_file = some h1.file_index ∧ h1.current_file_bytes = 16 ∧
      g1.host.closed = (demo_small_process LP64).host.closed ++ [(demo_small_handle LP64).file_index] :=
  ⟨⟨by decide, by decide, ⟨fun _ => rfl, fun _ => rfl, fun _ => rfl, fun _ => rfl⟩, by decide⟩,
    ((roll_step LP64 (demo_small_process LP64) (demo_small_handle LP64) (by decide) (by decide)
      ⟨fun _ => rfl, fun _ => rfl, fun _ => rfl, fun _ => rfl⟩).2 (by decide)).elim
      (fun g1 e => e.elim (fun h1 e1 =>
        ⟨g1, h1, e1.1, e1.2.1, e1.2.2.2.1, e1.2.2.2.2.1, e1.2.2.2.2.2.1⟩))⟩

/-- C17. The current block of a handle can be on the free list, and
`rrf_write_async` then appends to it. After a 3-byte record has been written and
flushed, the pending chain is empty, the free list holds all 8 blocks, and the
current block of the handle is still block 6, whose `count` is 3. A second write, of
5 bytes, returns 1: it stores its length word in block 6 at offset 3, raising the
`count` of that block to 11, while block 6 stays on the free list and is not on the
pending chain. -/
theorem current_block_on_free_list :
    (dangling_served LP64).map (fun r => (r.1, r.2.1.rrf_block_cache_head))
      = some (0, [7, 6, 5, 4, 3, 2, 1, 0]) ∧
    (dangling_served LP64).map (fun r => r.2.2.map (fun h => (h.pending, h.current)))
      = some (some ([], some 6)) ∧
    (dangling_served LP64).map (fun r => (r.2.1.blocks 6).count) = some 3 ∧
    (dangling_second LP64).map (fun r => (r.1, r.2.1.rrf_block_cache_head))
      = some (1, [6, 5, 4, 3, 2, 1, 0]) ∧
    (dangling_second LP64).map (fun r => r.2.2.map (fun h => h.pending)) = some (some [7]) ∧
    (dangling_second LP64).map
        (fun r => ((r.2.1.blocks 6).count, load (r.2.1.blocks 6).buffer 3 8))
      = some (11, [5, 0, 0, 0, 0, 0, 0, 0]) := by
  decide

/-- C19. With 8-byte pointers a pending block can hold more than its buffer. After
a record of 4090 bytes and then a record of 1 byte, both accepted, block 6 is on the
pending chain with `written = 0` and `count = 4098`, above the 4096 bytes of its
buffer: the length word of the second record went in at offset 4090 and advanced
`count` by `sizeof(header)`, the size of a pointer. `rrf_service` then returns having
handed `fwrite` the bytes of the three pending blocks, 4098 of them from block 6.
With 4-byte pointers the same calls leave `count` at 4094. -/
theorem block_count_exceeds_buffer :
    (demo_overrun LP64).1 = 1 ∧
    (demo_overrun LP64).2.2.map (fun h => h.pending) = some [5, 6, 7] ∧
    ((demo_overrun LP64).2.1.blocks 6).written = 0 ∧
    ((demo_overrun LP64).2.1.blocks 6).count = 4098 ∧
    RRF_WRITE_BLOCK_SIZE < ((demo_overrun LP64).2.1.blocks 6).count ∧
    ((demo_overrun ILP32).2.1.blocks 6).count = 4094 ∧
    (block_bytes (demo_overrun LP64).2.1 6).length = 4098 ∧
    ∃ g1 h1, rrf_service LP64 4 (demo_overrun LP64).2.1 (demo_overrun LP64).2.2
        = some (0, g1, some h1) ∧
      g1.flushed.map Prod.snd = (demo_overrun LP64).2.1.flushed.map Prod.snd ++
        [block_bytes (demo_overrun LP64).2.1 5, block_bytes (demo_overrun LP64).2.1 6,
          block_bytes (demo_overrun LP64).2.1 7] := by
  refine ⟨by decide, by decide, by decide, by decide, by decide, by decide, ?_, ?_⟩
  · rw [block_bytes_length]
    decide
  · have e : (demo_overrun LP64).2.2
        = some ((demo_overrun LP64).2.2.getD (demo_handle LP64)) := rfl
    obtain ⟨g1, h1, e1, _, _, _, _, e5, _⟩ := rrf_service_loop_drains LP64 [5, 6, 7]
      (demo_overrun LP64).2.1 ((demo_overrun LP64).2.2.getD (demo_handle LP64))
      ⟨fun _ => rfl, fun _ => rfl, fun _ => rfl, fun _ => rfl⟩ (by decide) (by decide)
      (by decide) (by decide) (by decide)
    have e2 : rrf_service_loop LP64 4 (demo_overrun LP64).2.1
        ((demo_overrun LP64).2.2.getD (demo_handle LP64)) = some (0, g1, h1) := e1
    refine ⟨g1, h1, ?_, e5⟩
    rw [e]
    unfold rrf_service
    dsimp only
    rw [e2]
    rfl

/-- C20. `rrf_write` returns the pending flag of `rrf_service`, not a success flag.
From a reachable state and for a non-null record: when `rrf_write_async` fails,
`rrf_write` returns 0 in the state `rrf_write_async` left; when it succeeds,
`rrf_write` is the call of `rrf_service` on that state, and the value that call
returns is 0 when it leaves nothing pending and 1 when it leaves a block pending. So
a write that is accepted and drained returns 0, as a write that is refused does; and
on a reliable host with a non-zero partition count a write that is accepted does
return, with 0 and an empty pending chain. On a host whose `fopen` fails at the
rotation, a write of the demo record on a handle with a cap of 20 bytes is accepted
and returns 1, with the block of the length word still pending and
`RRF_OPEN_FAILED` queued. -/
theorem write_returns_pending_flag :
    (∀ (P : Platform) (d : Host) (g : Process) (h : rrf_handle_t) (r : List Nat)
        (fuel : Nat), Reachable P d g h → r.length < UINT_MOD →
      ((rrf_write_async P g (some h) (some r) r.length none).1 = 0 →
        rrf_write P fuel g (some h) (some r) r.length
          = some (0, (rrf_write_async P g (some h) (some r) r.length none).2.1,
              (rrf_write_async P g (some h) (some r) r.length none).2.2)) ∧
      ((rrf_write_async P g (some h) (some r) r.length none).1 ≠ 0 →
        rrf_write P fuel g (some h) (some r) r.length
          = rrf_service P fuel (rrf_write_async P g (some h) (some r) r.length none).2.1
              (rrf_write_async P g (some h) (some r) r.length none).2.2) ∧
      (∀ ret g1 h1,
        rrf_service P fuel (rrf_write_async P g (some h) (some r) r.length none).2.1
            (rrf_write_async P g (some h) (some r) r.length none).2.2
          = some (ret, g1, some h1) →
        ret = if h1.pending = [] then 0 else 1) ∧
      (∀ ret g1 h1, (rrf_write_async P g (some h) (some r) r.length none).1 ≠ 0 →
        rrf_write P fuel g (some h) (some r) r.length = some (ret, g1, some h1) →
        (h1.pending = [] → ret = 0) ∧ (h1.pending ≠ [] → ret = 1)) ∧
      (d.reliable → h.partitions ≠ 0 →
        (rrf_write_async P g (some h) (some r) r.length none).1 ≠ 0 →
        ∃ n g1 h1, rrf_write P n g (some h) (some r) r.length = some (0, g1, some h1) ∧
          h1.pending = [])) ∧
    (rrf_write_async LP64 (rotation_created LP64).2.1 (rotation_created LP64).2.2
      (some demo_record) 12 none).1 = 1 ∧
    (rotation_write LP64).map (fun r => r.1) = some 1 ∧
    (rotation_write LP64).map (fun r => r.2.2.map (fun h => (h.pending, h.errors)))
      = some (some ([7], 1)) ∧
    (rotation_write LP64).map (fun r => r.2.2.map (fun h => (h.errorbuf 0).code))
      = some (some RRF_OPEN_FAILED) := by
  refine ⟨?_, by decide, by decide, by decide, by decide⟩
  intro P d g h r fuel hr hlen
  obtain ⟨h0, e0⟩ := rrf_write_async_some P g h (some r) r.length none
  have hr1 : Reachable P d (rrf_write_async P g (some h) (some r) r.length none).2.1 h0 :=
    Reachable.write_async g _ h h0 (some r) r.length none
      (rrf_write_async P g (some h) (some r) r.length none).1 hr hlen
      (by intro r1 e; cases e; rfl) (by rw [← e0])
  have hwz : (rrf_write_async P g (some h) (some r) r.length none).1 = 0 →
      rrf_write P fuel g (some h) (some r) r.length
        = some (0, (rrf_write_async P g (some h) (some r) r.length none).2.1,
            (rrf_write_async P g (some h) (some r) r.length none).2.2) := by
    intro hz
    unfold rrf_write
    dsimp only
    rw [if_pos hz]
  have hwn : ∀ n, (rrf_write_async P g (some h) (some r) r.length none).1 ≠ 0 →
      rrf_write P n g (some h) (some r) r.length
        = rrf_service P n (rrf_write_async P g (some h) (some r) r.length none).2.1
            (rrf_write_async P g (some h) (some r) r.length none).2.2 := by
    intro n hnz
    unfold rrf_write
    dsimp only
    rw [if_neg hnz]
  have hflag : ∀ ret g1 h1,
      rrf_service P fuel (rrf_write_async P g (some h) (some r) r.length none).2.1
          (rrf_write_async P g (some h) (some r) r.length none).2.2
        = some (ret, g1, some h1) →
      ret = if h1.pending = [] then 0 else 1 := by
    intro ret g1 h1 hs
    rw [e0] at hs
    exact rrf_service_flag P d _ g1 h0 h1 fuel ret hr1 hs
  refine ⟨hwz, hwn fuel, hflag, ?_, ?_⟩
  · intro ret g1 h1 hnz hw
    rw [hwn fuel hnz] at hw
    have hf := hflag ret g1 h1 hw
    constructor
    · intro hp
      rw [if_pos hp] at hf
      exact hf
    · intro hp
      rw [if_neg hp] at hf
      exact hf
  · intro hd hpart hnz
    have i1 := Reachable_PoolInv P d _ _ hr1
    have j1 := Reachable_FileInv P d _ _ hr1
    have j0 := Reachable_FileInv P d _ _ hr
    have hp0 : h0.partitions = h.partitions := by
      by_cases hz : r.length = 0
      · rcases rrf_write_async_cases P g h (some r) r.length none with
          ⟨_, _, e⟩ | ⟨hb, _⟩ | ⟨_, hs, _⟩ | ⟨_, _, hs, _⟩
        · rw [e] at e0
          cases e0
          rfl
        · rcases hb with hb | ⟨hs, _⟩
          · cases hb
          · exact absurd hz hs
        · exact absurd hz hs
        · exact absurd hz hs
      · have eo := rrf_write_async_open P g h r r.length none (j0.opened hd) hz ctx_ok_none
        obtain ⟨g2, h2, taken, fr, _, _, _, _, hres⟩ :=
          buffer_record_spec P g h r r.length none
        rcases hres with ⟨e, _⟩ | ⟨line, e, _⟩
        · rw [eo, e] at e0
          cases e0
          exact fr.partitions
        · rw [eo, e] at hnz
          exact absurd rfl hnz
    obtain ⟨g3, h3, e3, hp3, _⟩ := rrf_service_loop_drains P h0.pending _ h0
      (reliable_of_same_oracles j1.oracles hd) rfl (j1.opened hd) (by rw [hp0]; exact hpart)
      (PoolInv_pending_nodup i1) i1.cursors
    refine ⟨h0.pending.length + 1, g3, h3, ?_, hp3⟩
    rw [hwn _ hnz, e0]
    unfold rrf_service
    dsimp only
    rw [e3]
    rfl

theorem write_returns_pending_flag_witness :
    Reachable LP64 demo_host (demo_process LP64) (demo_handle LP64) ∧
    demo_record.length < UINT_MOD ∧
    (rrf_write_async LP64 (demo_process LP64) (some (demo_handle LP64)) (some demo_record)
        demo_record.length none).1 ≠ 0 ∧
    ∃ n g1 h1, rrf_write LP64 n (demo_process LP64) (some (demo_handle LP64)) (some demo_record)
        demo_record.length = some (0, g1, some h1) ∧ h1.pending = [] :=
  ⟨demo_reachable, by decide, by decide,
    (write_returns_pending_flag.1 LP64 demo_host (demo_process LP64) (demo_handle LP64)
      demo_record 0 demo_reachable (by decide)).2.2.2.2 demo_host_reliable (by decide)
      (by decide)⟩

end RRFile
